import Mathlib

/-!
# CMS: heuristic schema inference, seeding and template re-materialization

A shallow embedding of `src/services/heuristicService.js`, `src/services/dbService.js`,
`src/services/previewService.js` and `src/services/exportService.js`.

Conventions of the embedding.

* A JavaScript string is a Lean `String`; one `Char` stands for one UTF-16 code unit, so the
  embedding speaks about strings of the Basic Multilingual Plane.
* A parsed document (what `cheerio.load` returns) is a tree of `Node`s; an element of the
  document is addressed by its `Path` from the root element.
* cheerio's HTML parser and serializer, the file system and the clock are parameters.
-/

namespace CMS

/-! ## JavaScript strings -/

/-- ECMAScript WhiteSpace and LineTerminator code units: what the regular expression class
`\s` matches and what `String.prototype.trim` strips. -/
def isJsSpace (c : Char) : Bool :=
  let n := c.toNat
  n = 0x09 || n = 0x0a || n = 0x0b || n = 0x0c || n = 0x0d || n = 0x20 || n = 0xa0 ||
  n = 0x1680 || (0x2000 ≤ n && n ≤ 0x200a) || n = 0x2028 || n = 0x2029 || n = 0x202f ||
  n = 0x205f || n = 0x3000 || n = 0xfeff

/-- The character class `[a-zA-Z0-9_]`. -/
def isWordChar (c : Char) : Bool :=
  let n := c.toNat
  (97 ≤ n && n ≤ 122) || (65 ≤ n && n ≤ 90) || (48 ≤ n && n ≤ 57) || n = 95

/-- One step of `replace(/[^a-zA-Z0-9_]/g, '_')`. -/
def sanitizeChar (c : Char) : Char :=
  if isWordChar c then c else '_'

/-- The name sanitizer `s.replace(/[^a-zA-Z0-9_]/g, '_')` (heuristicService.js lines 57, 89, 114
and 120; dbService.js lines 25, 42, 83, 99, 152, 229). -/
def sanitize (s : String) : String :=
  ⟨s.data.map sanitizeChar⟩

/-- The method `String.prototype.trim`. -/
def jsTrim (s : String) : String :=
  ⟨((s.data.dropWhile isJsSpace).reverse.dropWhile isJsSpace).reverse⟩

/-- The number of UTF-16 code units of a character: two for a character beyond the basic
plane, which JavaScript holds as a surrogate pair. -/
def utf16Units (c : Char) : Nat :=
  if c.toNat < 65536 then 1 else 2

/-- The property `s.length` of a JavaScript string: its number of UTF-16 code units. -/
def jsLength (s : String) : Nat :=
  (s.data.map utf16Units).sum

/-- Worker of `splitSpaces`: `inRun` says that the previous code unit was white space. -/
def splitSpacesAux : Bool → List Char → List (List Char)
  | _, [] => [[]]
  | inRun, c :: cs =>
    if isJsSpace c then
      if inRun then splitSpacesAux true cs else [] :: splitSpacesAux true cs
    else
      match splitSpacesAux false cs with
      | t :: ts => (c :: t) :: ts
      | [] => [[c]]

/-- The call `s.split(/\s+/)`: the pieces of `s` between maximal runs of white space. A leading or
trailing run leaves an empty piece, and the empty string gives one empty piece. -/
def splitSpaces (s : String) : List String :=
  (splitSpacesAux false s.data).map String.mk

/-- Whether `p` is an initial segment of `s`. -/
def startsWithChars : List Char → List Char → Bool
  | [], _ => true
  | _ :: _, [] => false
  | a :: p, b :: s => a == b && startsWithChars p s

/-- Whether `p` occurs in `s` as a contiguous block. -/
def occursIn (p : List Char) : List Char → Bool
  | [] => p.isEmpty
  | c :: s => startsWithChars p (c :: s) || occursIn p s

/-- The call `s.includes(sub)`; also `s.match(/sub/)` for a pattern without metacharacters. -/
def jsIncludes (s sub : String) : Bool :=
  occursIn sub.data s.data

/-- The call `s.startsWith(p)`. -/
def jsStartsWith (s p : String) : Bool :=
  startsWithChars p.data s.data

/-- Code-unit order on strings, the order of `Array.prototype.sort` without a comparator. -/
def charsLe : List Char → List Char → Bool
  | [], _ => true
  | _ :: _, [] => false
  | a :: s, b :: t => a.toNat < b.toNat || (a.toNat == b.toNat && charsLe s t)

/-- Insertion into a list sorted by `charsLe`. -/
def sortInsert (x : String) : List String → List String
  | [] => [x]
  | y :: ys => if charsLe x.data y.data then x :: y :: ys else y :: sortInsert x ys

/-- The call `arr.sort()` on an array of strings. -/
def jsSort (l : List String) : List String :=
  l.foldr sortInsert []

/-- The call `arr.join(sep)`. -/
def jsJoin (sep : String) : List String → String
  | [] => ""
  | [x] => x
  | x :: y :: rest => x ++ sep ++ jsJoin sep (y :: rest)

/-! ## Fields and the collision resolver (heuristicService.js, `extractFields`) -/

/-- A schema field, `{ name, type, selector, required }`. -/
structure Field where
  name : String
  type : String
  selector : String
  required : Bool
deriving DecidableEq, Repr

/-- The two locals that `addField` closes over: the `fields` array and the `usedNames` set
(a JavaScript `Set` keeps insertion order, so it is a list without repetition). -/
structure FieldsState where
  fields : List Field
  usedNames : List String
deriving DecidableEq, Repr

/-- The call `usedNames.add(x)`. -/
def setAdd (used : List String) (x : String) : List String :=
  if x ∈ used then used else used ++ [x]

/-- The loop `while (usedNames.has(finalName)) ...` of `addField` (lines 117-121), for at most
`fuel` tests of its condition. The state of the loop is `finalName` and `counter`; `none` means
that the fuel was spent before the loop left. -/
def addFieldLoop (name : String) (usedNames : List String) : Nat → String → Nat → Option String
  | 0, _, _ => none
  | fuel + 1, finalName, counter =>
    if finalName ∈ usedNames then
      addFieldLoop name usedNames fuel (sanitize (name ++ "_" ++ toString counter)) (counter + 1)
    else
      some finalName

/-- The helper `addField(name, type, selector)` (lines 110-124). The loop is given
`usedNames.length + 1` tests, which always suffice (`addFieldLoop_enough`). -/
def addField (name type selector : String) (st : FieldsState) : FieldsState :=
  match addFieldLoop name st.usedNames (st.usedNames.length + 1) (sanitize name) 1 with
  | some finalName =>
    { fields := st.fields ++ [{ name := finalName, type := type, selector := selector,
                                required := false }],
      usedNames := setAdd st.usedNames finalName }
  | none => st

/-- The state of a fresh call of `extractFields`: no field, no used name. -/
def FieldsState.empty : FieldsState :=
  { fields := [], usedNames := [] }

/-- Submitting the same base name `n` times to `addField`, starting from the empty state. -/
def submitSame (name type selector : String) : Nat → FieldsState
  | 0 => FieldsState.empty
  | n + 1 => addField name type selector (submitSame name type selector n)


/-! ## The document tree (what `cheerio.load` returns) -/

/-- A node of the parsed document: an element with its tag name, attributes and child nodes,
or a text node. Comments and the doctype carry no content for the services and are left out. -/
inductive Node where
  | elem (tag : String) (attrs : List (String × String)) (children : List Node)
  | text (data : String)
deriving Repr

mutual
/-- Equality of nodes is decidable. -/
def Node.decEq : (a b : Node) → Decidable (a = b)
  | .text d, .text e =>
    if h : d = e then isTrue (by rw [h]) else isFalse (by intro c; injection c; contradiction)
  | .text _, .elem _ _ _ => isFalse (by intro c; cases c)
  | .elem _ _ _, .text _ => isFalse (by intro c; cases c)
  | .elem t a cs, .elem u b ds =>
    if h1 : t = u then
      if h2 : a = b then
        match Node.decEqList cs ds with
        | isTrue h3 => isTrue (by rw [h1, h2, h3])
        | isFalse h3 => isFalse (by intro c; injection c; contradiction)
      else isFalse (by intro c; injection c; contradiction)
    else isFalse (by intro c; injection c; contradiction)
/-- Equality of lists of nodes is decidable. -/
def Node.decEqList : (a b : List Node) → Decidable (a = b)
  | [], [] => isTrue rfl
  | [], _ :: _ => isFalse (by intro c; cases c)
  | _ :: _, [] => isFalse (by intro c; cases c)
  | x :: xs, y :: ys =>
    match Node.decEq x y with
    | isTrue h1 =>
      match Node.decEqList xs ys with
      | isTrue h2 => isTrue (by rw [h1, h2])
      | isFalse h2 => isFalse (by intro c; injection c; contradiction)
    | isFalse h1 => isFalse (by intro c; injection c; contradiction)
end

instance : DecidableEq Node := Node.decEq

/-- Whether the node is an element (cheerio's `isTag`: type `tag`, `script` or `style`). -/
def Node.isElem : Node → Bool
  | .elem _ _ _ => true
  | .text _ => false

/-- The property `elem.name`. -/
def Node.tag : Node → String
  | .elem t _ _ => t
  | .text _ => ""

/-- The attributes of an element. -/
def Node.attrs : Node → List (String × String)
  | .elem _ a _ => a
  | .text _ => []

/-- The child nodes of an element, text nodes included. -/
def Node.childNodes : Node → List Node
  | .elem _ _ cs => cs
  | .text _ => []

/-- The method `$el.children()`: the child elements. -/
def Node.children (n : Node) : List Node :=
  n.childNodes.filter Node.isElem

/-- The property `elem.type` is `'tag'`: an element other than `script` and `style`. -/
def Node.isTagType (n : Node) : Bool :=
  n.isElem && n.tag != "script" && n.tag != "style"

/-- The getter `$el.attr(name)`; `none` is `undefined`. -/
def Node.attr (n : Node) (name : String) : Option String :=
  (n.attrs.find? (fun kv => kv.1 == name)).map Prod.snd

/-- The expression `$el.attr(name) || ''`. -/
def Node.attrOrEmpty (n : Node) (name : String) : String :=
  match n.attr name with
  | some v => v
  | none => ""

mutual
/-- The getter `$el.text()`: the text of all text nodes below the node, concatenated, the text of
`script` and `style` elements included. -/
def Node.textContent : Node → String
  | .elem _ _ cs => textOfList cs
  | .text d => d
/-- The text of a list of nodes, concatenated. -/
def textOfList : List Node → String
  | [] => ""
  | n :: ns => n.textContent ++ textOfList ns
end

mutual
/-- The elements strictly below a node, in document order. -/
def Node.descendants : Node → List Node
  | .elem _ _ cs => descendantsOfList cs
  | .text _ => []
/-- The elements of a list of sibling nodes and below them, in document order. -/
def descendantsOfList : List Node → List Node
  | [] => []
  | n :: ns => (if n.isElem then [n] else []) ++ n.descendants ++ descendantsOfList ns
end

/-- The selection `$('*')` on a document with root element `root`: every element, in document
order. -/
def Node.allElements (root : Node) : List Node :=
  (if root.isElem then [root] else []) ++ root.descendants

/-- The address of a node: the child indices that lead to it from the root element. -/
abbrev Path := List Nat

mutual
/-- The paths of the elements strictly below a node, in document order, relative to it. -/
def Node.descendantPaths : Node → List Path
  | .elem _ _ cs => descendantPathsOfList 0 cs
  | .text _ => []
/-- The paths of the elements of a list of siblings and below them; `i` is the index of the
first sibling. -/
def descendantPathsOfList : Nat → List Node → List Path
  | _, [] => []
  | i, n :: ns =>
    (if n.isElem then [[i]] else []) ++ (n.descendantPaths.map (fun p => i :: p))
      ++ descendantPathsOfList (i + 1) ns
end

/-- The paths of all elements of the document, in document order. -/
def Node.allPaths (root : Node) : List Path :=
  (if root.isElem then [[]] else []) ++ root.descendantPaths

/-- The node at a path, if there is one. -/
def Node.get? : Node → Path → Option Node
  | n, [] => some n
  | .elem _ _ cs, i :: p =>
    match cs[i]? with
    | some c => c.get? p
    | none => none
  | .text _, _ :: _ => none

/-- Replace the `i`-th member of a list by its image under `f`. -/
def modifyNth (f : Node → Node) : Nat → List Node → List Node
  | _, [] => []
  | 0, n :: ns => f n :: ns
  | i + 1, n :: ns => n :: modifyNth f i ns

/-- Replace the node at a path by its image under `f`; a path that leads nowhere changes
nothing. -/
def Node.modifyAt (f : Node → Node) : Path → Node → Node
  | [], n => f n
  | i :: p, .elem t a cs => .elem t a (modifyNth (Node.modifyAt f p) i cs)
  | _ :: _, .text d => .text d

/-! ## Selectors (the fragment of CSS that the services use) -/

/-- An attribute test of a selector: `[name]` or `[name*="sub"]`. -/
inductive AttrTest where
  | present (name : String)
  | includes (name : String) (sub : String)
deriving DecidableEq, Repr

/-- A compound selector: an optional tag name, class names and attribute tests. -/
structure Compound where
  tag : Option String
  classes : List String
  attrs : List AttrTest
deriving DecidableEq, Repr

/-- A selector list `a, b, c`: an element matches when it matches one member. -/
abbrev Selector := List Compound

/-- Whether the element carries the class `k`: `k` is one of the white-space separated tokens
of its `class` attribute. -/
def Node.hasClass (n : Node) (k : String) : Bool :=
  match n.attr "class" with
  | some v => decide (k ∈ splitSpaces v)
  | none => false

/-- Whether an element passes an attribute test. -/
def AttrTest.holds (n : Node) : AttrTest → Bool
  | .present name => (n.attr name).isSome
  | .includes name sub =>
    match n.attr name with
    | some v => jsIncludes v sub
    | none => false

/-- Whether an element matches a compound selector. -/
def Compound.holds (c : Compound) (n : Node) : Bool :=
  n.isElem &&
  (match c.tag with
   | some t => n.tag == t
   | none => true) &&
  c.classes.all (fun k => n.hasClass k) &&
  c.attrs.all (fun t => t.holds n)

/-- The test `$el.is(selector)`. -/
def Selector.holds (s : Selector) (n : Node) : Bool :=
  s.any (fun c => c.holds n)

/-- A selector that is a bare tag name. -/
def selTag (t : String) : Compound :=
  { tag := some t, classes := [], attrs := [] }

/-- The selector `[class*="sub"]`. -/
def selClassIncludes (sub : String) : Compound :=
  { tag := none, classes := [], attrs := [.includes "class" sub] }

/-- The method `$el.find(selector)`: the matching elements strictly below the node, in document
order. -/
def Node.find (n : Node) (s : Selector) : List Node :=
  n.descendants.filter s.holds

/-- Whether the node at a path exists and matches the selector. -/
def Node.holdsAt (root : Node) (s : Selector) (p : Path) : Bool :=
  match root.get? p with
  | some m => s.holds m
  | none => false

/-- The paths, relative to the node, of the elements that `$el.find(selector)` returns. -/
def Node.findPaths (n : Node) (s : Selector) : List Path :=
  n.descendantPaths.filter (n.holdsAt s)

/-- The selection `$(selector)` on the document: the matching elements in document order. -/
def Node.select (root : Node) (s : Selector) : List Node :=
  root.allElements.filter s.holds

/-- The paths of the elements that `$(selector)` returns. -/
def Node.selectPaths (root : Node) (s : Selector) : List Path :=
  root.allPaths.filter (root.holdsAt s)

/-- The method `$(el).closest(selector)` for the element at path `p`: the nearest of the
element and its ancestors that matches, if any. -/
def Node.closest (root : Node) (s : Selector) (p : Path) : Option Path :=
  p.inits.reverse.find? (root.holdsAt s)

/-- The pieces of a list of characters between occurrences of `sep`. -/
def splitOnChar (sep : Char) : List Char → List (List Char)
  | [] => [[]]
  | c :: cs =>
    if c = sep then [] :: splitOnChar sep cs
    else
      match splitOnChar sep cs with
      | t :: ts => (c :: t) :: ts
      | [] => [[c]]

/-- A character of a tag name in a modelled selector: a lower-case letter, a digit, `-`, `_`. -/
def isTagChar (c : Char) : Bool :=
  let n := c.toNat
  (97 ≤ n && n ≤ 122) || (48 ≤ n && n ≤ 57) || n = 45 || n = 95

/-- A character of a class name in a modelled selector: `[A-Za-z0-9_-]`. -/
def isClassChar (c : Char) : Bool :=
  isWordChar c || c.toNat = 45

/-- Parse a selector string of the fragment `tag`, `tag.class`, `.class`, with any number of
classes; the tag in lower case. This is the shape `getUniqueSelector` produces. `none` stands for a
string outside the fragment, about which the embedding says nothing. -/
def parseSelector (s : String) : Option Selector :=
  match splitOnChar '.' s.data with
  | [] => none
  | tagPart :: classParts =>
    if tagPart.all isTagChar && classParts.all (fun k => !k.isEmpty && k.all isClassChar)
        && !(tagPart.isEmpty && classParts.isEmpty) then
      some [{ tag := if tagPart.isEmpty then none else some (String.mk tagPart),
              classes := classParts.map String.mk, attrs := [] }]
    else none

/-- The expression `parts[parts.length - 1]` for `parts = selector.split(' ')`. -/
def lastPart (selector : String) : String :=
  match (splitOnChar ' ' selector.data).getLast? with
  | some t => String.mk t
  | none => ""

/-! ## heuristicService.js -/

/-- A collection or a singleton of the schema, `{ name, fields }`. -/
structure Entry where
  name : String
  fields : List Field
deriving DecidableEq, Repr

/-- The schema `{ collections, singletons }`. -/
structure Schema where
  collections : List Entry
  singletons : List Entry
deriving DecidableEq, Repr

/-- The test `c.match(/active|show|animate/)` of `getUniqueSelector`. -/
def isTransientClass (c : String) : Bool :=
  jsIncludes c "active" || jsIncludes c "show" || jsIncludes c "animate"

/-- The function `getUniqueSelector($, $el, $context)` (lines 158-172): the tag, followed by
the first class that is neither empty nor transient, if there is one. -/
def getUniqueSelector (el : Node) : String :=
  match (splitSpaces (el.attrOrEmpty "class")).filter
      (fun c => c != "" && !isTransientClass c) with
  | c :: _ => el.tag ++ "." ++ c
  | [] => el.tag

/-- The selector `'img'`. -/
def selImg : Selector := [selTag "img"]

/-- The selector `'h1, h2, h3, h4, h5, h6'`. -/
def selHeadings : Selector :=
  [selTag "h1", selTag "h2", selTag "h3", selTag "h4", selTag "h5", selTag "h6"]

/-- The selector `'p'`. -/
def selParagraph : Selector := [selTag "p"]

/-- The selector `'a.btn, button'`. -/
def selButtons : Selector :=
  [{ tag := some "a", classes := ["btn"], attrs := [] }, selTag "button"]

/-- Step 1 of `extractFields` (lines 127-131): the callback of `find('img').each`. -/
def imageStep (st : FieldsState) (x : Nat × Node) : FieldsState :=
  if x.1 > 3 then st else addField "image" "image" (getUniqueSelector x.2) st

/-- Step 2 of `extractFields` (lines 134-137). -/
def headingStep (st : FieldsState) (h : Node) : FieldsState :=
  addField "title" "text" (getUniqueSelector h) st

/-- Step 3 of `extractFields` (lines 140-147). -/
def paragraphStep (st : FieldsState) (x : Nat × Node) : FieldsState :=
  if x.1 > 3 then st
  else if jsLength (jsTrim x.2.textContent) > 10 then
    addField "description" "rich_text" (getUniqueSelector x.2) st
  else st

/-- Step 4 of `extractFields` (lines 150-153). -/
def buttonStep (st : FieldsState) (b : Node) : FieldsState :=
  addField "cta_text" "text" (getUniqueSelector b) st

/-- The four passes of `extractFields` over the container, as a state of `addField`. -/
def extractFieldsState (container : Node) : FieldsState :=
  let st1 := (container.find selImg).enum.foldl imageStep FieldsState.empty
  let st2 := (container.find selHeadings).foldl headingStep st1
  let st3 := (container.find selParagraph).enum.foldl paragraphStep st2
  (container.find selButtons).foldl buttonStep st3

/-- The function `extractFields($, $container, prefix)` (lines 105-156); its third parameter is
not used by the source. -/
def extractFields (container : Node) : List Field :=
  (extractFieldsState container).fields

/-- The signature of a child (lines 33-34): the tag, then the sorted pieces of the class
attribute joined by dots when that join is not empty. -/
def signature (child : Node) : String :=
  let classes := jsJoin "." (jsSort (splitSpaces (child.attrOrEmpty "class")))
  child.tag ++ (if classes = "" then "" else "." ++ classes)

/-- The plain object `groups`: its own keys in insertion order, each with its array. A signature
starts with a tag name, so no key is an array index and `Object.entries` keeps this order. -/
abbrev Groups := List (String × List Node)

/-- The statement `groups[signature].push($child)` for a key that may be new. -/
def Groups.push (g : Groups) (sig : String) (child : Node) : Groups :=
  if g.any (fun kv => kv.1 == sig) then
    g.map (fun kv => if kv.1 == sig then (kv.1, kv.2 ++ [child]) else kv)
  else g ++ [(sig, [child])]

/-- The property names that the object literal `groups` inherits from `Object.prototype`. For
such a key `groups[signature]` is truthy without being an array, so that line 37 throws a
`TypeError`. -/
def objectPrototypeKeys : List String :=
  ["constructor", "__defineGetter__", "__defineSetter__", "hasOwnProperty", "__lookupGetter__",
   "__lookupSetter__", "isPrototypeOf", "propertyIsEnumerable", "toString", "valueOf",
   "__proto__", "toLocaleString"]

/-- The callback of `children.each` (lines 27-38); `none` when line 37 throws. -/
def groupStep (g : Groups) (child : Node) : Option Groups :=
  if child.tag ∈ ["script", "style", "link", "meta"] then some g
  else if signature child ∈ objectPrototypeKeys then none
  else some (g.push (signature child) child)

/-- The loop of lines 27-38 over the children of one element. -/
def groupChildren (children : List Node) : Option Groups :=
  children.foldlM groupStep []

/-- The test `c.match(/col-|row|grid|flex/)`. -/
def isLayoutClass (c : String) : Bool :=
  jsIncludes c "col-" || jsIncludes c "row" || jsIncludes c "grid" || jsIncludes c "flex"

/-- The name of a promoted group (lines 50-57); `size` is `candidates.size`. -/
def collectionName (firstItem : Node) (size : Nat) : String :=
  sanitize
    (match (splitSpaces (firstItem.attrOrEmpty "class")).find? (fun c => !isLayoutClass c) with
     | some relevantClass =>
       if relevantClass ≠ "" then relevantClass ++ "_list" else "collection_" ++ toString size
     | none => "collection_" ++ toString size)

/-- The state of the collection pass: `schema.collections` and the keys of the map
`candidates`, in insertion order. -/
structure AnalyzeState where
  collections : List Entry
  candidates : List String
deriving DecidableEq, Repr

/-- The callback of `Object.entries(groups).forEach` (lines 41-71). -/
def processGroup (st : AnalyzeState) (g : String × List Node) : AnalyzeState :=
  match g.2 with
  | firstItem :: _ :: _ =>
    if (firstItem.find selImg).length > 0 || (jsTrim firstItem.textContent).length > 0 then
      if (extractFields firstItem).length > 0 then
        { collections := st.collections ++
            [{ name := collectionName firstItem st.candidates.length,
               fields := extractFields firstItem }],
          candidates := setAdd st.candidates g.1 }
      else st
    else st
  | _ => st

/-- The callback of `$('*').each` (lines 18-73); `none` when grouping throws. -/
def processElement (st : AnalyzeState) (elem : Node) : Option AnalyzeState :=
  if !elem.isTagType then some st
  else if elem.children.length > 1 then
    match groupChildren elem.children with
    | some groups => some (groups.foldl processGroup st)
    | none => none
  else some st

/-- Part 1 of `analyzeHtml` (lines 14-73). -/
def analyzeCollections (root : Node) : Option AnalyzeState :=
  root.allElements.foldlM processElement { collections := [], candidates := [] }

/-- The selector `'header, footer, section[id], div[id*="hero"], div[id*="about"]'`. -/
def singletonSelector : Selector :=
  [selTag "header", selTag "footer",
   { tag := some "section", classes := [], attrs := [.present "id"] },
   { tag := some "div", classes := [], attrs := [.includes "id" "hero"] },
   { tag := some "div", classes := [], attrs := [.includes "id" "about"] }]

/-- The name of a singleton anchor (lines 85-89); `i` is its index in the selection. -/
def singletonName (elem : Node) (i : Nat) : String :=
  let name := if elem.attrOrEmpty "id" ≠ "" then elem.attrOrEmpty "id" else elem.tag
  sanitize (if name = "section" then "section_" ++ toString i else name)

/-- The callback of `$(singletonSelector).each` (lines 79-100). -/
def processSingleton (candidates : List String) (singletons : List Entry) (x : Nat × Node) :
    List Entry :=
  if singletonName x.2 x.1 ∈ candidates then singletons
  else if (extractFields x.2).length > 0 then
    singletons ++ [{ name := singletonName x.2 x.1, fields := extractFields x.2 }]
  else singletons

/-- Part 2 of `analyzeHtml` (lines 75-100). -/
def analyzeSingletons (root : Node) (candidates : List String) : List Entry :=
  (root.select singletonSelector).enum.foldl (processSingleton candidates) []

/-- The function `analyzeHtml(html)` on the parsed document; `none` when it throws. -/
def analyzeHtml (root : Node) : Option Schema :=
  match analyzeCollections root with
  | some st =>
    some { collections := st.collections, singletons := analyzeSingletons root st.candidates }
  | none => none

/-! ## What the detector promotes, stated on the document -/

/-- The members of a list of strings in the order of their first occurrence. -/
def firstOccurrences : List String → List String
  | [] => []
  | x :: xs => x :: (firstOccurrences xs).filter (fun y => y != x)

/-- The children of an element that take part in grouping: the child elements other than
`script`, `style`, `link` and `meta`. -/
def groupedChildren (elem : Node) : List Node :=
  elem.children.filter (fun c => decide (c.tag ∉ ["script", "style", "link", "meta"]))

/-- The signature groups of the children of an element, in the order in which the signatures
first occur; every group lists its members in document order. -/
def signatureGroups (elem : Node) : List (List Node) :=
  (firstOccurrences ((groupedChildren elem).map signature)).map
    (fun s => (groupedChildren elem).filter (fun c => signature c == s))

/-- The promotion test on a group: at least two members, the first of which has a descendant
`img` or non-empty trimmed text and on which field discovery finds a field. -/
def isPromoted (items : List Node) : Bool :=
  match items with
  | firstItem :: _ :: _ =>
    ((firstItem.find selImg).length > 0 || (jsTrim firstItem.textContent).length > 0)
      && (extractFields firstItem).length > 0
  | _ => false

/-- The promoted groups below one element. An element of type `script` or `style` is passed
over by line 19; in a parsed document such an element has no child element anyway. -/
def promotedGroupsOf (elem : Node) : List (List Node) :=
  if elem.isTagType && elem.children.length > 1 then (signatureGroups elem).filter isPromoted
  else []

/-- The promoted groups of a document: parents in document order, and for one parent the
groups in the order of first occurrence of their signature. -/
def promotedGroups (root : Node) : List (List Node) :=
  root.allElements.flatMap promotedGroupsOf

/-- The first member of a group. -/
def firstMember (items : List Node) : Node :=
  items.headD (.text "")

/-- The `j`-th name that the loop of `addField` tries: the sanitized base for `j = 0`, the
sanitized suffixed form for `j ≥ 1`. -/
def candidate (name : String) (j : Nat) : String :=
  if j = 0 then sanitize name else sanitize (name ++ "_" ++ toString j)

/-- The invariant of `extractFields`: the set of used names lists the names of the fields, in
order and without repetition. -/
def FieldsState.Inv (st : FieldsState) : Prop :=
  st.usedNames = st.fields.map Field.name ∧ st.usedNames.Nodup

/-- The signature under which a group is filed: that of its first member. -/
def groupSignature (items : List Node) : String :=
  signature (firstMember items)

/-- The collection entries for a list of promoted groups, given the signatures `seen` that the
map `candidates` holds before the first of them: every group is named with the size of the map
at its turn and then adds its signature to the map. -/
def nameGroups : List String → List (List Node) → List Entry
  | _, [] => []
  | seen, g :: gs =>
    { name := collectionName (firstMember g) seen.length,
      fields := extractFields (firstMember g) }
      :: nameGroups (setAdd seen (groupSignature g)) gs

/-- The grouping of a list of children as the object `groups` holds it: the signatures in the
order of first occurrence, each with the children that carry it. -/
def groupsOf (l : List Node) : Groups :=
  (firstOccurrences (l.map signature)).map
    (fun s => (s, l.filter (fun c => signature c == s)))

/-! ## Signatures, stated on class tokens -/

/-- The class tokens of an element: the non-empty pieces of its `class` attribute between runs
of white space. -/
def classTokens (n : Node) : List String :=
  (splitSpaces (n.attrOrEmpty "class")).filter (fun t => t != "")

/-- Whether two children are filed under one key of the object `groups`. -/
def sameGroup (groups : Groups) (c1 c2 : Node) : Bool :=
  groups.any (fun g => decide (c1 ∈ g.2) && decide (c2 ∈ g.2))

/-- A list of characters that does not end in white space. -/
def EndsClean (cs : List Char) : Prop :=
  ∀ h : cs ≠ [], isJsSpace (cs.getLast h) = false

/-! ## Field discovery, stated on the elements found -/

/-- The fields that `addField` makes of the elements submitted under one base name, one after
the other, when the first of them gets the `k`-th name of the base. -/
def numberedFieldsFrom (name type : String) (k : Nat) (els : List Node) : List Field :=
  (els.enumFrom k).map (fun x =>
    { name := candidate name x.1, type := type, selector := getUniqueSelector x.2,
      required := false })

/-- The fields for a list of elements under a base name of which no name is in use yet. -/
def numberedFields (name type : String) (els : List Node) : List Field :=
  numberedFieldsFrom name type 0 els

/-- The paragraphs that step 3 of `extractFields` turns into fields: those of the first four
`p` descendants whose trimmed text has a `length` of more than 10, in UTF-16 code units. -/
def describedParagraphs (container : Node) : List Node :=
  ((container.find selParagraph).take 4).filter (fun p => jsLength (jsTrim p.textContent) > 10)

/-! ## Singleton anchors -/

/-- The singleton anchors, stated on the element: a `header`, a `footer`, a `section` with an
`id` attribute, or a `div` whose `id` contains `hero` or `about`. -/
def isSingletonAnchor (n : Node) : Bool :=
  n.isElem &&
    (n.tag == "header" || n.tag == "footer" || (n.tag == "section" && (n.attr "id").isSome) ||
     (n.tag == "div" &&
       (jsIncludes (n.attrOrEmpty "id") "hero" || jsIncludes (n.attrOrEmpty "id") "about")))

/-! ## Stored values, rows and the environment of the services -/

/-- A JavaScript value as the services read it from a row or write it to one. -/
inductive Value where
  | undefined
  | null
  | str (s : String)
  | num (n : Int)
deriving DecidableEq, Repr

/-- A row: the object `rowData` that `seedData` builds, or a row that the store returns. The
keys are kept in the order in which they were first assigned. (`Object.keys` lists the keys
that are array indices first; the order plays no part in an insert, whose columns and values
are listed in the same order.) -/
abbrev Row := List (String × Value)

/-- The lookup `row[key]`. -/
def Row.get (r : Row) (key : String) : Value :=
  match r.find? (fun kv => kv.1 == key) with
  | some kv => kv.2
  | none => .undefined

/-- The assignment `rowData[key] = v` on the plain object `rowData` of `seedData` (dbService.js
173, 230), for a value that is a string or a number, as the extracted values are. For the key
`__proto__` the assignment goes to the setter of `Object.prototype`, which ignores such a
value: the object gets no own key. -/
def Row.set (r : Row) (key : String) (v : Value) : Row :=
  if key == "__proto__" then r
  else if r.any (fun kv => kv.1 == key) then
    r.map (fun kv => if kv.1 == key then (key, v) else kv)
  else r ++ [(key, v)]

/-- What the services take from outside the repository: cheerio's serializer and fragment
parser, the clock, and the file system under the upload directory. -/
structure World where
  /-- The result of `$el.html()` for an element with the given tag and child nodes. -/
  innerHtml : String → List Node → String
  /-- The child nodes that `$el.html(str)` installs in an element with the given tag. -/
  parseHtml : String → String → List Node
  /-- The result of `new Date().toISOString()`. -/
  now : String
  /-- The result of `fs.existsSync(path.join(uploadDir, p))`. -/
  assetExists : String → Bool

/-- The record store: the rows of a table in the order of `SELECT *`; `none` when there is no
such table, so that `db.prepare` throws. -/
abbrev Store := String → Option (List Row)

/-- The template literal `${v}`. -/
def jsString : Value → String
  | .undefined => "undefined"
  | .null => "null"
  | .str s => s
  | .num n => toString n

/-- Whether a value is truthy. -/
def isTruthy : Value → Bool
  | .undefined => false
  | .null => false
  | .str s => s != ""
  | .num n => n != 0

/-! ## dbService.js, `seedData` -/

/-- The value of a digit in the given radix, if the character is one. -/
def digitValue (radix : Nat) (c : Char) : Option Nat :=
  let n := c.toNat
  let v := if 48 ≤ n && n ≤ 57 then n - 48
    else if 97 ≤ n && n ≤ 122 then n - 87
    else if 65 ≤ n && n ≤ 90 then n - 55
    else radix
  if v < radix then some v else none

/-- The longest initial run of digits of the radix, as a number; `none` when it is empty. -/
def parseDigits (radix : Nat) : List Char → Option Nat → Option Nat
  | [], acc => acc
  | c :: cs, acc =>
    match digitValue radix c with
    | some v => parseDigits radix cs (some (acc.getD 0 * radix + v))
    | none => acc

/-- The function `parseInt(s)` without a radix; `none` is `NaN`. The result is the exact
integer, which is what JavaScript returns up to `2^53`. -/
def parseIntJs (s : String) : Option Int :=
  let body := s.data.dropWhile isJsSpace
  let negative := body.head? == some '-'
  let unsigned := if body.head? == some '-' || body.head? == some '+' then body.tail else body
  let hex := startsWithChars ['0', 'x'] unsigned || startsWithChars ['0', 'X'] unsigned
  let digits := if hex then parseDigits 16 (unsigned.drop 2) none else parseDigits 10 unsigned none
  digits.map (fun n => if negative then - (n : Int) else (n : Int))

/-- The method `toLowerCase`, on the letters that matter for the comparison with `true`, `yes`
and `on`. -/
def jsToLower (s : String) : String :=
  ⟨s.data.map Char.toLower⟩

/-- The typed extraction of `seedData` (the `switch` of lines 181-205 and 235-259) from the
selection `$fieldElement`, which is one element or empty. -/
def extractValue (w : World) (type : String) (fieldElement : Option Node) : Value :=
  let text := jsTrim (match fieldElement with
    | some n => n.textContent
    | none => "")
  if type = "text" then .str text
  else if type = "rich_text" then
    .str (match fieldElement with
      | some n => w.innerHtml n.tag n.childNodes
      | none => "")
  else if type = "image" then
    match fieldElement with
    | some n =>
      if n.attrOrEmpty "src" ≠ "" then .str (n.attrOrEmpty "src")
      else .str (n.attrOrEmpty "href")
    | none => .str ""
  else if type = "number" then
    if text ≠ "" then .num ((parseIntJs text).getD 0) else .num 0
  else if type = "boolean" then
    if jsToLower text = "true" || jsToLower text = "yes" || jsToLower text = "on" then .num 1
    else .num 0
  else if type = "date" then
    if text ≠ "" then .str text else .str w.now
  else .str text

/-- The selector of line 162,
`'[class*="card"], [class*="item"], [class*="testimonial"], [class*="member"], [class*="post"]'`. -/
def seedContainers : Selector :=
  [selClassIncludes "card", selClassIncludes "item", selClassIncludes "testimonial",
   selClassIncludes "member", selClassIncludes "post"]

/-- The array `collectionElements` (lines 156-169), as paths: for every match of the first
field's selector its closest container, or the match itself. `none` stands for a selector
outside the modelled fragment. -/
def collectionElements (doc : Node) (collection : Entry) : Option (List Path) :=
  match collection.fields with
  | [] => some []
  | first :: _ =>
    match parseSelector first.selector with
    | some sel => some ((doc.selectPaths sel).map (fun p => (doc.closest seedContainers p).getD p))
    | none => none

/-- One round of `collection.fields.forEach` (lines 175-206) for the element `element`, which
is number `index` of `collectionElements`. -/
def seedCollectionField (w : World) (doc element : Node) (index : Nat) (rowData : Row)
    (field : Field) : Option Row :=
  match parseSelector field.selector with
  | some sel =>
    let fieldElement :=
      match element.find sel with
      | e :: _ => some e
      | [] => (doc.select sel)[index]?
    some (rowData.set field.name (extractValue w field.type fieldElement))
  | none => none

/-- The callback of `collectionElements.forEach` (lines 171-222) for the element at `x.2`,
which is number `x.1`: the insert it attempts, as the table and the row; there is no insert
when the row has no column (line 210). -/
def seedElement (w : World) (doc : Node) (collection : Entry) (x : Nat × Path) :
    Option (List (String × Row)) :=
  match doc.get? x.2 with
  | some element =>
    (collection.fields.foldlM (seedCollectionField w doc element x.1) []).map
      (fun rowData => if rowData.isEmpty then [] else [(sanitize collection.name, rowData)])
  | none => none

/-- The rows that `seedData` builds for one collection (lines 151-223), each with the table it
is inserted into. -/
def seedCollection (w : World) (doc : Node) (collection : Entry) :
    Option (List (String × Row)) :=
  match collectionElements doc collection with
  | some paths => (paths.enum.mapM (seedElement w doc collection)).map List.flatten
  | none => none

/-- One round of `singleton.fields.forEach` (lines 232-260). -/
def seedSingletonField (w : World) (doc : Node) (rowData : Row) (field : Field) : Option Row :=
  match parseSelector field.selector with
  | some sel => some (rowData.set field.name (extractValue w field.type (doc.select sel).head?))
  | none => none

/-- The row that `seedData` builds for one singleton (lines 228-276); there is no insert when
the row has no column. -/
def seedSingleton (w : World) (doc : Node) (singleton : Entry) :
    Option (List (String × Row)) :=
  (singleton.fields.foldlM (seedSingletonField w doc) []).map
    (fun rowData => if rowData.isEmpty then [] else [(sanitize singleton.name, rowData)])

/-- The function `seedData(db, schema, html)`: the inserts it attempts, in order, each as the
table and the row. `none` stands for a selector outside the modelled fragment. -/
def seedData (w : World) (schema : Schema) (doc : Node) : Option (List (String × Row)) :=
  match schema.collections.mapM (seedCollection w doc), schema.singletons.mapM (seedSingleton w doc) with
  | some cs, some ss => some (cs.flatten ++ ss.flatten)
  | _, _ => none

/-- The store after a seeding pass in which every insert succeeded: a table holds the rows
inserted into it, in the order of insertion. The columns the store fills in by itself (`id`,
`created_at`, `updated_at`) are left out of a row. -/
def storeOf (inserts : List (String × Row)) : Store :=
  fun table => some ((inserts.filter (fun x => x.1 == table)).map Prod.snd)

/-! ## previewService.js and exportService.js: writing into the document -/

/-- Replace the child nodes of an element. -/
def Node.setChildNodes (cs : List Node) : Node → Node
  | .elem t a _ => .elem t a cs
  | .text d => .text d

/-- The assignment `el.attribs[name] = v`: an attribute that exists keeps its place. -/
def Node.setAttr (name v : String) : Node → Node
  | .elem t a cs =>
    .elem t (if a.any (fun kv => kv.1 == name) then
        a.map (fun kv => if kv.1 == name then (name, v) else kv)
      else a ++ [(name, v)]) cs
  | .text d => .text d

/-- Deleting an attribute. -/
def Node.removeAttr (name : String) : Node → Node
  | .elem t a cs => .elem t (a.filter (fun kv => kv.1 != name)) cs
  | .text d => .text d

/-- The call `$el.text(value)` on one element: a getter for `undefined`, otherwise the children
are replaced by one text node that holds the value as a string. -/
def cheerioText (value : Value) (el : Node) : Node :=
  match value with
  | .undefined => el
  | v => el.setChildNodes [.text (jsString v)]

/-- The call `$el.html(value)` on one element: a getter for `undefined`, otherwise the children
are replaced by the parsed markup of the value as a string. -/
def cheerioHtml (w : World) (value : Value) (el : Node) : Node :=
  match value with
  | .undefined => el
  | v => el.setChildNodes (w.parseHtml el.tag (jsString v))

/-- The call `$el.attr(name, value)` on one element: nothing for `undefined`, the attribute is
removed for `null`, and set to the value as a string otherwise. -/
def cheerioAttr (name : String) (value : Value) (el : Node) : Node :=
  match value with
  | .undefined => el
  | .null => el.removeAttr name
  | v => el.setAttr name (jsString v)

/-- The function `path.basename(p)` for POSIX paths: the last non-empty segment. -/
def basename (p : String) : String :=
  match ((splitOnChar '/' p.data).filter (fun seg => !seg.isEmpty)).getLast? with
  | some seg => String.mk seg
  | none => ""

/-- The test of lines 80, 93, 106 and 270: the reference is not empty and starts with none of
`http`, `//` and `/`. -/
def isRelativeRef (v : String) : Bool :=
  v != "" && !jsStartsWith v "http" && !jsStartsWith v "//" && !jsStartsWith v "/"

/-- The path that `updateElement` writes for a string value (lines 269-277). -/
def resolveAssetPath (w : World) (value : String) : String :=
  if isRelativeRef value && !w.assetExists value && w.assetExists (basename value) then
    basename value
  else value

/-- The function `updateElement($, $el, field, value, uploadDir)` of previewService.js (lines
266-284) on one element; `none` when `value.startsWith` throws because the value is a number
other than zero. -/
def updateElement (w : World) (field : Field) (value : Value) (el : Node) : Option Node :=
  if field.type = "image" then
    match value with
    | .str s => some (cheerioAttr "src" (.str (resolveAssetPath w s)) el)
    | .num n => if n = 0 then some (cheerioAttr "src" (.num n) el) else none
    | v => some (cheerioAttr "src" v el)
  else if field.type = "rich_text" then some (cheerioHtml w value el)
  else some (cheerioText value el)

/-- The write of `bakeHtml` (lines 124-126 and 159-161) on one element. -/
def bakeWrite (w : World) (field : Field) (value : Value) (el : Node) : Node :=
  if field.type = "rich_text" then cheerioHtml w value el
  else if field.type = "image" then cheerioAttr "src" value el
  else cheerioText value el

/-- The selector of previewService.js line 209 and exportService.js line 140: the container
classes of `seedData`, `[class*="col"]` and `li`. -/
def itemContainers : Selector :=
  [selClassIncludes "card", selClassIncludes "item", selClassIncludes "col",
   selClassIncludes "testimonial", selClassIncludes "member", selClassIncludes "post",
   selTag "li"]

/-- The selection `$target` of a collection field inside the cloned item (previewService.js
lines 232-240, exportService.js lines 153-157), as paths relative to the item: the descendants
that match the selector, and when there are none, those that match its last part. -/
def fieldTargets (item : Node) (field : Field) : Option (List Path) :=
  match parseSelector field.selector with
  | some sel =>
    if (item.findPaths sel).isEmpty then
      match parseSelector (lastPart field.selector) with
      | some sel2 => some (item.findPaths sel2)
      | none => none
    else some (item.findPaths sel)
  | none => none

/-- One round of `collection.fields.forEach` in `generatePreview` (lines 229-253) on the cloned
item. -/
def previewItemField (w : World) (row : Row) (item : Node) (field : Field) : Option Node :=
  match fieldTargets item field, parseSelector field.selector with
  | some targets, some sel =>
    match (if targets.isEmpty && sel.holds item then [[]] else targets) with
    | p :: _ =>
      match item.get? p with
      | some el =>
        (updateElement w field (row.get field.name) el).map
          (fun el2 => item.modifyAt (fun _ => el2) p)
      | none => none
    | [] => some item
  | _, _ => none

/-- The clone that `generatePreview` appends for one row (lines 227-253). -/
def previewItem (w : World) (fields : List Field) (template : Node) (row : Row) : Option Node :=
  fields.foldlM (previewItemField w row) template

/-- One round of `collection.fields.forEach` in `bakeHtml` (lines 151-163) on the cloned item.
The write goes to every target; the targets are taken last to first, so that the write on an
element comes after the writes below it, as these stay without effect once the element's
children are replaced. -/
def bakeItemField (w : World) (row : Row) (item : Node) (field : Field) : Option Node :=
  (fieldTargets item field).map (fun targets =>
    targets.reverse.foldl (fun it p => it.modifyAt (bakeWrite w field (row.get field.name)) p)
      item)

/-- The clone that `bakeHtml` appends for one row (lines 150-163). -/
def bakeItem (w : World) (fields : List Field) (template : Node) (row : Row) : Option Node :=
  fields.foldlM (bakeItemField w row) template

/-- Lines 219-257 of `generatePreview` and 144-166 of `bakeHtml`: the parent of the template
item is emptied and gets the filled clones, in the order of the rows. When the template item
is the root element its parent is no element, `$templateItem.parent()` is empty and the
document stays as it is. -/
def replaceItems (doc : Node) (templatePath : Path) (items : List Node) : Node :=
  if templatePath.isEmpty then doc
  else doc.modifyAt (Node.setChildNodes items) templatePath.dropLast

/-- The path of `$templateItem` for a first match: its closest item container, or the match
itself. -/
def templateItemPath (doc : Node) (firstMatch : Path) : Path :=
  (doc.closest itemContainers firstMatch).getD firstMatch

/-- The callback of `schema.schema.collections.forEach` in `generatePreview` (lines 190-259);
`none` when it throws or meets a selector outside the modelled fragment. -/
def previewCollection (w : World) (store : Store) (doc : Node) (collection : Entry) :
    Option Node :=
  match store (sanitize collection.name) with
  | none => none
  | some [] => some doc
  | some (row :: rows) =>
    match collection.fields with
    | [] => some doc
    | first :: _ =>
      match parseSelector first.selector with
      | none => none
      | some sel =>
        match doc.selectPaths sel with
        | [] => some doc
        | firstMatch :: _ =>
          match doc.get? (templateItemPath doc firstMatch) with
          | some template =>
            ((row :: rows).mapM (previewItem w collection.fields template)).map
              (replaceItems doc (templateItemPath doc firstMatch))
          | none => none

/-- The callback of `schema.schema.collections.forEach` in `bakeHtml` (lines 133-167); `none`
when it throws (`collection.fields[0]` is `undefined` for a collection without fields) or meets
a selector outside the modelled fragment. -/
def bakeCollection (w : World) (store : Store) (doc : Node) (collection : Entry) :
    Option Node :=
  match store (sanitize collection.name) with
  | none => none
  | some [] => some doc
  | some (row :: rows) =>
    match collection.fields with
    | [] => none
    | first :: _ =>
      match parseSelector first.selector with
      | none => none
      | some sel =>
        match doc.selectPaths sel with
        | [] => some doc
        | firstMatch :: _ =>
          match doc.get? (templateItemPath doc firstMatch) with
          | some template =>
            ((row :: rows).mapM (bakeItem w collection.fields template)).map
              (replaceItems doc (templateItemPath doc firstMatch))
          | none => none

/-- One round of `singleton.fields.forEach` in `generatePreview` (lines 172-184). -/
def previewSingletonField (w : World) (row : Row) (doc : Node) (field : Field) : Option Node :=
  if row.get field.name = .undefined ∨ row.get field.name = .null then some doc
  else
    match parseSelector field.selector with
    | none => none
    | some sel =>
      match doc.selectPaths sel with
      | [] => some doc
      | p :: _ =>
        match doc.get? p with
        | some el =>
          (updateElement w field (row.get field.name) el).map
            (fun el2 => doc.modifyAt (fun _ => el2) p)
        | none => none

/-- The callback of `schema.schema.singletons.forEach` in `generatePreview` (lines 163-185). -/
def previewSingleton (w : World) (store : Store) (doc : Node) (singleton : Entry) :
    Option Node :=
  match store (sanitize singleton.name) with
  | none => none
  | some [] => some doc
  | some (row :: _) => singleton.fields.foldlM (previewSingletonField w row) doc

/-- One round of `singleton.fields.forEach` in `bakeHtml` (lines 119-127). -/
def bakeSingletonField (w : World) (row : Row) (doc : Node) (field : Field) : Option Node :=
  if row.get field.name = .undefined ∨ row.get field.name = .null then some doc
  else
    match parseSelector field.selector with
    | none => none
    | some sel =>
      match doc.selectPaths sel with
      | [] => some doc
      | p :: _ => some (doc.modifyAt (bakeWrite w field (row.get field.name)) p)

/-- The callback of `schema.schema.singletons.forEach` in `bakeHtml` (lines 114-128). -/
def bakeSingleton (w : World) (store : Store) (doc : Node) (singleton : Entry) :
    Option Node :=
  match store (sanitize singleton.name) with
  | none => none
  | some [] => some doc
  | some (row :: _) => singleton.fields.foldlM (bakeSingletonField w row) doc

/-- Lines 161-260 of `generatePreview`: the injection of the singletons, then of the
collections, into the document. -/
def injectPreview (w : World) (store : Store) (schema : Schema) (doc : Node) : Option Node :=
  match schema.singletons.foldlM (previewSingleton w store) doc with
  | some d => schema.collections.foldlM (previewCollection w store) d
  | none => none

mutual
/-- Apply `f` to every element of the tree that matches the selector, as a callback of
`$(selector).each` that changes attributes does. -/
def Node.updateWhere (s : Selector) (f : Node → Node) : Node → Node
  | .elem t a cs =>
    if s.holds (.elem t a cs) then (f (.elem t a cs)).setChildNodes (updateWhereList s f cs)
    else .elem t a (updateWhereList s f cs)
  | .text d => .text d
/-- Apply `f` to the matching elements of a list of siblings and below them. -/
def updateWhereList (s : Selector) (f : Node → Node) : List Node → List Node
  | [] => []
  | n :: ns => n.updateWhere s f :: updateWhereList s f ns
end

/-- The callback of lines 78-88 (for `href`) and 91-101 (for `src`): a relative reference that
does not exist while its base name does is replaced by the base name. -/
def flattenRef (w : World) (name : String) (el : Node) : Node :=
  if isRelativeRef (el.attrOrEmpty name) && !w.assetExists (el.attrOrEmpty name)
      && w.assetExists (basename (el.attrOrEmpty name)) then
    el.setAttr name (basename (el.attrOrEmpty name))
  else el

/-- The callback of lines 104-152. As `baseUrl` is `/uploads/`, the expected path and the root
path are both `path.join(uploadDir, src)`: a relative source that does not exist while its base
name does is replaced by `/uploads/` and the base name. -/
def flattenImage (w : World) (el : Node) : Node :=
  if isRelativeRef (el.attrOrEmpty "src") && !w.assetExists (el.attrOrEmpty "src")
      && w.assetExists (basename (el.attrOrEmpty "src")) then
    el.setAttr "src" ("/uploads/" ++ basename (el.attrOrEmpty "src"))
  else el

/-- The selector `'link[href]'`. -/
def selLinkHref : Selector :=
  [{ tag := some "link", classes := [], attrs := [.present "href"] }]

/-- The selector `'script[src]'`. -/
def selScriptSrc : Selector :=
  [{ tag := some "script", classes := [], attrs := [.present "src"] }]

/-- The selector `'img[src]'`. -/
def selImgSrc : Selector :=
  [{ tag := some "img", classes := [], attrs := [.present "src"] }]

/-- Lines 74-152 of `generatePreview`: the pass over the links, the scripts and the images. -/
def assetPass (w : World) (doc : Node) : Node :=
  ((doc.updateWhere selLinkHref (flattenRef w "href")).updateWhere selScriptSrc
    (flattenRef w "src")).updateWhere selImgSrc (flattenImage w)

/-- The element that the markup `<base href="/uploads/">` of line 156 parses to. -/
def baseElement : Node :=
  .elem "base" [("href", "/uploads/")] []

/-- Put a node in front of the children of an element. -/
def Node.prependChild (c : Node) : Node → Node
  | .elem t a cs => .elem t a (c :: cs)
  | .text d => .text d

/-- Lines 154-159 of `generatePreview`: the `base` element is put in front of the children of
every `head`. A document without a `head`, which `cheerio.load` never returns, is left out
(`none`). -/
def addBase (doc : Node) : Option Node :=
  match doc.selectPaths [selTag "head"] with
  | [] => none
  | heads =>
    some (heads.reverse.foldl (fun d p => d.modifyAt (Node.prependChild baseElement) p) doc)

/-- The function `generatePreview(fileId)` on the loaded document, the schema and the store
(lines 72-263): the pass over the assets, the `base` element, and the injection. -/
def generatePreview (w : World) (store : Store) (schema : Schema) (doc : Node) : Option Node :=
  match addBase (assetPass w doc) with
  | some d => injectPreview w store schema d
  | none => none

/-- The function `bakeHtml(fileId, uploadDir, dbPath)` on the loaded document, the schema and
the store (lines 107-171). -/
def bakeHtml (w : World) (store : Store) (schema : Schema) (doc : Node) : Option Node :=
  match schema.singletons.foldlM (bakeSingleton w store) doc with
  | some d => schema.collections.foldlM (bakeCollection w store) d
  | none => none

/-- An environment for the examples: markup without tags or entities, whose serialization is
its text and which parses to one text node. -/
def plainWorld : World :=
  { innerHtml := fun _ cs => textOfList cs,
    parseHtml := fun _ s => if s = "" then [] else [.text s],
    now := "2024-01-01T00:00:00.000Z",
    assetExists := fun _ => true }

/-! ## Extraction, stated on the text of the element -/

/-- The value that the specification gives for a field without content: `0` for `number` and
`boolean`, the current timestamp for `date`, the empty string for every other type. -/
def defaultValue (w : World) (type : String) : Value :=
  if type = "number" ∨ type = "boolean" then .num 0
  else if type = "date" then .str w.now
  else .str ""

/-- A decimal digit, `0` to `9`. -/
def isDecimalDigit (c : Char) : Bool :=
  48 ≤ c.toNat && c.toNat ≤ 57

/-- The characters of a string after an optional sign `+` or `-`. -/
def unsignedPart (s : String) : List Char :=
  if s.data.head? == some '-' || s.data.head? == some '+' then s.data.tail else s.data

/-- The number that a run of decimal digits denotes. -/
def decimalValue (run : List Char) : Nat :=
  run.foldl (fun acc c => acc * 10 + (c.toNat - 48)) 0

/-- The integer denoted by the leading, optionally signed, run of decimal digits of a string;
`0` when the string does not start with such a run. -/
def leadingInteger (s : String) : Int :=
  if s.data.head? == some '-' then - (decimalValue ((unsignedPart s).takeWhile isDecimalDigit) : Int)
  else (decimalValue ((unsignedPart s).takeWhile isDecimalDigit) : Int)

/-- Whether a string starts, after an optional sign, with `0x` or `0X`: the prefix that makes
`parseInt` read hexadecimal digits. -/
def hasHexPrefix (s : String) : Bool :=
  startsWithChars ['0', 'x'] (unsignedPart s) || startsWithChars ['0', 'X'] (unsignedPart s)

/-! ## What a selector reads of an element -/

/-- What a selector of the modelled fragment reads of an element itself: whether it is an
element, its tag name and its `class` attribute. -/
def Node.shape (n : Node) : Bool × String × Option String :=
  (n.isElem, n.tag, n.attr "class")

/-! ## Values that the two renders write alike -/

/-- A value that `updateElement` writes into an image as `bakeHtml` does: a string that the
asset resolution leaves as it is, `null`, `undefined`, or the number zero. -/
def plainValue (w : World) (v : Value) : Prop :=
  (∀ s, v = .str s → resolveAssetPath w s = s) ∧ (∀ n, v = .num n → n = 0)

/-! ## dbService.js, `generateDbFromSchema` -/

/-- The test of lines 35-39 and 93-96: the name in lower case is `id`, `created_at` or
`updated_at`. No character outside ASCII becomes one of the letters of these names in lower
case, so that `jsToLower` decides the test as `toLowerCase` does. -/
def isReservedName (name : String) : Bool :=
  jsToLower name == "id" || jsToLower name == "created_at" || jsToLower name == "updated_at"

/-- The `switch` of lines 47-64 and 104-121: the SQL type of a column. -/
def columnType (type : String) : String :=
  if type = "text" ∨ type = "rich_text" ∨ type = "image" then "TEXT"
  else if type = "number" then "INTEGER"
  else if type = "boolean" then "BOOLEAN"
  else if type = "date" then "DATETIME"
  else "TEXT"

/-- The string `columnDef` of a field (lines 45-71 and 102-128): the sanitized name, a blank
and the type. The line that would add ` NOT NULL` is commented out in the source. -/
def columnDef (field : Field) : String :=
  sanitize field.name ++ " " ++ columnType field.type

/-- The callback of `fields.forEach` (lines 34-72 and 92-129). The state is the array `columns`
and the fields passed so far, as the callback leaves them: a field with a reserved name is
passed over, another field gets its sanitized name and adds its column. -/
def columnStep (st : List String × List Field) (field : Field) : List String × List Field :=
  if isReservedName field.name then (st.1, st.2 ++ [field])
  else (st.1 ++ [columnDef field], st.2 ++ [{ field with name := sanitize field.name }])

/-- The column `id` of the table of a collection (line 29). -/
def collectionIdColumn : String := "id INTEGER PRIMARY KEY AUTOINCREMENT"

/-- The column `id` of the table of a singleton (line 87). -/
def singletonIdColumn : String := "id INTEGER PRIMARY KEY"

/-- The array `columns` of a table and the fields of its entry after the loop (lines 26-72 and
84-129). -/
def tableColumns (idColumn : String) (fields : List Field) : List String × List Field :=
  fields.foldl columnStep
    ([idColumn, "created_at DATETIME DEFAULT CURRENT_TIMESTAMP",
      "updated_at DATETIME DEFAULT CURRENT_TIMESTAMP"], [])

/-- The statement `createTableSQL` (lines 74 and 131). -/
def createTableSQL (idColumn : String) (entry : Entry) : String :=
  "CREATE TABLE IF NOT EXISTS " ++ sanitize entry.name ++ " ("
    ++ jsJoin ", " (tableColumns idColumn entry.fields).1 ++ ")"

/-- The entry as the loop leaves it: the names of its fields are rewritten in place. -/
def assembleEntry (idColumn : String) (entry : Entry) : Entry :=
  { entry with fields := (tableColumns idColumn entry.fields).2 }

/-- The function `generateDbFromSchema(schema, dbPath)`: the statements that it executes, in
order, and the schema as it leaves it. Whether the store accepts a statement is not part of the
embedding. -/
def generateDbFromSchema (schema : Schema) : List String × Schema :=
  (schema.collections.map (createTableSQL collectionIdColumn)
     ++ schema.singletons.map (createTableSQL singletonIdColumn),
   { collections := schema.collections.map (assembleEntry collectionIdColumn),
     singletons := schema.singletons.map (assembleEntry singletonIdColumn) })

/-- The name of a column: the first word of its definition. -/
def columnName (definition : String) : String :=
  String.mk ((splitOnChar ' ' definition.data).headD [])

/-- The schema with every `required` flag set to `false`: two schemas differ only in their
`required` flags when they agree after this. -/
def eraseRequired (schema : Schema) : Schema :=
  { collections := schema.collections.map
      (fun e => { e with fields := e.fields.map (fun f => { f with required := false }) }),
    singletons := schema.singletons.map
      (fun e => { e with fields := e.fields.map (fun f => { f with required := false }) }) }

/-! ## The guards of the render entry points -/

/-- What the entry points ask of the file system for one `fileId`, and the message of the
error with which `fs.readJson` rejects when the file is missing. -/
structure Files where
  /-- Whether `uploads/<fileId>.html` exists. -/
  htmlExists : Bool
  /-- Whether a file with that base name exists somewhere below the upload directory. -/
  htmlBelow : Bool
  /-- Whether `uploads/<fileId>-schema.json` exists. -/
  schemaExists : Bool
  /-- Whether `databases/<fileId>.db` exists. -/
  dbExists : Bool
  /-- The message of the error of `fs.readJson` for the missing schema file. -/
  readJsonError : String

/-- Lines 15-20 of `generatePreview`: the message of the error thrown, if any. -/
def previewGuards (files : Files) : Option String :=
  if !files.htmlExists then some "HTML file not found"
  else if !files.schemaExists then some "Schema file not found - Please Re-Analyze the file"
  else if !files.dbExists then some "Database not found"
  else none

/-- Lines 97-110 of `bakeHtml`: the message of the error thrown, if any. The database is
opened before the schema is read. -/
def bakeGuards (files : Files) : Option String :=
  if !files.htmlExists && !files.htmlBelow then some "HTML file not found"
  else if !files.schemaExists then some files.readJsonError
  else none

/-- Line 15 of `exportProject`, then `bakeHtml`. -/
def exportGuards (files : Files) : Option String :=
  if !files.dbExists then some "Database not found" else bakeGuards files

/-- A column name as SQLite compares it with another: without regard to the case of the ASCII
letters (`Title` and `title` are the same column). -/
def sqliteFold (name : String) : String :=
  ⟨name.data.map Char.toLower⟩

/-- Two consecutive words, separated by one blank, between which `NOT NULL` cannot lie: the
first does not end in `T` or the second does not start with `N`. -/
def wordsApart (u v : List Char) : Prop :=
  ¬ (u.getLast? = some 'T' ∧ v.head? = some 'N')

instance : DecidableRel wordsApart :=
  fun u v => inferInstanceAs (Decidable (¬ (u.getLast? = some 'T' ∧ v.head? = some 'N')))

/-! ## Example documents -/

/-- The call `s.endsWith(p)`. -/
def jsEndsWith (s p : String) : Bool :=
  startsWithChars p.data.reverse s.data.reverse

/-- The item `<div class="testimonial"><h3 class="name">n</h3><p class="content">c</p></div>`. -/
def testimonialItem (n c : String) : Node :=
  .elem "div" [("class", "testimonial")]
    [.elem "h3" [("class", "name")] [.text n], .elem "p" [("class", "content")] [.text c]]

/-- A page with a header and a list of three testimonials. -/
def testimonialDoc : Node :=
  .elem "html" [] [.elem "head" [] [], .elem "body" []
    [.elem "header" [] [.elem "h1" [] [.text "Our clients"]],
     .elem "div" [("id", "list")]
       [testimonialItem "Ann" "Ann was very happy.",
        testimonialItem "Bob" "Bob was happy as well.",
        testimonialItem "Cyd" "Cyd came back twice."]]]

/-- The schema that `analyzeHtml` returns for `testimonialDoc`. -/
def testimonialSchema : Schema :=
  { collections :=
      [{ name := "testimonial_list",
         fields := [{ name := "title", type := "text", selector := "h3.name", required := false },
                    { name := "description", type := "rich_text", selector := "p.content",
                      required := false }] }],
    singletons :=
      [{ name := "header",
         fields := [{ name := "title", type := "text", selector := "h1", required := false }] }] }

/-- A heading `<tag>t</tag>`. -/
def heading (tag t : String) : Node :=
  .elem tag [] [.text t]

/-- A page with three repeated groups: cards with the classes `row card`, and the items of two
lists, which carry no class. -/
def namingDoc : Node :=
  .elem "html" [] [.elem "head" [] [], .elem "body" []
    [.elem "div" []
       [.elem "div" [("class", "row card")] [heading "h2" "One"],
        .elem "div" [("class", "row card")] [heading "h2" "Two"]],
     .elem "ul" [] [.elem "li" [] [heading "h3" "A"], .elem "li" [] [heading "h3" "B"]],
     .elem "ol" [] [.elem "li" [] [heading "h3" "C"], .elem "li" [] [heading "h3" "D"]]]]

/-- The schema that `analyzeHtml` returns for `namingDoc`. -/
def namingSchema : Schema :=
  { collections :=
      [{ name := "card_list",
         fields := [{ name := "title", type := "text", selector := "h2", required := false }] },
       { name := "collection_1",
         fields := [{ name := "title", type := "text", selector := "h3", required := false }] },
       { name := "collection_2",
         fields := [{ name := "title", type := "text", selector := "h3", required := false }] }],
    singletons := [] }

/-- A card `<div class="card"><h3>t</h3></div>`. -/
def card (t : String) : Node :=
  .elem "div" [("class", "card")] [heading "h3" t]

/-- A page with a section whose id is `card_list` and two rows of cards. -/
def duplicateDoc : Node :=
  .elem "html" [] [.elem "head" [] [], .elem "body" []
    [.elem "section" [("id", "card_list")] [heading "h2" "Cards"],
     .elem "div" [("class", "first")] [card "One", card "Two"],
     .elem "div" [("class", "second")] [card "Three", card "Four"]]]

/-- The item `<div class="quote"><h3>n</h3><p>c</p></div>`, whose class is none of the
container classes. -/
def quoteItem (n c : String) : Node :=
  .elem "div" [("class", "quote")] [heading "h3" n, .elem "p" [] [.text c]]

/-- A page with a header and two quotes. -/
def quoteDoc : Node :=
  .elem "html" [] [.elem "head" [] [], .elem "body" []
    [.elem "header" [] [.elem "h1" [] [.text "Our clients"]],
     .elem "div" [("id", "quotes")]
       [quoteItem "Ann" "Ann was very happy.", quoteItem "Bob" "Bob was happy as well."]]]

/-- The schema that `analyzeHtml` returns for `quoteDoc`. -/
def quoteSchema : Schema :=
  { collections :=
      [{ name := "quote_list",
         fields := [{ name := "title", type := "text", selector := "h3", required := false },
                    { name := "description", type := "rich_text", selector := "p",
                      required := false }] }],
    singletons :=
      [{ name := "header",
         fields := [{ name := "title", type := "text", selector := "h1", required := false }] }] }

/-- The collection of `quoteSchema`. -/
def quoteCollection : Entry :=
  { name := "quote_list",
    fields := [{ name := "title", type := "text", selector := "h3", required := false },
               { name := "description", type := "rich_text", selector := "p",
                 required := false }] }

/-- The collection of `testimonialSchema`. -/
def testimonialCollection : Entry :=
  { name := "testimonial_list",
    fields := [{ name := "title", type := "text", selector := "h3.name", required := false },
               { name := "description", type := "rich_text", selector := "p.content",
                 required := false }] }

/-- Two edited records for a collection with the fields `title` and `description`. -/
def editedRows : List Row :=
  [[("title", .str "First"), ("description", .str "First description")],
   [("title", .str "Second"), ("description", .str "Second description")]]

/-- A store in which every table holds `editedRows`. -/
def editedStore : Store :=
  fun _ => some editedRows

/-- A store in which every table is empty. -/
def emptyStore : Store :=
  fun _ => some []

/-- The heading of a testimonial, `<h3 class="name">n</h3>`. -/
def testimonialName (n : String) : Node :=
  .elem "h3" [("class", "name")] [.text n]

/-- The paragraph of a testimonial, `<p class="content">c</p>`. -/
def testimonialContent (c : String) : Node :=
  .elem "p" [("class", "content")] [.text c]

/-- The container of the testimonials, `<div id="list">...</div>`. -/
def listContainer (items : List (String × String)) : Node :=
  .elem "div" [("id", "list")] (items.map (fun x => testimonialItem x.1 x.2))

/-- The header `<header><h1>title</h1></header>`. -/
def pageHeader (title : String) : Node :=
  .elem "header" [] [.elem "h1" [] [.text title]]

/-- The page of the concrete scenario with any number of testimonials: a head with the nodes
`hd`, a header with the title, and a container whose children are the testimonials, each given
by its name and its content. -/
def listDoc (hd : List Node) (title : String) (items : List (String × String)) : Node :=
  .elem "html" [] [.elem "head" [] hd, .elem "body" [] [pageHeader title, listContainer items]]

/-- The row that `seedData` builds for a testimonial. -/
def testimonialRow (w : World) (x : String × String) : Row :=
  [("title", .str (jsTrim x.1)), ("description", .str (w.innerHtml "p" [.text x.2]))]

/-- The inserts of `seedData` for `listDoc`: one row per testimonial, then the header. -/
def listInserts (w : World) (title : String) (items : List (String × String)) :
    List (String × Row) :=
  items.map (fun x => ("testimonial_list", testimonialRow w x))
    ++ [("header", [("title", .str (jsTrim title))])]

/-- The elements of one testimonial, in document order. -/
def testimonialElements (x : String × String) : List Node :=
  [testimonialItem x.1 x.2, testimonialName x.1, testimonialContent x.2]

/-- The selector `h3.name`, parsed. -/
def selName : Selector :=
  [{ tag := some "h3", classes := ["name"], attrs := [] }]

/-- The selector `p.content`, parsed. -/
def selContent : Selector :=
  [{ tag := some "p", classes := ["content"], attrs := [] }]

/-- What `generatePreview` makes of `quoteDoc` after seeding: the head has the `base` element,
and the first quote holds the two headings and has lost its paragraph. -/
def quotePreview : Node :=
  .elem "html" [] [.elem "head" [] [baseElement], .elem "body" []
    [.elem "header" [] [.elem "h1" [] [.text "Our clients"]],
     .elem "div" [("id", "quotes")]
       [.elem "div" [("class", "quote")] [heading "h3" "Ann", heading "h3" "Bob"],
        quoteItem "Bob" "Bob was happy as well."]]]

/-- What `bakeHtml` makes of `quoteDoc` after seeding: the first quote holds the heading of the
template twice. -/
def quoteBaked : Node :=
  .elem "html" [] [.elem "head" [] [], .elem "body" []
    [.elem "header" [] [.elem "h1" [] [.text "Our clients"]],
     .elem "div" [("id", "quotes")]
       [.elem "div" [("class", "quote")] [heading "h3" "Ann", heading "h3" "Ann"],
        quoteItem "Bob" "Bob was happy as well."]]]

/-! ## Examples for the detector -/

/-- The child `<div class="k"><h3>t</h3></div>`. -/
def classed (k t : String) : Node :=
  .elem "div" [("class", k)] [heading "h3" t]

/-- A row of two cards whose `class` attributes list the same tokens in different orders, with
a run of two blanks in the second. -/
def permutedRow : Node :=
  .elem "div" [] [classed "card big" "One", classed "big  card" "Two"]

/-- A row of two cards with the same class token; the attribute of the second ends in a
blank. -/
def spacedRow : Node :=
  .elem "div" [] [classed "card" "One", classed "card " "Two"]

/-- A row of two children: one with the class token `a.b`, one with the tokens `a` and `b`. -/
def dottedRow : Node :=
  .elem "div" [] [classed "a.b" "One", classed "a b" "Two"]

/-- The paragraph `<p>t</p>`. -/
def paragraph (t : String) : Node :=
  .elem "p" [] [.text t]

/-- A section with five paragraphs, of which only the fifth has more than 10 characters. -/
def fiveParagraphs : Node :=
  .elem "section" [("id", "intro")]
    [paragraph "One", paragraph "Two", paragraph "Three", paragraph "Four",
     paragraph "A fifth paragraph, long enough"]

/-- The element `<main id="hero"><h1>Welcome</h1></main>`. -/
def heroMain : Node :=
  .elem "main" [("id", "hero")] [heading "h1" "Welcome"]

/-- A page whose only content is `heroMain`. -/
def heroDoc : Node :=
  .elem "html" [] [.elem "head" [] [], .elem "body" [] [heroMain]]

/-- The element `<div id="hero"><h1>Welcome</h1></div>`. -/
def heroDiv : Node :=
  .elem "div" [("id", "hero")] [heading "h1" "Welcome"]

/-- A page whose only content is `heroDiv`. -/
def heroDivDoc : Node :=
  .elem "html" [] [.elem "head" [] [], .elem "body" [] [heroDiv]]

/-- A page with a section whose id is `card_list` and one row of two cards. -/
def claimedDoc : Node :=
  .elem "html" [] [.elem "head" [] [], .elem "body" []
    [.elem "section" [("id", "card_list")] [heading "h2" "Cards"],
     .elem "div" [("class", "cards")] [card "One", card "Two"]]]

/-- A page with two `header` elements side by side, neither with a class or an id. -/
def headersDoc : Node :=
  .elem "html" [] [.elem "head" [] [], .elem "body" []
    [.elem "div" [("class", "top")]
      [.elem "header" [] [heading "h1" "One"], .elem "header" [] [heading "h1" "Two"]]]]

/-! ## Examples for the extraction -/

/-- A field of type `number` whose selector `span.price` matches nothing in the examples. -/
def priceField : Field :=
  { name := "price", type := "number", selector := "span.price", required := false }

/-- The paragraph `<p>  </p>`, whose text is two blanks. -/
def blankParagraph : Node :=
  .elem "p" [] [.text "  "]

/-- The element `<img src="a.png">`. -/
def logoImage : Node :=
  .elem "img" [("src", "a.png")] []

/-- The paragraph `<p>  Hello world  </p>`. -/
def paddedParagraph : Node :=
  .elem "p" [("class", "lead")] [.text "  Hello world  "]

/-- A section that holds `paddedParagraph`. -/
def paddedSection : Node :=
  .elem "section" [("id", "intro")] [paddedParagraph]

/-- A field of type `rich_text` for `paddedParagraph`. -/
def leadField : Field :=
  { name := "description", type := "rich_text", selector := "p.lead", required := false }

/-- The element `<span class="price">t</span>`. -/
def priceTag (t : String) : Node :=
  .elem "span" [("class", "price")] [.text t]

/-! ## Examples for the render -/

/-- The card `<div class="card"><img src="s"><h3>t</h3></div>`. -/
def pictureCard (s t : String) : Node :=
  .elem "div" [("class", "card")] [.elem "img" [("src", s)] [], heading "h3" t]

/-- A page with a row of two picture cards. -/
def pictureDoc : Node :=
  .elem "html" [] [.elem "head" [] [], .elem "body" []
    [.elem "div" [("class", "cards")] [pictureCard "a.png" "One", pictureCard "b.png" "Two"]]]

/-- The collection that `analyzeHtml` finds in `pictureDoc`. -/
def pictureCollection : Entry :=
  { name := "card_list",
    fields := [{ name := "image", type := "image", selector := "img", required := false },
               { name := "title", type := "text", selector := "h3", required := false }] }

/-- A store whose table `card_list` holds one record, both of whose values are `null`. -/
def nullStore : Store :=
  fun table => if table = "card_list" then some [[("image", .null), ("title", .null)]] else none

/-- The item `<div class="item">old</div>`, which has no element below it. -/
def itemBox : Node :=
  .elem "div" [("class", "item")] [.text "old"]

/-- A field of type `text` with the selector `div.item`. -/
def labelField : Field :=
  { name := "label", type := "text", selector := "div.item", required := false }

/-- Two fields with the selector `div.item`: a `rich_text` field and `labelField`. -/
def boxFields : List Field :=
  [{ name := "body", type := "rich_text", selector := "div.item", required := false },
   labelField]

/-- A record for `boxFields` whose `body` is the markup of a `div` with the class `item`. -/
def boxRow : Row :=
  [("body", .str "<div class=\"item\">new</div>"), ("label", .str "Hi")]

/-- An environment like `plainWorld` whose parser also knows the markup of `boxRow`. -/
def markupWorld : World :=
  { innerHtml := fun _ cs => textOfList cs,
    parseHtml := fun _ s =>
      if s = "<div class=\"item\">new</div>" then [.elem "div" [("class", "item")] [.text "new"]]
      else if s = "" then [] else [.text s],
    now := "2024-01-01T00:00:00.000Z",
    assetExists := fun _ => true }

/-- A section whose one paragraph holds six characters beyond the basic plane. -/
def emojiSection : Node :=
  .elem "section" [] [.elem "p" []
    [.text (String.mk [Char.ofNat 128512, Char.ofNat 128512, Char.ofNat 128512,
      Char.ofNat 128512, Char.ofNat 128512, Char.ofNat 128512])]]

/-! ## Examples for the choice of the template item -/

/-- A page with one card whose heading carries the class `card-title`. -/
def titleDoc : Node :=
  .elem "html" [] [.elem "head" [] [], .elem "body" []
    [.elem "div" [("class", "card")]
      [.elem "h3" [("class", "card-title")] [.text "One"]]]]

/-- The first field of `testimonialCollection`. -/
def nameField : Field :=
  { name := "title", type := "text", selector := "h3.name", required := false }

/-- The second field of `testimonialCollection`. -/
def contentField : Field :=
  { name := "description", type := "rich_text", selector := "p.content", required := false }

/-- The selector that `h3.name` parses to. -/
def selNameField : Selector :=
  [{ tag := some "h3", classes := ["name"], attrs := [] }]

/-- A page whose row of cards starts with a heading that is no card. -/
def headedDoc : Node :=
  .elem "html" [] [.elem "head" [] [], .elem "body" []
    [.elem "div" [("class", "cards")] [heading "h2" "Our cards", card "One", card "Two"]]]

/-- The collection of the cards of `headedDoc`. -/
def cardCollection : Entry :=
  { name := "card_list",
    fields := [{ name := "title", type := "text", selector := "h3", required := false }] }

/-- A card with two headings. -/
def twoHeadingCard (a b : String) : Node :=
  .elem "div" [("class", "card")] [heading "h3" a, heading "h3" b]

/-- A page with a row of two cards with two headings each. -/
def twoHeadingDoc : Node :=
  .elem "html" [] [.elem "head" [] [], .elem "body" []
    [.elem "div" [("class", "cards")] [twoHeadingCard "One" "Two", twoHeadingCard "Three" "Four"]]]

/-- A store whose tables hold one record with the title `New`. -/
def newStore : Store :=
  fun _ => some [[("title", .str "New")]]

/-! ## Examples for the asset paths and the store -/

/-- A field of type `image` with the selector `img`. -/
def imageField : Field :=
  { name := "image", type := "image", selector := "img", required := false }

/-- An environment whose upload directory holds the one file `b.png`. -/
def flatWorld : World :=
  { innerHtml := fun _ cs => textOfList cs,
    parseHtml := fun _ s => if s = "" then [] else [.text s],
    now := "2024-01-01T00:00:00.000Z",
    assetExists := fun p => p == "b.png" }

/-- A page whose card holds a list; the heading lies in an item of the list. -/
def listedDoc : Node :=
  .elem "html" [] [.elem "head" [] [], .elem "body" []
    [.elem "div" [("class", "card")]
      [.elem "ul" [] [.elem "li" [] [heading "h3" "One"], .elem "li" [] [heading "h3" "Two"]]]]]

/-- The card `<div class="card"><span class="id">n</span><h3>t</h3></div>`. -/
def numberedCard (n t : String) : Node :=
  .elem "div" [("class", "card")] [.elem "span" [("class", "id")] [.text n], heading "h3" t]

/-- A page with a row of two numbered cards. -/
def numberedDoc : Node :=
  .elem "html" [] [.elem "head" [] [], .elem "body" []
    [.elem "div" [("class", "cards")] [numberedCard "7" "One", numberedCard "8" "Two"]]]

/-- A schema whose collection has a field named `id`. -/
def reservedSchema : Schema :=
  { collections :=
      [{ name := "card_list",
         fields := [{ name := "id", type := "text", selector := "span.id", required := false },
                    { name := "title", type := "text", selector := "h3", required := false }] }],
    singletons := [] }

/-- An entry with the two field names `a-b` and `a_b`. -/
def dashedEntry : Entry :=
  { name := "card_list",
    fields := [{ name := "a-b", type := "text", selector := "h3", required := false },
               { name := "a_b", type := "text", selector := "p", required := false }] }

/-- The files of `index`: the page and the database exist, the schema file does not; the
message is the one of Node.js for a missing file. -/
def missingSchemaFiles : Files :=
  { htmlExists := true, htmlBelow := true, schemaExists := false, dbExists := true,
    readJsonError := "ENOENT: no such file or directory, open 'uploads/index-schema.json'" }

/-- The schema `reservedSchema` with every field marked as required. -/
def requiredSchema : Schema :=
  { collections :=
      [{ name := "card_list",
         fields := [{ name := "id", type := "text", selector := "span.id", required := true },
                    { name := "title", type := "text", selector := "h3", required := true }] }],
    singletons := [] }

/-- A collection whose one field is named `__proto__`. -/
def protoCollection : Entry :=
  { name := "card_list",
    fields := [{ name := "__proto__", type := "text", selector := "h3", required := false }] }

/-- An entry with the two field names `Title` and `title`. -/
def casedEntry : Entry :=
  { name := "card_list",
    fields := [{ name := "Title", type := "text", selector := "h3", required := false },
               { name := "title", type := "text", selector := "p", required := false }] }

/-! # Theorems -/

/-! ## The sanitizer and the collision resolver -/

theorem digitChar_inj : ∀ a < 10, ∀ b < 10, Nat.digitChar a = Nat.digitChar b → a = b := by decide

theorem sanitizeChar_digitChar : ∀ a < 10, sanitizeChar (Nat.digitChar a) = Nat.digitChar a := by
  decide

theorem toDigitsCore_eq (fuel : Nat) : ∀ n ds, n < fuel → 0 < n →
    Nat.toDigitsCore 10 fuel n ds = ((Nat.digits 10 n).reverse.map Nat.digitChar) ++ ds := by
  induction fuel with
  | zero => intro n ds h; omega
  | succ f ih =>
    intro n ds h hn
    rw [Nat.toDigitsCore]
    have hd : Nat.digits 10 n = (n % 10) :: Nat.digits 10 (n / 10) :=
      Nat.digits_def' (by norm_num) hn
    by_cases h0 : n / 10 = 0
    · simp [h0, hd]
    · simp only [h0, if_false]
      rw [ih (n / 10) _ (by omega) (by omega), hd]
      simp

theorem map_digitChar_inj : ∀ l₁ l₂ : List Nat, (∀ a ∈ l₁, a < 10) → (∀ b ∈ l₂, b < 10) →
    l₁.map Nat.digitChar = l₂.map Nat.digitChar → l₁ = l₂ := by
  intro l₁
  induction l₁ with
  | nil => intro l₂ _ _ h; cases l₂ with
    | nil => rfl
    | cons b t => simp at h
  | cons a s ih =>
    intro l₂ h1 h2 h
    cases l₂ with
    | nil => simp at h
    | cons b t =>
      simp only [List.map_cons, List.cons.injEq] at h
      have hab := digitChar_inj a (h1 a (by simp)) b (h2 b (by simp)) h.1
      rw [hab, ih t (fun x hx => h1 x (by simp [hx])) (fun x hx => h2 x (by simp [hx])) h.2]

theorem toDigits_zero : Nat.toDigits 10 0 = ['0'] := by decide

theorem toDigits_pos (n : Nat) (hn : 0 < n) :
    Nat.toDigits 10 n = (Nat.digits 10 n).reverse.map Nat.digitChar := by
  rw [Nat.toDigits, toDigitsCore_eq (n + 1) n [] (by omega) hn]; simp

theorem toDigits_inj (n m : Nat) (h : Nat.toDigits 10 n = Nat.toDigits 10 m) : n = m := by
  have key : ∀ k, 0 < k → Nat.toDigits 10 k ≠ ['0'] := by
    intro k hk hc
    rw [toDigits_pos k hk] at hc
    have h0 : (Nat.digits 10 k).reverse = [0] := by
      apply map_digitChar_inj _ _ _ _ (by simpa using hc)
      · intro a ha; exact Nat.digits_lt_base (by norm_num) (List.mem_reverse.mp ha)
      · intro b hb; simp at hb; omega
    have h1 : Nat.digits 10 k = [0] := by
      have := congrArg List.reverse h0; simpa using this
    have h2 := Nat.getLast_digit_ne_zero 10 (Nat.pos_iff_ne_zero.mp hk)
    simp [h1] at h2
  rcases Nat.eq_zero_or_pos n with hn | hn <;> rcases Nat.eq_zero_or_pos m with hm | hm
  · omega
  · subst hn; rw [toDigits_zero] at h; exact absurd h.symm (key m hm)
  · subst hm; rw [toDigits_zero] at h; exact absurd h (key n hn)
  · rw [toDigits_pos n hn, toDigits_pos m hm] at h
    have h3 := map_digitChar_inj _ _
      (fun a ha => Nat.digits_lt_base (by norm_num) (List.mem_reverse.mp ha))
      (fun a ha => Nat.digits_lt_base (by norm_num) (List.mem_reverse.mp ha)) h
    have h4 : Nat.digits 10 n = Nat.digits 10 m := by
      have := congrArg List.reverse h3; simpa using this
    exact Nat.digits.injective 10 h4

/-- The decimal digits of a counter are left alone by the sanitizer. -/
theorem map_sanitizeChar_toDigits (n : Nat) :
    (Nat.toDigits 10 n).map sanitizeChar = Nat.toDigits 10 n := by
  rcases Nat.eq_zero_or_pos n with hn | hn
  · subst hn; decide
  · rw [toDigits_pos n hn, List.map_map]
    apply List.map_congr_left
    intro a ha
    exact sanitizeChar_digitChar a (Nat.digits_lt_base (by norm_num) (List.mem_reverse.mp ha))

theorem toString_nat_data (n : Nat) : (toString n).data = Nat.toDigits 10 n := by
  simp [toString, Nat.repr, List.asString]

/-- The suffixed candidate, spelled out: the sanitized base, an underscore, the counter. -/
theorem sanitize_suffixed (name : String) (k : Nat) :
    sanitize (name ++ "_" ++ toString k)
      = sanitize name ++ "_" ++ toString k := by
  apply String.ext
  simp [sanitize, String.data_append, toString_nat_data, map_sanitizeChar_toDigits]
  decide

theorem candidate_injective (name : String) : Function.Injective (candidate name) := by
  intro a b h
  unfold candidate at h
  have hlen : ∀ k : Nat, (sanitize (name ++ "_" ++ toString k)).data.length
      = (sanitize name).data.length + 1 + (toString k).data.length := by
    intro k; rw [sanitize_suffixed]; simp [String.data_append]; omega
  by_cases ha : a = 0 <;> by_cases hb : b = 0
  · omega
  · simp only [ha, hb, if_true, if_false] at h
    have := congrArg (fun s => s.data.length) h
    simp only [hlen] at this; omega
  · simp only [ha, hb, if_true, if_false] at h
    have := congrArg (fun s => s.data.length) h
    simp only [hlen] at this; omega
  · simp only [ha, hb, if_false] at h
    rw [sanitize_suffixed, sanitize_suffixed] at h
    have h2 := congrArg String.data h
    simp only [String.data_append, List.append_cancel_left_eq] at h2
    exact toDigits_inj a b (by rw [← toString_nat_data a, ← toString_nat_data b, h2])

/-- Among the first `used.length + 1` candidates one is not in `used`. -/
theorem exists_candidate_not_mem (name : String) (used : List String) :
    ∃ m, m ≤ used.length ∧ candidate name m ∉ used := by
  by_contra hcon
  push_neg at hcon
  have hsub : (List.range (used.length + 1)).map (candidate name) ⊆ used := by
    intro x hx
    simp only [List.mem_map, List.mem_range] at hx
    obtain ⟨m, hm, rfl⟩ := hx
    exact hcon m (by omega)
  have hnd : ((List.range (used.length + 1)).map (candidate name)).Nodup :=
    (List.nodup_range _).map (candidate_injective name)
  have := (List.subperm_of_subset hnd hsub).length_le
  simp at this

theorem addFieldLoop_found (name : String) (used : List String) :
    ∀ d fuel j, (∀ i, j ≤ i → i < j + d → candidate name i ∈ used) →
      candidate name (j + d) ∉ used → d < fuel →
      addFieldLoop name used fuel (candidate name j) (j + 1) = some (candidate name (j + d)) := by
  intro d
  induction d with
  | zero =>
    intro fuel j _ hnot hf
    obtain ⟨f, rfl⟩ : ∃ f, fuel = f + 1 := ⟨fuel - 1, by omega⟩
    simp only [Nat.add_zero] at hnot
    simp [addFieldLoop, hnot]
  | succ d ih =>
    intro fuel j hall hnot hf
    obtain ⟨f, rfl⟩ : ∃ f, fuel = f + 1 := ⟨fuel - 1, by omega⟩
    have hj : candidate name j ∈ used := hall j (le_refl _) (by omega)
    have hnext : sanitize (name ++ "_" ++ toString (j + 1)) = candidate name (j + 1) := by
      simp [candidate]
    rw [addFieldLoop, if_pos hj, hnext]
    have := ih f (j + 1) (fun i h1 h2 => hall i (by omega) (by omega))
      (by rw [show j + 1 + d = j + (d + 1) by omega]; exact hnot) (by omega)
    rw [this, show j + 1 + d = j + (d + 1) by omega]

/-- The loop of `addField` leaves within `used.length + 1` tests, with the first candidate that
is not in the set. -/
theorem addFieldLoop_enough (name : String) (used : List String) :
    ∃ k, k ≤ used.length ∧ candidate name k ∉ used ∧ (∀ j, j < k → candidate name j ∈ used) ∧
      ∀ fuel, used.length < fuel →
        addFieldLoop name used fuel (sanitize name) 1 = some (candidate name k) := by
  classical
  have hex := exists_candidate_not_mem name used
  have hex2 : ∃ m, candidate name m ∉ used := by
    obtain ⟨m, _, hm⟩ := hex; exact ⟨m, hm⟩
  refine ⟨Nat.find hex2, ?_, Nat.find_spec hex2, ?_, ?_⟩
  · obtain ⟨m, hm, hm2⟩ := hex
    exact le_trans (Nat.find_min' hex2 hm2) hm
  · intro j hj
    by_contra hc
    exact absurd (Nat.find_min' hex2 hc) (by omega)
  · intro fuel hf
    have hle : Nat.find hex2 ≤ used.length := by
      obtain ⟨m, hm, hm2⟩ := hex
      exact le_trans (Nat.find_min' hex2 hm2) hm
    have := addFieldLoop_found name used (Nat.find hex2) fuel 0
      (fun i _ h2 => by
        by_contra hc
        exact absurd (Nat.find_min' hex2 hc) (by omega))
      (by simpa using Nat.find_spec hex2) (by omega)
    simpa [candidate] using this


theorem sanitizeChar_isWordChar (c : Char) : isWordChar (sanitizeChar c) = true := by
  unfold sanitizeChar
  by_cases h : isWordChar c = true
  · simp [h]
  · rw [if_neg h]; decide

theorem sanitizeChar_of_isWordChar (c : Char) (h : isWordChar c = true) : sanitizeChar c = c := by
  simp [sanitizeChar, h]

theorem sanitize_of_isWordChar (s : String) (h : ∀ c ∈ s.data, isWordChar c = true) :
    sanitize s = s := by
  apply String.ext
  simp only [sanitize]
  conv_rhs => rw [← List.map_id s.data]
  exact List.map_congr_left (fun c hc => sanitizeChar_of_isWordChar c (h c hc))

/-- What one call of `addField` does, in terms of the candidates. -/
theorem addField_eq (name type selector : String) (st : FieldsState) :
    ∃ k, k ≤ st.usedNames.length ∧ candidate name k ∉ st.usedNames ∧
      (∀ j, j < k → candidate name j ∈ st.usedNames) ∧
      addField name type selector st =
        { fields := st.fields ++ [{ name := candidate name k, type := type,
                                    selector := selector, required := false }],
          usedNames := st.usedNames ++ [candidate name k] } := by
  obtain ⟨k, hk, hnot, hall, hloop⟩ := addFieldLoop_enough name st.usedNames
  refine ⟨k, hk, hnot, hall, ?_⟩
  simp [addField, hloop (st.usedNames.length + 1) (by omega), setAdd, hnot]

theorem FieldsState.inv_empty : FieldsState.empty.Inv := by
  simp [FieldsState.Inv, FieldsState.empty]

theorem addField_inv (name type selector : String) (st : FieldsState) (h : st.Inv) :
    (addField name type selector st).Inv := by
  obtain ⟨k, _, hnot, _, heq⟩ := addField_eq name type selector st
  rw [heq]
  obtain ⟨h1, h2⟩ := h
  refine ⟨by simp [h1], ?_⟩
  simp only
  rw [List.nodup_append]
  refine ⟨h2, by simp, ?_⟩
  intro a ha hb
  simp only [List.mem_singleton] at hb
  subst hb
  exact hnot ha

theorem addField_fields_length (name type selector : String) (st : FieldsState) :
    (addField name type selector st).fields.length = st.fields.length + 1 := by
  obtain ⟨k, _, _, _, heq⟩ := addField_eq name type selector st
  rw [heq]; simp

theorem submitSame_inv (name type selector : String) (n : Nat) :
    (submitSame name type selector n).Inv := by
  induction n with
  | zero => exact FieldsState.inv_empty
  | succ n ih => exact addField_inv _ _ _ _ ih

theorem submitSame_length (name type selector : String) (n : Nat) :
    (submitSame name type selector n).fields.length = n := by
  induction n with
  | zero => rfl
  | succ n ih => rw [submitSame, addField_fields_length, ih]

theorem submitSame_head (name type selector : String) (n : Nat) :
    ((submitSame name type selector (n + 1)).fields.map Field.name).head? = some (sanitize name) := by
  induction n with
  | zero =>
    obtain ⟨k, hk, _, _, heq⟩ := addField_eq name type selector (submitSame name type selector 0)
    rw [submitSame, heq]
    have hk0 : k = 0 := by simpa [submitSame, FieldsState.empty] using hk
    subst hk0
    simp [submitSame, FieldsState.empty, candidate]
  | succ n ih =>
    obtain ⟨k, _, _, _, heq⟩ :=
      addField_eq name type selector (submitSame name type selector (n + 1))
    rw [submitSame, heq]
    have hlen := submitSame_length name type selector (n + 1)
    cases hf : (submitSame name type selector (n + 1)).fields with
    | nil => rw [hf] at hlen; simp at hlen
    | cons f fs =>
      rw [hf] at ih
      simpa using ih

/-- C5. Sanitizer idempotence: sanitizing twice is sanitizing once, and every character of a
sanitized string lies in `[A-Za-z0-9_]`. -/
theorem sanitize_idempotent (s : String) :
    sanitize (sanitize s) = sanitize s ∧ ∀ c ∈ (sanitize s).data, isWordChar c = true := by
  have hword : ∀ c ∈ (sanitize s).data, isWordChar c = true := by
    intro c hc
    simp only [sanitize, List.mem_map] at hc
    obtain ⟨a, _, rfl⟩ := hc
    exact sanitizeChar_isWordChar a
  exact ⟨sanitize_of_isWordChar _ hword, hword⟩

/-- C6, as the code has it. Submitting one base name `n ≥ 1` times to `addField` with one
shared set, empty at first, gives `n` pairwise distinct names; the first is the sanitized base
name, which is the base name itself when the base has only characters of `[A-Za-z0-9_]`. -/
theorem submitSame_distinct (name type selector : String) (n : Nat) (hn : 1 ≤ n) :
    ((submitSame name type selector n).fields.map Field.name).length = n ∧
    ((submitSame name type selector n).fields.map Field.name).Nodup ∧
    ((submitSame name type selector n).fields.map Field.name).head? = some (sanitize name) ∧
    ((∀ c ∈ name.data, isWordChar c = true) →
      ((submitSame name type selector n).fields.map Field.name).head? = some name) := by
  obtain ⟨m, rfl⟩ : ∃ m, n = m + 1 := ⟨n - 1, by omega⟩
  have hinv := submitSame_inv name type selector (m + 1)
  refine ⟨by simp [submitSame_length], ?_, submitSame_head name type selector m, ?_⟩
  · rw [← hinv.1]; exact hinv.2
  · intro hw
    rw [submitSame_head, sanitize_of_isWordChar name hw]

theorem submitSame_distinct_witness :
    ((submitSame "title" "text" "h3" 3).fields.map Field.name).length = 3 ∧
    ((submitSame "title" "text" "h3" 3).fields.map Field.name).Nodup ∧
    ((submitSame "title" "text" "h3" 3).fields.map Field.name).head? = some (sanitize "title") ∧
    ((∀ c ∈ "title".data, isWordChar c = true) →
      ((submitSame "title" "text" "h3" 3).fields.map Field.name).head? = some "title") :=
  submitSame_distinct "title" "text" "h3" 3 (by decide)

/-- C6, as the claim has it, fails: the first name returned for the base `a-b` is `a_b`, not
the base unchanged. -/
theorem submitSame_first_not_base :
    (submitSame "a-b" "text" "h3" 2).fields.map Field.name = ["a_b", "a_b_1"] ∧
    ((submitSame "a-b" "text" "h3" 2).fields.map Field.name).head? ≠ some "a-b" := by
  decide

/-- C7. Collision resolver result. For every base name and every set `usedNames`, the loop of
`addField` leaves (any fuel above the size of the set suffices) with a name `finalName` that is
the sanitized base when that is not in the set, and otherwise the sanitized `base_k` for the
least `k ≥ 1` whose sanitized `base_k` is not in the set; `finalName` was not in the set, it is
the name of the field that is pushed, and the set afterwards is the old set with `finalName`
added at the end. -/
theorem addField_registers (name type selector : String) (st : FieldsState) :
    ∃ finalName,
      (∀ fuel, st.usedNames.length < fuel →
        addFieldLoop name st.usedNames fuel (sanitize name) 1 = some finalName) ∧
      (sanitize name ∉ st.usedNames → finalName = sanitize name) ∧
      (sanitize name ∈ st.usedNames → ∃ k, 1 ≤ k ∧
        finalName = sanitize (name ++ "_" ++ toString k) ∧
        ∀ j, 1 ≤ j → j < k → sanitize (name ++ "_" ++ toString j) ∈ st.usedNames) ∧
      finalName ∉ st.usedNames ∧
      addField name type selector st =
        { fields := st.fields ++ [{ name := finalName, type := type, selector := selector,
                                    required := false }],
          usedNames := st.usedNames ++ [finalName] } := by
  obtain ⟨k, hk, hnot, hall, hloop⟩ := addFieldLoop_enough name st.usedNames
  refine ⟨candidate name k, hloop, ?_, ?_, hnot, ?_⟩
  · intro h0
    have hk0 : k = 0 := by
      by_contra hne
      have := hall 0 (by omega)
      simp [candidate] at this
      exact h0 this
    simp [hk0, candidate]
  · intro h0
    have hk1 : 1 ≤ k := by
      by_contra hlt
      have hk0 : k = 0 := by omega
      rw [hk0] at hnot
      simp [candidate] at hnot
      exact hnot h0
    refine ⟨k, hk1, by simp [candidate, show k ≠ 0 by omega], ?_⟩
    intro j hj1 hjk
    have := hall j hjk
    simpa [candidate, show j ≠ 0 by omega] using this
  · simp [addField, hloop (st.usedNames.length + 1) (by omega), setAdd, hnot]


/-! ## Field discovery keeps its names apart -/

theorem foldl_preserves {α β : Type} (P : β → Prop) (f : β → α → β)
    (h : ∀ b a, P b → P (f b a)) : ∀ (l : List α) (b : β), P b → P (l.foldl f b) := by
  intro l
  induction l with
  | nil => intro b hb; exact hb
  | cons a l ih => intro b hb; exact ih (f b a) (h b a hb)

theorem foldlM_preserves {α β : Type} (P : β → Prop) (f : β → α → Option β)
    (h : ∀ b a b', P b → f b a = some b' → P b') :
    ∀ (l : List α) (b r : β), P b → l.foldlM f b = some r → P r := by
  intro l
  induction l with
  | nil => intro b r hb hr; simp at hr; subst hr; exact hb
  | cons a l ih =>
    intro b r hb hr
    simp only [List.foldlM_cons] at hr
    cases hfa : f b a with
    | none => rw [hfa] at hr; simp at hr
    | some b' => rw [hfa] at hr; exact ih b' r (h b a b' hb hfa) hr

theorem extractFieldsState_inv (container : Node) : (extractFieldsState container).Inv := by
  unfold extractFieldsState
  apply foldl_preserves FieldsState.Inv
  · intro b a hb; exact addField_inv _ _ _ _ hb
  apply foldl_preserves FieldsState.Inv
  · intro b a hb
    unfold paragraphStep
    split
    · exact hb
    · split
      · exact addField_inv _ _ _ _ hb
      · exact hb
  apply foldl_preserves FieldsState.Inv
  · intro b a hb; exact addField_inv _ _ _ _ hb
  apply foldl_preserves FieldsState.Inv
  · intro b a hb
    unfold imageStep
    split
    · exact hb
    · exact addField_inv _ _ _ _ hb
  exact FieldsState.inv_empty

theorem extractFields_nodup (container : Node) :
    ((extractFields container).map Field.name).Nodup := by
  have h := extractFieldsState_inv container
  unfold extractFields
  rw [← h.1]; exact h.2

/-! ## Grouping by signature -/

theorem mem_firstOccurrences (x : String) : ∀ l : List String, x ∈ firstOccurrences l ↔ x ∈ l := by
  intro l
  induction l with
  | nil => simp [firstOccurrences]
  | cons y l ih =>
    simp only [firstOccurrences, List.mem_cons, List.mem_filter, ih]
    by_cases h : x = y
    · simp [h]
    · simp [h]

theorem firstOccurrences_snoc (x : String) : ∀ l : List String,
    firstOccurrences (l ++ [x]) = if x ∈ l then firstOccurrences l else firstOccurrences l ++ [x] := by
  intro l
  induction l with
  | nil => simp [firstOccurrences]
  | cons y l ih =>
    rw [List.cons_append, firstOccurrences, ih]
    by_cases hx : x ∈ l
    · simp [hx, firstOccurrences]
    · by_cases hxy : x = y
      · subst hxy; simp [hx, List.filter_append, firstOccurrences]
      · simp [hx, hxy, List.filter_append, firstOccurrences]

theorem firstOccurrences_nodup : ∀ l : List String, (firstOccurrences l).Nodup := by
  intro l
  induction l with
  | nil => simp [firstOccurrences]
  | cons y l ih =>
    simp only [firstOccurrences, List.nodup_cons, List.mem_filter]
    exact ⟨by simp, ih.filter _⟩

theorem foldl_setAdd_nil : ∀ (l : List String) (pre : List String),
    l.foldl setAdd (firstOccurrences pre) = firstOccurrences (pre ++ l) := by
  intro l
  induction l with
  | nil => intro pre; simp
  | cons x l ih =>
    intro pre
    simp only [List.foldl_cons]
    have : setAdd (firstOccurrences pre) x = firstOccurrences (pre ++ [x]) := by
      rw [firstOccurrences_snoc]; simp [setAdd, mem_firstOccurrences]
    rw [this, ih]; simp

theorem groupsOf_push (l : List Node) (c : Node) :
    (groupsOf l).push (signature c) c = groupsOf (l ++ [c]) := by
  unfold Groups.push groupsOf
  by_cases h : signature c ∈ l.map signature
  · have hany : ((firstOccurrences (l.map signature)).map
        (fun s => (s, l.filter (fun c => signature c == s)))).any
          (fun kv => kv.1 == signature c) = true := by
      rw [List.any_eq_true]
      refine ⟨(signature c, l.filter (fun d => signature d == signature c)), ?_, by simp⟩
      rw [List.mem_map]
      exact ⟨signature c, (mem_firstOccurrences _ _).mpr h, rfl⟩
    rw [if_pos hany]
    simp only [List.map_append, List.map_cons, List.map_nil, firstOccurrences_snoc, h, if_true,
      List.map_map]
    apply List.map_congr_left
    intro s _
    by_cases hs : s = signature c
    · subst hs; simp [List.filter_append]
    · have hs2 : ¬ signature c = s := fun e => hs e.symm
      simp [hs, hs2, List.filter_append]
  · have hany : ¬ ((firstOccurrences (l.map signature)).map
        (fun s => (s, l.filter (fun c => signature c == s)))).any
          (fun kv => kv.1 == signature c) = true := by
      rw [List.any_eq_true]
      rintro ⟨kv, hkv, hc⟩
      rw [List.mem_map] at hkv
      obtain ⟨s, hs, rfl⟩ := hkv
      simp at hc
      subst hc
      exact h ((mem_firstOccurrences _ _).mp hs)
    rw [if_neg hany]
    simp only [List.map_append, List.map_cons, List.map_nil, firstOccurrences_snoc, h, if_false]
    congr 1
    · apply List.map_congr_left
      intro s hs
      have hne : ¬ signature c = s := by
        intro e; subst e; exact h ((mem_firstOccurrences _ _).mp hs)
      simp [List.filter_append, hne]
    · have hnil : l.filter (fun d => signature d == signature c) = [] := by
        simp only [List.filter_eq_nil_iff]
        intro d hd hc
        simp at hc
        exact h (by simp only [List.mem_map]; exact ⟨d, hd, hc⟩)
      simp [List.filter_append, hnil]

theorem foldlM_groupStep (cs : List Node) : ∀ (pre : List Node) (g : Groups),
    cs.foldlM groupStep (groupsOf pre) = some g →
    g = groupsOf (pre ++ cs.filter
      (fun c => decide (c.tag ∉ ["script", "style", "link", "meta"]))) := by
  induction cs with
  | nil => intro pre g h; simp at h; simp [h]
  | cons c cs ih =>
    intro pre g h
    simp only [List.foldlM_cons] at h
    by_cases hskip : c.tag ∈ ["script", "style", "link", "meta"]
    · have : groupStep (groupsOf pre) c = some (groupsOf pre) := by simp [groupStep, hskip]
      rw [this] at h
      have := ih pre g h
      rw [this, List.filter_cons]
      simp [hskip]
    · by_cases hproto : signature c ∈ objectPrototypeKeys
      · have : groupStep (groupsOf pre) c = none := by simp [groupStep, hskip, hproto]
        rw [this] at h; simp at h
      · have : groupStep (groupsOf pre) c = some (groupsOf (pre ++ [c])) := by
          simp only [groupStep, hskip, hproto, if_false, groupsOf_push]
        rw [this] at h
        have := ih (pre ++ [c]) g h
        rw [this, List.filter_cons]
        simp [hskip]

theorem groupChildren_eq (elem : Node) (g : Groups)
    (h : groupChildren elem.children = some g) : g = groupsOf (groupedChildren elem) := by
  have := foldlM_groupStep elem.children [] g (by simpa [groupChildren, groupsOf, firstOccurrences] using h)
  simpa [groupedChildren] using this


/-! ## The collection pass against the promoted groups -/

theorem nameGroups_append (A B : List (List Node)) : ∀ seen : List String,
    nameGroups seen (A ++ B)
      = nameGroups seen A ++ nameGroups ((A.map groupSignature).foldl setAdd seen) B := by
  induction A with
  | nil => intro seen; simp [nameGroups]
  | cons g A ih => intro seen; simp [nameGroups, ih]

theorem processGroup_eq (st : AnalyzeState) (s : String) (items : List Node) :
    processGroup st (s, items) =
      if isPromoted items then
        { collections := st.collections ++
            [{ name := collectionName (firstMember items) st.candidates.length,
               fields := extractFields (firstMember items) }],
          candidates := setAdd st.candidates s }
      else st := by
  unfold processGroup isPromoted
  match items with
  | [] => simp
  | [_] => simp
  | a :: b :: rest =>
    simp only [firstMember, List.headD_cons]
    by_cases h1 : ((a.find selImg).length > 0 || (jsTrim a.textContent).length > 0) = true
    · by_cases h2 : (extractFields a).length > 0
      · simp [h1, h2]
      · simp [h1, h2]
    · simp [h1]

theorem foldl_processGroup (G : Groups) : ∀ st : AnalyzeState,
    (∀ kv ∈ G, isPromoted kv.2 = true → groupSignature kv.2 = kv.1) →
    (G.foldl processGroup st).collections
        = st.collections ++ nameGroups st.candidates ((G.map Prod.snd).filter isPromoted) ∧
    (G.foldl processGroup st).candidates
        = (((G.map Prod.snd).filter isPromoted).map groupSignature).foldl setAdd st.candidates := by
  induction G with
  | nil => intro st _; simp [nameGroups]
  | cons kv G ih =>
    intro st hsig
    obtain ⟨s, items⟩ := kv
    have hrest := ih (processGroup st (s, items)) (fun kv hkv => hsig kv (List.mem_cons_of_mem _ hkv))
    simp only [List.foldl_cons, List.map_cons]
    rw [hrest.1, hrest.2, processGroup_eq]
    by_cases hp : isPromoted items = true
    · have hs : groupSignature items = s := hsig (s, items) (List.mem_cons_self _ _) hp
      simp [hp, List.filter_cons, nameGroups, hs]
    · simp [hp, List.filter_cons]

theorem groupsOf_sound (l : List Node) (kv : String × List Node) (h : kv ∈ groupsOf l)
    (hp : isPromoted kv.2 = true) : groupSignature kv.2 = kv.1 := by
  unfold groupsOf at h
  rw [List.mem_map] at h
  obtain ⟨s, _, rfl⟩ := h
  simp only at hp ⊢
  cases hf : l.filter (fun c => signature c == s) with
  | nil => rw [hf] at hp; simp [isPromoted] at hp
  | cons a rest =>
    have ha : a ∈ l.filter (fun c => signature c == s) := by rw [hf]; exact List.mem_cons_self _ _
    rw [List.mem_filter] at ha
    simpa [groupSignature, firstMember] using ha.2

theorem processElement_eq (st st' : AnalyzeState) (elem : Node)
    (h : processElement st elem = some st') :
    st'.collections = st.collections ++ nameGroups st.candidates (promotedGroupsOf elem) ∧
    st'.candidates = ((promotedGroupsOf elem).map groupSignature).foldl setAdd st.candidates := by
  unfold processElement at h
  unfold promotedGroupsOf
  by_cases ht : elem.isTagType = true
  · by_cases hc : elem.children.length > 1
    · simp only [ht, hc, Bool.not_true, if_true] at h
      cases hg : groupChildren elem.children with
      | none => rw [hg] at h; simp at h
      | some g =>
        rw [hg] at h
        simp only [Bool.false_eq_true, if_false, Option.some.injEq] at h
        subst h
        have hge := groupChildren_eq elem g hg
        have := foldl_processGroup g st (fun kv hkv hp => groupsOf_sound _ kv (hge ▸ hkv) hp)
        have hmap : g.map Prod.snd = signatureGroups elem := by
          rw [hge]; simp [groupsOf, signatureGroups, List.map_map, Function.comp_def]
        rw [hmap] at this
        simpa [ht, hc] using this
    · simp only [ht, hc, Bool.not_true, if_false, Bool.false_eq_true, Option.some.injEq] at h
      subst h
      simp [hc, nameGroups]
  · simp only [ht, Bool.not_false, if_true, Option.some.injEq] at h
    subst h
    simp [ht, nameGroups]

theorem foldlM_processElement (elems : List Node) : ∀ st st' : AnalyzeState,
    elems.foldlM processElement st = some st' →
    st'.collections = st.collections ++ nameGroups st.candidates (elems.flatMap promotedGroupsOf) ∧
    st'.candidates
      = ((elems.flatMap promotedGroupsOf).map groupSignature).foldl setAdd st.candidates := by
  induction elems with
  | nil => intro st st' h; simp at h; subst h; simp [nameGroups]
  | cons e elems ih =>
    intro st st' h
    simp only [List.foldlM_cons] at h
    cases hp : processElement st e with
    | none => rw [hp] at h; simp at h
    | some st1 =>
      rw [hp] at h
      have h1 := processElement_eq st st1 e hp
      have h2 := ih st1 st' h
      rw [h2.1, h2.2, h1.1, h1.2]
      simp [List.flatMap_cons, nameGroups_append, List.append_assoc]

/-- The collection pass names the promoted groups of the document, in order. -/
theorem analyzeCollections_eq (root : Node) (st : AnalyzeState)
    (h : analyzeCollections root = some st) :
    st.collections = nameGroups [] (promotedGroups root) ∧
    st.candidates = firstOccurrences ((promotedGroups root).map groupSignature) := by
  have := foldlM_processElement root.allElements _ st h
  refine ⟨by simpa [promotedGroups] using this.1, ?_⟩
  have h2 := foldl_setAdd_nil ((promotedGroups root).map groupSignature) []
  simp only [firstOccurrences, List.nil_append] at h2
  rw [← h2]
  simpa [promotedGroups] using this.2

theorem nameGroups_fields (Q : List (List Node)) : ∀ seen : List String,
    (nameGroups seen Q).map Entry.fields = Q.map (fun g => extractFields (firstMember g)) := by
  induction Q with
  | nil => intro seen; simp [nameGroups]
  | cons g Q ih => intro seen; simp [nameGroups, ih]

theorem nameGroups_length (Q : List (List Node)) (seen : List String) :
    (nameGroups seen Q).length = Q.length := by
  have := congrArg List.length (nameGroups_fields Q seen)
  simpa using this

theorem nameGroups_getElem? (Q : List (List Node)) : ∀ (seen : List String) (i : Nat)
    (g : List Node), Q[i]? = some g →
    (nameGroups seen Q)[i]? = some
      { name := collectionName (firstMember g)
          ((((Q.take i).map groupSignature).foldl setAdd seen).length),
        fields := extractFields (firstMember g) } := by
  induction Q with
  | nil => intro seen i g h; simp at h
  | cons a Q ih =>
    intro seen i g h
    cases i with
    | zero => simp at h; subst h; simp [nameGroups]
    | succ i =>
      simp only [List.getElem?_cons_succ] at h
      simp [nameGroups, ih _ i g h]

theorem mem_promotedGroups_isPromoted (root : Node) (g : List Node)
    (h : g ∈ promotedGroups root) : isPromoted g = true := by
  unfold promotedGroups at h
  rw [List.mem_flatMap] at h
  obtain ⟨e, _, hg⟩ := h
  unfold promotedGroupsOf at hg
  split at hg
  · exact (List.mem_filter.mp hg).2
  · simp at hg

theorem isPromoted_fields_pos (g : List Node) (h : isPromoted g = true) :
    0 < (extractFields (firstMember g)).length := by
  unfold isPromoted at h
  match g with
  | [] => simp at h
  | [_] => simp at h
  | a :: b :: rest =>
    simp only [Bool.and_eq_true, decide_eq_true_eq] at h
    simpa [firstMember] using h.2

theorem analyzeSingletons_ok (root : Node) (candidates : List String) :
    ∀ e ∈ analyzeSingletons root candidates,
      0 < e.fields.length ∧ (e.fields.map Field.name).Nodup := by
  unfold analyzeSingletons
  apply foldl_preserves
    (fun l : List Entry => ∀ e ∈ l, 0 < e.fields.length ∧ (e.fields.map Field.name).Nodup)
  · intro b a hb e he
    unfold processSingleton at he
    split at he
    · exact hb e he
    · split at he
      · rw [List.mem_append] at he
        rcases he with he | he
        · exact hb e he
        · simp only [List.mem_singleton] at he
          subst he
          rename_i hpos
          exact ⟨by simpa using hpos, extractFields_nodup _⟩
      · exact hb e he
  · intro e he; simp at he


/-! ## The claims about detection -/


theorem sanitize_collection (n : Nat) :
    sanitize ("collection_" ++ toString n) = "collection_" ++ toString n := by
  have h := sanitize_suffixed "collection" n
  have e : ("collection" ++ "_" : String) = "collection_" := by decide
  have e2 : sanitize "collection" = "collection" := by decide
  rw [e, e2, e] at h
  exact h

theorem find?_layout_none (l : List String)
    (h : ∀ c ∈ l, c ≠ "" → isLayoutClass c = true) :
    l.find? (fun c => !isLayoutClass c) = none ∨ l.find? (fun c => !isLayoutClass c) = some "" := by
  cases hf : l.find? (fun c => !isLayoutClass c) with
  | none => exact Or.inl rfl
  | some c =>
    right
    have hc := List.find?_some hf
    have hm := List.mem_of_find?_eq_some hf
    by_cases he : c = ""
    · rw [he]
    · have := h c hm he
      simp [this] at hc

/-- C8. Collection promotion. When `analyzeHtml` returns, its collections are, one for one and
in order, the promoted groups of the document: the signature groups of the children of the
elements with more than one child (parents in document order, groups in the order in which the
signatures first occur) that have at least two members and whose first member has a descendant
`img` or non-empty trimmed text and yields at least one field. The fields of each collection
are those discovered on the first member of its group. -/
theorem analyzeHtml_collections (root : Node) (schema : Schema)
    (h : analyzeHtml root = some schema) :
    schema.collections.length = (promotedGroups root).length ∧
    schema.collections.map Entry.fields
      = (promotedGroups root).map (fun g => extractFields (firstMember g)) := by
  unfold analyzeHtml at h
  cases hc : analyzeCollections root with
  | none => rw [hc] at h; simp at h
  | some st =>
    rw [hc] at h
    simp only [Option.some.injEq] at h
    subst h
    have := (analyzeCollections_eq root st hc).1
    simp only
    rw [this]
    exact ⟨nameGroups_length _ _, nameGroups_fields _ _⟩

theorem analyzeHtml_collections_witness :
    analyzeHtml testimonialDoc = some testimonialSchema ∧
    testimonialSchema.collections.length = (promotedGroups testimonialDoc).length ∧
    testimonialSchema.collections.map Entry.fields
      = (promotedGroups testimonialDoc).map (fun g => extractFields (firstMember g)) :=
  ⟨by decide, analyzeHtml_collections testimonialDoc testimonialSchema (by decide)⟩

/-- C9. No empty entries. Every collection and every singleton of the schema that `analyzeHtml`
returns has at least one field, and the names of its fields are pairwise distinct. -/
theorem analyzeHtml_entries (root : Node) (schema : Schema)
    (h : analyzeHtml root = some schema) :
    ∀ e ∈ schema.collections ++ schema.singletons,
      0 < e.fields.length ∧ (e.fields.map Field.name).Nodup := by
  unfold analyzeHtml at h
  cases hc : analyzeCollections root with
  | none => rw [hc] at h; simp at h
  | some st =>
    rw [hc] at h
    simp only [Option.some.injEq] at h
    subst h
    intro e he
    simp only [List.mem_append] at he
    rcases he with he | he
    · have hcol := (analyzeCollections_eq root st hc).1
      have hf : e.fields ∈ st.collections.map Entry.fields := List.mem_map_of_mem _ he
      rw [hcol, nameGroups_fields] at hf
      rw [List.mem_map] at hf
      obtain ⟨g, hg, hge⟩ := hf
      rw [← hge]
      exact ⟨isPromoted_fields_pos g (mem_promotedGroups_isPromoted root g hg),
        extractFields_nodup _⟩
    · exact analyzeSingletons_ok root st.candidates e he

theorem analyzeHtml_entries_witness :
    analyzeHtml testimonialDoc = some testimonialSchema ∧
    ∀ e ∈ testimonialSchema.collections ++ testimonialSchema.singletons,
      0 < e.fields.length ∧ (e.fields.map Field.name).Nodup :=
  ⟨by decide, analyzeHtml_entries testimonialDoc testimonialSchema (by decide)⟩

/-- C10, as the code has it. When `analyzeHtml` returns, its `i`-th collection belongs to the
`i`-th promoted group, and with `first` the first member of that group: if the first piece of
the class attribute of `first` without a layout pattern (`col-`, `row`, `grid`, `flex`) is a
non-empty token `c`, the name is the sanitized `c_list`; if every non-empty piece of the class
attribute has a layout pattern, the name is `collection_n` without any suffix, where `n` is the
number of distinct signatures among the groups promoted before. -/
theorem analyzeHtml_collection_names (root : Node) (schema : Schema)
    (h : analyzeHtml root = some schema) :
    schema.collections.length = (promotedGroups root).length ∧
    ∀ (i : Nat) (g : List Node) (e : Entry),
      (promotedGroups root)[i]? = some g → schema.collections[i]? = some e →
      (∀ c, (splitSpaces ((firstMember g).attrOrEmpty "class")).find?
              (fun c => !isLayoutClass c) = some c → c ≠ "" →
            e.name = sanitize (c ++ "_list")) ∧
      ((∀ c ∈ splitSpaces ((firstMember g).attrOrEmpty "class"),
            c ≠ "" → isLayoutClass c = true) →
        e.name = "collection_" ++ toString
          (firstOccurrences (((promotedGroups root).take i).map groupSignature)).length) := by
  unfold analyzeHtml at h
  cases hc : analyzeCollections root with
  | none => rw [hc] at h; simp at h
  | some st =>
    rw [hc] at h
    simp only [Option.some.injEq] at h
    subst h
    have hcol := (analyzeCollections_eq root st hc).1
    simp only
    rw [hcol]
    refine ⟨nameGroups_length _ _, ?_⟩
    intro i g e hg he
    rw [nameGroups_getElem? _ [] i g hg] at he
    simp only [Option.some.injEq] at he
    have hn : (((promotedGroups root).take i).map groupSignature).foldl setAdd []
        = firstOccurrences (((promotedGroups root).take i).map groupSignature) := by
      have := foldl_setAdd_nil (((promotedGroups root).take i).map groupSignature) []
      simpa [firstOccurrences] using this
    rw [hn] at he
    subst he
    constructor
    · intro c hfind hne
      simp [collectionName, hfind, hne]
    · intro hall
      rcases find?_layout_none _ hall with hnone | hsome
      · simp only [collectionName, hnone]; exact sanitize_collection _
      · simp only [collectionName, hsome]; exact sanitize_collection _


theorem analyzeHtml_collection_names_witness :
    analyzeHtml namingDoc = some namingSchema ∧
    namingSchema.collections.length = (promotedGroups namingDoc).length ∧
    ∀ (i : Nat) (g : List Node) (e : Entry),
      (promotedGroups namingDoc)[i]? = some g → namingSchema.collections[i]? = some e →
      (∀ c, (splitSpaces ((firstMember g).attrOrEmpty "class")).find?
              (fun c => !isLayoutClass c) = some c → c ≠ "" →
            e.name = sanitize (c ++ "_list")) ∧
      ((∀ c ∈ splitSpaces ((firstMember g).attrOrEmpty "class"),
            c ≠ "" → isLayoutClass c = true) →
        e.name = "collection_" ++ toString
          (firstOccurrences (((promotedGroups namingDoc).take i).map groupSignature)).length) :=
  ⟨by decide, analyzeHtml_collection_names namingDoc namingSchema (by decide)⟩

/-- C10, as the claim has it, fails. The items of the two lists of `namingDoc` carry no class;
their collections are named `collection_1` and `collection_2`, which neither end in `_list`
nor are the sanitized `collection_1_list` and `collection_2_list`. -/
theorem collection_name_without_list :
    analyzeHtml namingDoc = some namingSchema ∧
    namingSchema.collections.map Entry.name = ["card_list", "collection_1", "collection_2"] ∧
    jsEndsWith "collection_1" "_list" = false ∧
    "collection_1" ≠ sanitize ("collection_1" ++ "_list") := by
  decide

/-- C4, the failing input. For `duplicateDoc` the schema has three entries named `card_list`:
the two rows of cards are promoted under the same derived name without any suffix, and the
section with the id `card_list` is kept although line 91 means to avoid duplicate names, because
the map `candidates` holds the signature `div.card` and not the name. -/
theorem analyzeHtml_duplicate_names :
    (analyzeHtml duplicateDoc).map
        (fun s => (s.collections.map Entry.name, s.singletons.map Entry.name))
      = some (["card_list", "card_list"], ["card_list"]) := by
  decide

/-! ## Reading the tree after a write -/

theorem modifyNth_getElem? (f : Node → Node) : ∀ (l : List Node) (i : Nat),
    (modifyNth f i l)[i]? = (l[i]?).map f := by
  intro l
  induction l with
  | nil => intro i; simp [modifyNth]
  | cons a l ih =>
    intro i
    cases i with
    | zero => simp [modifyNth]
    | succ i => simp [modifyNth, ih]

theorem get?_modifyAt (f : Node → Node) : ∀ (p : Path) (n m : Node),
    n.get? p = some m → (n.modifyAt f p).get? p = some (f m) := by
  intro p
  induction p with
  | nil => intro n m h; simp [Node.get?] at h; simp [Node.modifyAt, Node.get?, h]
  | cons i p ih =>
    intro n m h
    cases n with
    | text d => simp [Node.get?] at h
    | elem t a cs =>
      simp only [Node.get?] at h
      cases hc : cs[i]? with
      | none => rw [hc] at h; simp at h
      | some c =>
        rw [hc] at h
        simp only [Node.modifyAt, Node.get?, modifyNth_getElem?, hc, Option.map_some']
        exact ih c m h

theorem get?_append (q : Path) : ∀ (p : Path) (n : Node),
    n.get? (p ++ q) = (n.get? p).bind (fun m => m.get? q) := by
  intro p
  induction p with
  | nil => intro n; simp [Node.get?]
  | cons i p ih =>
    intro n
    cases n with
    | text d => simp [Node.get?]
    | elem t a cs =>
      simp only [List.cons_append, Node.get?]
      cases hc : cs[i]? with
      | none => simp
      | some c => simp [ih]

theorem dropLast_append_getLast (p : Path) (h : p ≠ []) :
    ∃ i, p = p.dropLast ++ [i] := by
  exact ⟨p.getLast h, (List.dropLast_append_getLast h).symm⟩

/-- The parent of a node that exists is an element, and it exists. -/
theorem get?_parent (n m : Node) (p : Path) (hp : p ≠ []) (h : n.get? p = some m) :
    ∃ t a cs, n.get? p.dropLast = some (.elem t a cs) := by
  obtain ⟨i, hi⟩ := dropLast_append_getLast p hp
  rw [hi, get?_append] at h
  cases hd : n.get? p.dropLast with
  | none => rw [hd] at h; simp at h
  | some c =>
    rw [hd] at h
    cases c with
    | text d => simp [Node.get?] at h
    | elem t a cs => exact ⟨t, a, cs, rfl⟩

/-- After `replaceItems` the parent of the template item has the items as its child nodes. -/
theorem replaceItems_children (doc template : Node) (templatePath : Path) (items : List Node)
    (hroot : templatePath ≠ []) (ht : doc.get? templatePath = some template) :
    ((replaceItems doc templatePath items).get? templatePath.dropLast).map Node.childNodes
      = some items := by
  obtain ⟨t, a, cs, hc⟩ := get?_parent doc template templatePath hroot ht
  unfold replaceItems
  have : templatePath.isEmpty = false := by
    cases templatePath with
    | nil => exact absurd rfl hroot
    | cons _ _ => rfl
  rw [this]
  simp only [Bool.false_eq_true, if_false]
  rw [get?_modifyAt _ _ _ _ hc]
  simp [Node.setChildNodes, Node.childNodes]

/-! ## A filled clone keeps the tag of the template item -/

theorem setChildNodes_tag (cs : List Node) (n : Node) : (n.setChildNodes cs).tag = n.tag := by
  cases n <;> rfl

theorem setAttr_tag (k v : String) (n : Node) : (n.setAttr k v).tag = n.tag := by
  cases n <;> rfl

theorem removeAttr_tag (k : String) (n : Node) : (n.removeAttr k).tag = n.tag := by
  cases n <;> rfl

theorem cheerioText_tag (v : Value) (n : Node) : (cheerioText v n).tag = n.tag := by
  cases v <;> simp [cheerioText, setChildNodes_tag]

theorem cheerioHtml_tag (w : World) (v : Value) (n : Node) : (cheerioHtml w v n).tag = n.tag := by
  cases v <;> simp [cheerioHtml, setChildNodes_tag]

theorem cheerioAttr_tag (k : String) (v : Value) (n : Node) :
    (cheerioAttr k v n).tag = n.tag := by
  cases v <;> simp [cheerioAttr, setAttr_tag, removeAttr_tag]

theorem bakeWrite_tag (w : World) (field : Field) (v : Value) (n : Node) :
    (bakeWrite w field v n).tag = n.tag := by
  unfold bakeWrite
  split
  · exact cheerioHtml_tag _ _ _
  · split
    · exact cheerioAttr_tag _ _ _
    · exact cheerioText_tag _ _

theorem updateElement_tag (w : World) (field : Field) (v : Value) (n m : Node)
    (h : updateElement w field v n = some m) : m.tag = n.tag := by
  unfold updateElement at h
  split at h
  · cases v with
    | undefined => simp at h; rw [← h]; exact cheerioAttr_tag _ _ _
    | null => simp at h; rw [← h]; exact cheerioAttr_tag _ _ _
    | str s => simp at h; rw [← h]; exact cheerioAttr_tag _ _ _
    | num k =>
      simp only at h
      split at h
      · simp at h; rw [← h]; exact cheerioAttr_tag _ _ _
      · simp at h
  · split at h
    · simp at h; rw [← h]; exact cheerioHtml_tag _ _ _
    · simp at h; rw [← h]; exact cheerioText_tag _ _

theorem modifyAt_tag (f : Node → Node) (p : Path) (n : Node)
    (hf : (f n).tag = n.tag) : (n.modifyAt f p).tag = n.tag := by
  cases p with
  | nil => simpa [Node.modifyAt] using hf
  | cons i p =>
    cases n with
    | text d => rfl
    | elem t a cs => rfl

theorem previewItemField_tag (w : World) (row : Row) (item item2 : Node) (field : Field)
    (h : previewItemField w row item field = some item2) : item2.tag = item.tag := by
  unfold previewItemField at h
  split at h
  · split at h
    · rename_i p _ _
      split at h
      · rename_i el hel
        cases hu : updateElement w field (row.get field.name) el with
        | none => rw [hu] at h; simp at h
        | some el2 =>
          rw [hu] at h
          simp only [Option.map_some', Option.some.injEq] at h
          rw [← h]
          cases p with
          | nil =>
            simp only [Node.get?, Option.some.injEq] at hel
            subst hel
            simpa [Node.modifyAt] using updateElement_tag w field _ _ _ hu
          | cons i p => cases item <;> rfl
      · simp at h
    · simp only [Option.some.injEq] at h; rw [← h]
  · simp at h

theorem foldlM_tag (step : Node → Field → Option Node)
    (hstep : ∀ a b f, step a f = some b → b.tag = a.tag) :
    ∀ (fields : List Field) (a b : Node), fields.foldlM step a = some b → b.tag = a.tag := by
  intro fields
  induction fields with
  | nil => intro a b h; simp at h; rw [h]
  | cons f fs ih =>
    intro a b h
    simp only [List.foldlM_cons] at h
    cases hs : step a f with
    | none => rw [hs] at h; simp at h
    | some c => rw [hs] at h; exact (ih c b h).trans (hstep a c f hs)

theorem previewItem_tag (w : World) (fields : List Field) (template item : Node) (row : Row)
    (h : previewItem w fields template row = some item) : item.tag = template.tag :=
  foldlM_tag _ (fun a b f hs => previewItemField_tag w row a b f hs) fields template item h

theorem bakeItemField_tag (w : World) (row : Row) (item item2 : Node) (field : Field)
    (h : bakeItemField w row item field = some item2) : item2.tag = item.tag := by
  unfold bakeItemField at h
  cases ht : fieldTargets item field with
  | none => rw [ht] at h; simp at h
  | some targets =>
    rw [ht] at h
    simp only [Option.map_some', Option.some.injEq] at h
    rw [← h]
    have : ∀ (l : List Path) (it : Node),
        (l.foldl (fun it p => it.modifyAt (bakeWrite w field (row.get field.name)) p) it).tag
          = it.tag := by
      intro l
      induction l with
      | nil => intro it; rfl
      | cons p l ih =>
        intro it
        simp only [List.foldl_cons]
        rw [ih]
        exact modifyAt_tag _ _ _ (bakeWrite_tag _ _ _ _)
    exact this _ _

theorem bakeItem_tag (w : World) (fields : List Field) (template item : Node) (row : Row)
    (h : bakeItem w fields template row = some item) : item.tag = template.tag :=
  foldlM_tag _ (fun a b f hs => bakeItemField_tag w row a b f hs) fields template item h


/-! ## The claims about the collection render -/

theorem mapM_getElem? {α β : Type} (f : α → Option β) : ∀ (l : List α) (out : List β),
    l.mapM f = some out → out.length = l.length ∧ ∀ i : Nat, out[i]? = (l[i]?).bind f := by
  intro l
  induction l with
  | nil =>
    intro out h
    simp only [List.mapM_nil, Option.pure_def, Option.some.injEq] at h
    subst h; simp
  | cons a l ih =>
    intro out h
    rw [List.mapM_cons] at h
    cases hfa : f a with
    | none => rw [hfa] at h; simp at h
    | some b =>
      cases hl : l.mapM f with
      | none => rw [hfa, hl] at h; simp at h
      | some bs =>
        rw [hfa, hl] at h
        simp at h
        subst h
        obtain ⟨h1, h2⟩ := ih bs hl
        refine ⟨by simp [h1], ?_⟩
        intro i
        cases i with
        | zero => simp [hfa]
        | succ i => simpa using h2 i

theorem mapM_mem {α β : Type} (f : α → Option β) : ∀ (l : List α) (out : List β),
    l.mapM f = some out → ∀ b ∈ out, ∃ a ∈ l, f a = some b := by
  intro l
  induction l with
  | nil =>
    intro out h b hb
    simp only [List.mapM_nil, Option.pure_def, Option.some.injEq] at h
    subst h; simp at hb
  | cons a l ih =>
    intro out h b hb
    rw [List.mapM_cons] at h
    cases hfa : f a with
    | none => rw [hfa] at h; simp at h
    | some c =>
      cases hl : l.mapM f with
      | none => rw [hfa, hl] at h; simp at h
      | some bs =>
        rw [hfa, hl] at h
        simp at h
        subst h
        rcases List.mem_cons.mp hb with hb | hb
        · exact ⟨a, List.mem_cons_self _ _, by rw [hfa, hb]⟩
        · obtain ⟨x, hx, hfx⟩ := ih bs hl b hb
          exact ⟨x, List.mem_cons_of_mem _ hx, hfx⟩

/-- C2, as the code has it. For every document and every collection whose stored record list
is empty, the collection step of `generatePreview` and that of `bakeHtml` do not fail and
return the document as it is, so that the container keeps the template's original items. -/
theorem render_empty_collection (w : World) (store : Store) (doc : Node) (collection : Entry)
    (h : store (sanitize collection.name) = some []) :
    previewCollection w store doc collection = some doc ∧
    bakeCollection w store doc collection = some doc := by
  simp [previewCollection, bakeCollection, h]

theorem render_empty_collection_witness :
    previewCollection plainWorld emptyStore testimonialDoc testimonialCollection
        = some testimonialDoc ∧
    bakeCollection plainWorld emptyStore testimonialDoc testimonialCollection
        = some testimonialDoc :=
  render_empty_collection plainWorld emptyStore testimonialDoc testimonialCollection rfl

/-- C2, as the claim has it, fails. With every table empty, `bakeHtml` returns `testimonialDoc`
unchanged and `generatePreview` returns it with the `base` element in its head; the container
of the collection still has the three items of the template. -/
theorem render_empty_keeps_items :
    generatePreview plainWorld emptyStore testimonialSchema testimonialDoc
        = some (listDoc [baseElement] "Our clients"
            [("Ann", "Ann was very happy."), ("Bob", "Bob was happy as well."),
             ("Cyd", "Cyd came back twice.")]) ∧
    bakeHtml plainWorld emptyStore testimonialSchema testimonialDoc = some testimonialDoc ∧
    (testimonialDoc.get? [1, 1]).map (fun c => c.children.length) = some 3 := by
  decide

/-! ## The round trip on the pages of the concrete scenario -/

theorem descendantsOfList_items (items : List (String × String)) :
    descendantsOfList (items.map (fun x => testimonialItem x.1 x.2))
      = items.flatMap testimonialElements := by
  induction items with
  | nil => rfl
  | cons x items ih =>
    simp only [List.map_cons, descendantsOfList, ih, List.flatMap_cons]
    rfl

theorem listDoc_allElements (title : String) (items : List (String × String)) :
    (listDoc [] title items).allElements
      = [listDoc [] title items, .elem "head" [] [],
         .elem "body" [] [pageHeader title, listContainer items],
         pageHeader title, .elem "h1" [] [.text title], listContainer items]
        ++ items.flatMap testimonialElements := by
  have h := descendantsOfList_items items
  simp only [Node.allElements, listDoc, listContainer, pageHeader, Node.descendants,
    descendantsOfList, Node.isElem, h]
  simp

theorem foldlM_processElement_items (items : List (String × String)) :
    ∀ st : AnalyzeState,
      (items.flatMap testimonialElements).foldlM processElement st = some st := by
  induction items with
  | nil => intro st; rfl
  | cons x items ih =>
    intro st
    simp only [List.flatMap_cons, List.foldlM_append]
    have h1 : (testimonialElements x).foldlM processElement st = some st := rfl
    rw [h1]
    exact ih st

theorem filter_isElem_items (items : List (String × String)) :
    (items.map (fun x => testimonialItem x.1 x.2)).filter Node.isElem
      = items.map (fun x => testimonialItem x.1 x.2) := by
  rw [List.filter_eq_self]
  intro a ha
  rw [List.mem_map] at ha
  obtain ⟨x, _, rfl⟩ := ha
  rfl

theorem foldlM_groupStep_items (items : List (String × String)) : ∀ acc : List Node,
    (items.map (fun x => testimonialItem x.1 x.2)).foldlM groupStep [("div.testimonial", acc)]
      = some [("div.testimonial", acc ++ items.map (fun x => testimonialItem x.1 x.2))] := by
  induction items with
  | nil => intro acc; simp
  | cons x items ih =>
    intro acc
    simp only [List.map_cons, List.foldlM_cons]
    have h1 : groupStep [("div.testimonial", acc)] (testimonialItem x.1 x.2)
        = some [("div.testimonial", acc ++ [testimonialItem x.1 x.2])] := rfl
    rw [h1]
    simp [ih]

theorem groupChildren_items (x : String × String) (items : List (String × String)) :
    groupChildren ((x :: items).map (fun x => testimonialItem x.1 x.2))
      = some [("div.testimonial", (x :: items).map (fun x => testimonialItem x.1 x.2))] := by
  simp only [groupChildren, List.map_cons, List.foldlM_cons]
  have h1 : groupStep [] (testimonialItem x.1 x.2)
      = some [("div.testimonial", [testimonialItem x.1 x.2])] := rfl
  rw [h1]
  simp [foldlM_groupStep_items]

theorem exists_not_space_of_trim (s : String) (h : 0 < (jsTrim s).length) :
    ∃ c ∈ s.data, isJsSpace c = false := by
  by_contra hcon
  push_neg at hcon
  have hall : ∀ c ∈ s.data, isJsSpace c = true := by
    intro c hc
    have := hcon c hc
    simpa using this
  have : s.data.dropWhile isJsSpace = [] := by
    rw [List.dropWhile_eq_nil_iff]; exact hall
  simp [jsTrim, this] at h

theorem trim_pos_of_exists (s : String) (h : ∃ c ∈ s.data, isJsSpace c = false) :
    0 < (jsTrim s).length := by
  obtain ⟨c, hc, hsp⟩ := h
  have h1 : s.data.dropWhile isJsSpace ≠ [] := by
    intro hnil
    rw [List.dropWhile_eq_nil_iff] at hnil
    have := hnil c hc
    rw [hsp] at this
    exact absurd this (by decide)
  have h2 : ((s.data.dropWhile isJsSpace).reverse.dropWhile isJsSpace) ≠ [] := by
    intro hnil
    rw [List.dropWhile_eq_nil_iff] at hnil
    obtain ⟨a, l, hal⟩ := List.exists_cons_of_ne_nil h1
    have ha : isJsSpace a = false := by
      have := List.head_dropWhile_not isJsSpace s.data h1
      simp only [hal, List.head_cons] at this
      simpa using this
    have := hnil a (by rw [hal]; simp)
    rw [ha] at this
    exact absurd this (by decide)
  have h3 : (jsTrim s).data ≠ [] := by
    simp only [jsTrim]
    intro hnil
    exact h2 (by simpa using hnil)
  exact List.length_pos.mpr h3

theorem item_text_pos (x : String × String) (h : 10 < (jsTrim x.2).length) :
    0 < (jsTrim (testimonialItem x.1 x.2).textContent).length := by
  obtain ⟨c, hc, hsp⟩ := exists_not_space_of_trim x.2 (by omega)
  apply trim_pos_of_exists
  refine ⟨c, ?_, hsp⟩
  simp [testimonialItem, Node.textContent, textOfList, String.data_append, hc]

theorem sum_utf16Units_ge : ∀ l : List Char, l.length ≤ (l.map utf16Units).sum
  | [] => by simp
  | c :: l => by
    have ih := sum_utf16Units_ge l
    have hc : 1 ≤ utf16Units c := by unfold utf16Units; split <;> omega
    simp only [List.length_cons, List.map_cons, List.sum_cons]
    omega

/-- A string has at least as many UTF-16 code units as characters. -/
theorem length_le_jsLength (s : String) : s.length ≤ jsLength s :=
  sum_utf16Units_ge s.data

theorem textContent_content (c : String) : (testimonialContent c).textContent = c := by
  apply String.ext
  simp [testimonialContent, Node.textContent, textOfList, String.data_append]

theorem extractFields_item (x : String × String) (h : 10 < (jsTrim x.2).length) :
    extractFields (testimonialItem x.1 x.2) = testimonialCollection.fields := by
  have e1 : (testimonialItem x.1 x.2).find selImg = [] := rfl
  have e2 : (testimonialItem x.1 x.2).find selHeadings = [testimonialName x.1] := rfl
  have e3 : (testimonialItem x.1 x.2).find selParagraph = [testimonialContent x.2] := rfl
  have e4 : (testimonialItem x.1 x.2).find selButtons = [] := rfl
  have e5 : headingStep FieldsState.empty (testimonialName x.1)
      = { fields := [{ name := "title", type := "text", selector := "h3.name",
                       required := false }],
          usedNames := ["title"] } := rfl
  have e6 : ∀ st : FieldsState, paragraphStep st (0, testimonialContent x.2)
      = addField "description" "rich_text" "p.content" st := by
    intro st
    simp only [paragraphStep, textContent_content]
    have hlen := length_le_jsLength (jsTrim x.2)
    rw [if_neg (by decide), if_pos (by simp only [gt_iff_lt]; omega)]
    rfl
  unfold extractFields extractFieldsState
  rw [e1, e2, e3, e4]
  show (paragraphStep (headingStep FieldsState.empty (testimonialName x.1))
    (0, testimonialContent x.2)).fields = _
  rw [e6, e5]
  rfl

theorem processElement_list (st : AnalyzeState) (first second : String × String)
    (rest : List (String × String)) (h : 10 < (jsTrim first.2).length) :
    processElement st (listContainer (first :: second :: rest))
      = some { collections := st.collections ++
                 [{ name := collectionName (testimonialItem first.1 first.2) st.candidates.length,
                    fields := testimonialCollection.fields }],
               candidates := setAdd st.candidates "div.testimonial" } := by
  have hc : (listContainer (first :: second :: rest)).children
      = (first :: second :: rest).map (fun x => testimonialItem x.1 x.2) := by
    simp only [Node.children, listContainer, Node.childNodes]
    exact filter_isElem_items _
  have htag : (listContainer (first :: second :: rest)).isTagType = true := rfl
  simp only [processElement, htag, hc, groupChildren_items]
  simp only [List.map_cons, List.length_cons, List.foldl_cons, List.foldl_nil, processGroup,
    extractFields_item first h]
  have hpos := item_text_pos first h
  have hf : testimonialCollection.fields.length > 0 := by decide
  simp [hpos, hf]

theorem collectionName_item (x : String × String) (n : Nat) :
    collectionName (testimonialItem x.1 x.2) n = "testimonial_list" := rfl

theorem analyzeCollections_listDoc (title : String) (first second : String × String)
    (rest : List (String × String)) (h : 10 < (jsTrim first.2).length) :
    analyzeCollections (listDoc [] title (first :: second :: rest))
      = some { collections := [testimonialCollection], candidates := ["div.testimonial"] } := by
  unfold analyzeCollections
  rw [listDoc_allElements, List.foldlM_append]
  have p1 : ∀ st, processElement st (listDoc [] title (first :: second :: rest)) = some st :=
    fun _ => rfl
  have p2 : ∀ st, processElement st (.elem "head" [] []) = some st := fun _ => rfl
  have p3 : ∀ st, processElement st
      (.elem "body" [] [pageHeader title, listContainer (first :: second :: rest)]) = some st :=
    fun _ => rfl
  have p4 : ∀ st, processElement st (pageHeader title) = some st := fun _ => rfl
  have p5 : ∀ st, processElement st (.elem "h1" [] [.text title]) = some st := fun _ => rfl
  simp only [List.foldlM_cons, List.foldlM_nil, p1, p2, p3, p4, p5,
    processElement_list _ first second rest h, Option.bind_eq_bind, Option.some_bind,
    Option.pure_def, foldlM_processElement_items, collectionName_item]
  rfl

theorem filter_items_nil (P : Node → Bool) (items : List (String × String))
    (hP : ∀ x : String × String, (testimonialElements x).filter P = []) :
    (items.flatMap testimonialElements).filter P = [] := by
  induction items with
  | nil => rfl
  | cons x items ih => simp [List.flatMap_cons, List.filter_append, hP, ih]

theorem analyzeSingletons_listDoc (title : String) (items : List (String × String)) :
    analyzeSingletons (listDoc [] title items) ["div.testimonial"]
      = testimonialSchema.singletons := by
  have hsel : (listDoc [] title items).select singletonSelector = [pageHeader title] := by
    unfold Node.select
    rw [listDoc_allElements, List.filter_append,
      filter_items_nil singletonSelector.holds items (fun _ => rfl)]
    rfl
  unfold analyzeSingletons
  rw [hsel]
  rfl

theorem analyzeHtml_listDoc (title : String) (first second : String × String)
    (rest : List (String × String)) (h : 10 < (jsTrim first.2).length) :
    analyzeHtml (listDoc [] title (first :: second :: rest)) = some testimonialSchema := by
  unfold analyzeHtml
  rw [analyzeCollections_listDoc title first second rest h]
  simp only [analyzeSingletons_listDoc]
  rfl


/-! ## Selections, path by path -/

theorem filter_descendantPathsOfList (sel : Selector) (t : String) (a : List (String × String))
    (all : List Node) : ∀ (cs : List Node) (s : Nat), (∀ j : Nat, cs[j]? = all[s + j]?) →
    (descendantPathsOfList s cs).filter ((Node.elem t a all).holdsAt sel)
      = (cs.enumFrom s).flatMap (fun x => (x.2.selectPaths sel).map (fun p => x.1 :: p)) := by
  intro cs
  induction cs with
  | nil => intro s _; rfl
  | cons c cs ih =>
    intro s hall
    have hc : all[s]? = some c := by
      have := hall 0
      simpa using this.symm
    have hrest : ∀ j : Nat, cs[j]? = all[s + 1 + j]? := by
      intro j
      have := hall (j + 1)
      simp only [List.getElem?_cons_succ] at this
      rw [this]
      congr 1
      omega
    simp only [descendantPathsOfList, List.filter_append, ih (s + 1) hrest, List.enumFrom_cons,
      List.flatMap_cons]
    congr 1
    have hhead : (if c.isElem then [[s]] else ([] : List Path)) ++ c.descendantPaths.map (fun p => s :: p)
        = c.allPaths.map (fun p => s :: p) := by
      unfold Node.allPaths
      by_cases hce : c.isElem = true
      · simp [hce]
      · simp [hce]
    rw [← List.filter_append, hhead, List.filter_map]
    unfold Node.selectPaths
    congr 1
    apply List.filter_congr
    intro p _
    simp [Node.holdsAt, Node.get?, hc]

/-- The selection `$(selector)` below an element, child by child. -/
theorem selectPaths_elem (sel : Selector) (t : String) (a : List (String × String))
    (cs : List Node) :
    (Node.elem t a cs).selectPaths sel
      = (if sel.holds (.elem t a cs) then [[]] else [])
        ++ cs.enum.flatMap (fun x => (x.2.selectPaths sel).map (fun p => x.1 :: p)) := by
  have h := filter_descendantPathsOfList sel t a cs cs 0 (fun j => by simp)
  conv_lhs =>
    unfold Node.selectPaths Node.allPaths
    simp only [Node.isElem, if_true, List.filter_append, Node.descendantPaths]
    rw [h]
  congr 1
  by_cases hh : sel.holds (.elem t a cs) = true
  · simp [hh, Node.holdsAt, Node.get?]
  · simp [hh, Node.holdsAt, Node.get?]

theorem mapM_eq_some_map {α β : Type} (f : α → Option β) (g : α → β) :
    ∀ l : List α, (∀ a ∈ l, f a = some (g a)) → l.mapM f = some (l.map g) := by
  intro l
  induction l with
  | nil => intro _; rfl
  | cons a l ih =>
    intro h
    rw [List.mapM_cons, h a (List.mem_cons_self _ _),
      ih (fun b hb => h b (List.mem_cons_of_mem _ hb))]
    rfl


/-! ## Seeding the pages of the concrete scenario -/

theorem textContent_name (n : String) : (testimonialName n).textContent = n := by
  apply String.ext
  simp [testimonialName, Node.textContent, textOfList, String.data_append]

theorem textContent_h1 (t : String) : (Node.elem "h1" [] [.text t]).textContent = t := by
  apply String.ext
  simp [Node.textContent, textOfList, String.data_append]

/-- The selection of a selector that matches one fixed path in every testimonial and nothing
above the testimonials. -/
theorem listDoc_selectPaths (sel : Selector) (q : Path) (hd : List Node) (title : String)
    (items : List (String × String))
    (hitem : ∀ x : String × String, (testimonialItem x.1 x.2).selectPaths sel = [q])
    (h1 : sel.holds (listDoc hd title items) = false)
    (h2 : (Node.elem "head" [] hd).selectPaths sel = [])
    (h3 : sel.holds (.elem "body" [] [pageHeader title, listContainer items]) = false)
    (h4 : (pageHeader title).selectPaths sel = [])
    (h5 : sel.holds (listContainer items) = false) :
    (listDoc hd title items).selectPaths sel = items.enum.map (fun y => 1 :: 1 :: y.1 :: q) := by
  have hlist : (listContainer items).selectPaths sel = items.enum.map (fun y => y.1 :: q) := by
    unfold listContainer at h5 ⊢
    rw [selectPaths_elem, h5, List.enum_map]
    simp only [Bool.false_eq_true, if_false, List.nil_append, List.flatMap_map]
    induction items.enum with
    | nil => rfl
    | cons y l ih =>
      simp only [List.flatMap_cons, List.map_cons]
      rw [ih]
      simp [hitem]
  have hbody : (Node.elem "body" [] [pageHeader title, listContainer items]).selectPaths sel
      = items.enum.map (fun y => 1 :: y.1 :: q) := by
    rw [selectPaths_elem, h3]
    simp [List.enum, List.enumFrom, List.flatMap_cons, h4, hlist]
  unfold listDoc at h1 ⊢
  rw [selectPaths_elem, h1]
  simp [List.enum, List.enumFrom, List.flatMap_cons, h2, hbody]


theorem listDoc_selectPaths_name (hd : List Node) (title : String)
    (items : List (String × String))
    (hhead : (Node.elem "head" [] hd).selectPaths selName = []) :
    (listDoc hd title items).selectPaths selName = items.enum.map (fun y => [1, 1, y.1, 0]) :=
  listDoc_selectPaths selName [0] hd title items (fun _ => rfl) rfl hhead rfl rfl rfl

theorem listDoc_get?_item (hd : List Node) (title : String) (items : List (String × String))
    (i : Nat) (q : Path) :
    (listDoc hd title items).get? (1 :: 1 :: i :: q)
      = ((items[i]?).map (fun x => testimonialItem x.1 x.2)).bind (fun m => m.get? q) := by
  simp only [listDoc, listContainer, Node.get?, List.getElem?_cons_succ, List.getElem?_cons_zero,
    List.getElem?_map]
  cases items[i]? <;> rfl

theorem listDoc_closest_seed (hd : List Node) (title : String)
    (items : List (String × String)) (i : Nat)
    (x : String × String) (hx : items[i]? = some x) :
    (listDoc hd title items).closest seedContainers [1, 1, i, 0] = some [1, 1, i] := by
  have g1 : (listDoc hd title items).holdsAt seedContainers [1, 1, i, 0] = false := by
    simp only [Node.holdsAt, listDoc_get?_item, hx]; rfl
  have g2 : (listDoc hd title items).holdsAt seedContainers [1, 1, i] = true := by
    simp only [Node.holdsAt, listDoc_get?_item, hx]; rfl
  simp [Node.closest, List.inits, List.find?, g1, g2]

theorem listDoc_closest_item (hd : List Node) (title : String)
    (items : List (String × String)) (i : Nat)
    (x : String × String) (hx : items[i]? = some x) :
    (listDoc hd title items).closest itemContainers [1, 1, i, 0] = some [1, 1, i] := by
  have g1 : (listDoc hd title items).holdsAt itemContainers [1, 1, i, 0] = false := by
    simp only [Node.holdsAt, listDoc_get?_item, hx]; rfl
  have g2 : (listDoc hd title items).holdsAt itemContainers [1, 1, i] = true := by
    simp only [Node.holdsAt, listDoc_get?_item, hx]; rfl
  simp [Node.closest, List.inits, List.find?, g1, g2]

theorem collectionElements_listDoc (title : String) (items : List (String × String)) :
    collectionElements (listDoc [] title items) testimonialCollection
      = some (items.enum.map (fun y => [1, 1, y.1])) := by
  have hp : parseSelector "h3.name" = some selName := by decide
  simp only [collectionElements, testimonialCollection, hp,
    listDoc_selectPaths_name [] title items rfl, List.map_map, Option.some.injEq]
  apply List.map_congr_left
  intro y hy
  have hy2 : items[y.1]? = some y.2 := List.mem_enum_iff_getElem?.mp hy
  simp [listDoc_closest_seed [] title items y.1 y.2 hy2]

theorem seedFields_item (w : World) (doc : Node) (x : String × String) (i : Nat) :
    testimonialCollection.fields.foldlM
        (seedCollectionField w doc (testimonialItem x.1 x.2) i) []
      = some (testimonialRow w x) := by
  have hp1 : parseSelector "h3.name" = some selName := by decide
  have hp2 : parseSelector "p.content" = some selContent := by decide
  have f1 : (testimonialItem x.1 x.2).find selName = [testimonialName x.1] := rfl
  have f2 : (testimonialItem x.1 x.2).find selContent = [testimonialContent x.2] := rfl
  simp only [testimonialCollection, List.foldlM_cons, List.foldlM_nil, seedCollectionField,
    hp1, hp2, f1, f2, Option.bind_eq_bind, Option.some_bind, Option.pure_def]
  have v1 : extractValue w "text" (some (testimonialName x.1)) = .str (jsTrim x.1) := by
    simp [extractValue, textContent_name]
  have v2 : extractValue w "rich_text" (some (testimonialContent x.2))
      = .str (w.innerHtml "p" [.text x.2]) := by
    simp [extractValue, testimonialContent, Node.childNodes, Node.tag]
  rw [v1, v2]
  rfl

theorem mapM_map_eq_some {α β γ : Type} (ψ : α → β) (f : β → Option γ) (g : α → γ) :
    ∀ l : List α, (∀ a ∈ l, f (ψ a) = some (g a)) → (l.map ψ).mapM f = some (l.map g) := by
  intro l
  induction l with
  | nil => intro _; rfl
  | cons a l ih =>
    intro h
    rw [List.map_cons, List.mapM_cons, h a (List.mem_cons_self _ _),
      ih (fun b hb => h b (List.mem_cons_of_mem _ hb))]
    rfl

theorem flatten_map_singleton {α β : Type} (f : α → β) : ∀ l : List α,
    (l.map (fun a => [f a])).flatten = l.map f
  | [] => rfl
  | a :: l => by
    simp only [List.map_cons, List.flatten_cons, List.singleton_append,
      flatten_map_singleton f l]

theorem seedCollection_listDoc (w : World) (title : String) (items : List (String × String)) :
    seedCollection w (listDoc [] title items) testimonialCollection
      = some (items.map (fun x => ("testimonial_list", testimonialRow w x))) := by
  simp only [seedCollection, collectionElements_listDoc, List.enum_map]
  have key : ∀ z ∈ items.enum.enum,
      seedElement w (listDoc [] title items) testimonialCollection
        (Prod.map id (fun y : Nat × (String × String) => [1, 1, y.1]) z)
      = some [("testimonial_list", testimonialRow w z.2.2)] := by
    intro z hz
    have hz1 : z.2 ∈ items.enum := List.snd_mem_of_mem_enum hz
    have hz2 : items[z.2.1]? = some z.2.2 := List.mem_enum_iff_getElem?.mp hz1
    simp only [seedElement, Prod.map, id, listDoc_get?_item, hz2, Option.map_some',
      Option.some_bind]
    show Option.map _ (List.foldlM (seedCollectionField w _ (testimonialItem z.2.2.1 z.2.2.2) z.1)
      [] testimonialCollection.fields) = _
    rw [seedFields_item]
    rfl
  rw [mapM_map_eq_some _ _ _ _ key]
  simp only [Option.map_some', Option.some.injEq]
  have e1 : items.enum.enum.map (fun z => z.2.2) = items := by
    have : (fun z : Nat × Nat × String × String => z.2.2) = Prod.snd ∘ Prod.snd := rfl
    rw [this, ← List.map_map, List.enum_map_snd, List.enum_map_snd]
  conv_rhs => rw [← e1]
  rw [flatten_map_singleton, List.map_map]
  rfl


theorem listDoc_select_h1 (title : String) (items : List (String × String)) :
    (listDoc [] title items).select [selTag "h1"] = [.elem "h1" [] [.text title]] := by
  unfold Node.select
  rw [listDoc_allElements, List.filter_append,
    filter_items_nil (Selector.holds [selTag "h1"]) items (fun _ => rfl)]
  rfl

theorem seedSingleton_listDoc (w : World) (title : String) (items : List (String × String)) :
    seedSingleton w (listDoc [] title items)
        { name := "header",
          fields := [{ name := "title", type := "text", selector := "h1", required := false }] }
      = some [("header", [("title", .str (jsTrim title))])] := by
  have hp : parseSelector "h1" = some [selTag "h1"] := by decide
  have v : extractValue w "text" (some (.elem "h1" [] [.text title])) = .str (jsTrim title) := by
    simp [extractValue, textContent_h1]
  simp only [seedSingleton, List.foldlM_cons, List.foldlM_nil, seedSingletonField, hp,
    listDoc_select_h1, List.head?_cons, v, Option.bind_eq_bind, Option.some_bind,
    Option.pure_def, Option.map_some']
  rfl

theorem seedData_listDoc (w : World) (title : String) (items : List (String × String)) :
    seedData w testimonialSchema (listDoc [] title items) = some (listInserts w title items) := by
  have hc : testimonialSchema.collections.mapM (seedCollection w (listDoc [] title items))
      = some [items.map (fun x => ("testimonial_list", testimonialRow w x))] := by
    show [testimonialCollection].mapM _ = _
    rw [List.mapM_cons, seedCollection_listDoc]
    rfl
  have hs : testimonialSchema.singletons.mapM (seedSingleton w (listDoc [] title items))
      = some [[("header", [("title", .str (jsTrim title))])]] := by
    simp only [testimonialSchema, List.mapM_cons, seedSingleton_listDoc]
    rfl
  simp only [seedData, hc, hs, listInserts]
  simp

theorem storeOf_listInserts_collection (w : World) (title : String)
    (items : List (String × String)) :
    storeOf (listInserts w title items) "testimonial_list"
      = some (items.map (testimonialRow w)) := by
  simp only [storeOf, listInserts, List.filter_append, List.map_append, Option.some.injEq]
  have h1 : (items.map (fun x => ("testimonial_list", testimonialRow w x))).filter
      (fun x => x.1 == "testimonial_list")
      = items.map (fun x => ("testimonial_list", testimonialRow w x)) := by
    rw [List.filter_eq_self]
    intro a ha
    rw [List.mem_map] at ha
    obtain ⟨x, _, rfl⟩ := ha
    rfl
  have h2 : [(("header" : String), ([("title", Value.str (jsTrim title))] : Row))].filter
      (fun x => x.1 == "testimonial_list") = [] := rfl
  rw [h1, h2]
  simp [List.map_map, Function.comp_def]

theorem storeOf_listInserts_header (w : World) (title : String)
    (items : List (String × String)) :
    storeOf (listInserts w title items) "header"
      = some [[("title", .str (jsTrim title))]] := by
  simp only [storeOf, listInserts, List.filter_append, List.map_append, Option.some.injEq]
  have h1 : (items.map (fun x => ("testimonial_list", testimonialRow w x))).filter
      (fun x => x.1 == "header") = [] := by
    rw [List.filter_eq_nil_iff]
    intro a ha
    rw [List.mem_map] at ha
    obtain ⟨x, _, rfl⟩ := ha
    show ¬ (("testimonial_list" : String) == "header") = true
    decide
  have h2 : [(("header" : String), ([("title", Value.str (jsTrim title))] : Row))].filter
      (fun x => x.1 == "header") = [("header", [("title", Value.str (jsTrim title))])] := rfl
  rw [h1, h2]
  rfl


/-! ## Rendering the pages of the concrete scenario -/

theorem listDoc_selectPaths_h1 (hd : List Node) (title : String)
    (items : List (String × String))
    (hhead : (Node.elem "head" [] hd).selectPaths [selTag "h1"] = []) :
    (listDoc hd title items).selectPaths [selTag "h1"] = [[1, 0, 0]] := by
  have hlist : (listContainer items).selectPaths [selTag "h1"] = [] := by
    unfold listContainer
    rw [selectPaths_elem, List.enum_map]
    have h5 : Selector.holds [selTag "h1"]
        (.elem "div" [("id", "list")] (items.map (fun x => testimonialItem x.1 x.2))) = false :=
      rfl
    rw [h5]
    simp only [Bool.false_eq_true, if_false, List.nil_append, List.flatMap_map]
    induction items.enum with
    | nil => rfl
    | cons y l ih =>
      simp only [List.flatMap_cons]
      rw [ih]
      rfl
  have hbody : (Node.elem "body" [] [pageHeader title, listContainer items]).selectPaths
      [selTag "h1"] = [[0, 0]] := by
    rw [selectPaths_elem]
    have h3 : Selector.holds [selTag "h1"]
        (.elem "body" [] [pageHeader title, listContainer items]) = false := rfl
    have h4 : (pageHeader title).selectPaths [selTag "h1"] = [[0]] := rfl
    rw [h3]
    simp [List.enum, List.enumFrom, List.flatMap_cons, h4, hlist]
  unfold listDoc
  rw [selectPaths_elem]
  have h1 : Selector.holds [selTag "h1"] (.elem "html" []
      [.elem "head" [] hd, .elem "body" [] [pageHeader title, listContainer items]]) = false :=
    rfl
  rw [h1]
  simp [List.enum, List.enumFrom, List.flatMap_cons, hhead, hbody]

theorem previewSingleton_listDoc (w : World) (store : Store) (hd : List Node) (title : String)
    (items : List (String × String)) (v : String)
    (hhead : (Node.elem "head" [] hd).selectPaths [selTag "h1"] = [])
    (hstore : store "header" = some [[("title", .str v)]]) :
    previewSingleton w store (listDoc hd title items)
        { name := "header",
          fields := [{ name := "title", type := "text", selector := "h1", required := false }] }
      = some (listDoc hd v items) := by
  have hs : sanitize "header" = "header" := by decide
  have hp : parseSelector "h1" = some [selTag "h1"] := by decide
  simp only [previewSingleton, hs, hstore, List.foldlM_cons,
    List.foldlM_nil, previewSingletonField, hp, listDoc_selectPaths_h1 hd title items hhead]
  rfl

theorem bakeSingleton_listDoc (w : World) (store : Store) (hd : List Node) (title : String)
    (items : List (String × String)) (v : String)
    (hhead : (Node.elem "head" [] hd).selectPaths [selTag "h1"] = [])
    (hstore : store "header" = some [[("title", .str v)]]) :
    bakeSingleton w store (listDoc hd title items)
        { name := "header",
          fields := [{ name := "title", type := "text", selector := "h1", required := false }] }
      = some (listDoc hd v items) := by
  have hs : sanitize "header" = "header" := by decide
  have hp : parseSelector "h1" = some [selTag "h1"] := by decide
  simp only [bakeSingleton, hs, hstore, List.foldlM_cons,
    List.foldlM_nil, bakeSingletonField, hp, listDoc_selectPaths_h1 hd title items hhead]
  rfl

theorem previewItem_testimonial (w : World) (t x : String × String)
    (hx : w.parseHtml "p" (w.innerHtml "p" [.text x.2]) = [.text x.2]) :
    previewItem w testimonialCollection.fields (testimonialItem t.1 t.2) (testimonialRow w x)
      = some (testimonialItem (jsTrim x.1) x.2) := by
  have h : previewItem w testimonialCollection.fields (testimonialItem t.1 t.2)
      (testimonialRow w x)
      = some (.elem "div" [("class", "testimonial")]
          [testimonialName (jsTrim x.1),
           .elem "p" [("class", "content")] (w.parseHtml "p" (w.innerHtml "p" [.text x.2]))]) := rfl
  rw [h, hx]
  rfl

theorem bakeItem_testimonial (w : World) (t x : String × String)
    (hx : w.parseHtml "p" (w.innerHtml "p" [.text x.2]) = [.text x.2]) :
    bakeItem w testimonialCollection.fields (testimonialItem t.1 t.2) (testimonialRow w x)
      = some (testimonialItem (jsTrim x.1) x.2) := by
  have h : bakeItem w testimonialCollection.fields (testimonialItem t.1 t.2)
      (testimonialRow w x)
      = some (.elem "div" [("class", "testimonial")]
          [testimonialName (jsTrim x.1),
           .elem "p" [("class", "content")] (w.parseHtml "p" (w.innerHtml "p" [.text x.2]))]) := rfl
  rw [h, hx]
  rfl

theorem renderCollection_listDoc (w : World) (store : Store) (hd : List Node) (title : String)
    (first second : String × String) (rest : List (String × String))
    (hhead : (Node.elem "head" [] hd).selectPaths selName = [])
    (hstore : store "testimonial_list" = some ((first :: second :: rest).map (testimonialRow w)))
    (hmarkup : ∀ x ∈ first :: second :: rest,
      w.parseHtml "p" (w.innerHtml "p" [.text x.2]) = [.text x.2]) :
    previewCollection w store (listDoc hd title (first :: second :: rest)) testimonialCollection
      = some (listDoc hd title ((first :: second :: rest).map (fun x => (jsTrim x.1, x.2)))) ∧
    bakeCollection w store (listDoc hd title (first :: second :: rest)) testimonialCollection
      = some (listDoc hd title ((first :: second :: rest).map (fun x => (jsTrim x.1, x.2)))) := by
  have hs : sanitize testimonialCollection.name = "testimonial_list" := by decide
  have hf : testimonialCollection.fields
      = { name := "title", type := "text", selector := "h3.name", required := false }
        :: [{ name := "description", type := "rich_text", selector := "p.content",
              required := false }] := rfl
  have hp : parseSelector "h3.name" = some selName := by decide
  have hsel : (listDoc hd title (first :: second :: rest)).selectPaths selName
      = [1, 1, 0, 0] :: ((second :: rest).enumFrom 1).map (fun y => [1, 1, y.1, 0]) := by
    rw [listDoc_selectPaths_name hd title _ hhead]; rfl
  have htp : templateItemPath (listDoc hd title (first :: second :: rest)) [1, 1, 0, 0]
      = [1, 1, 0] := by
    simp only [templateItemPath,
      listDoc_closest_item hd title (first :: second :: rest) 0 first rfl, Option.getD_some]
  have hget : (listDoc hd title (first :: second :: rest)).get? [1, 1, 0]
      = some (testimonialItem first.1 first.2) := rfl
  have hrows : (first :: second :: rest).map (testimonialRow w)
      = testimonialRow w first :: (second :: rest).map (testimonialRow w) := rfl
  have hpre : ((first :: second :: rest).map (testimonialRow w)).mapM
      (previewItem w testimonialCollection.fields (testimonialItem first.1 first.2))
      = some ((first :: second :: rest).map (fun x => testimonialItem (jsTrim x.1) x.2)) := by
    apply mapM_map_eq_some
    intro x hx
    exact previewItem_testimonial w first x (hmarkup x hx)
  have hbake : ((first :: second :: rest).map (testimonialRow w)).mapM
      (bakeItem w testimonialCollection.fields (testimonialItem first.1 first.2))
      = some ((first :: second :: rest).map (fun x => testimonialItem (jsTrim x.1) x.2)) := by
    apply mapM_map_eq_some
    intro x hx
    exact bakeItem_testimonial w first x (hmarkup x hx)
  have hrep : replaceItems (listDoc hd title (first :: second :: rest)) [1, 1, 0]
      ((first :: second :: rest).map (fun x => testimonialItem (jsTrim x.1) x.2))
      = listDoc hd title ((first :: second :: rest).map (fun x => (jsTrim x.1, x.2))) := by
    simp only [replaceItems, listDoc, listContainer, List.map_map]
    rfl
  rw [hrows] at hpre hbake
  constructor
  · simp only [previewCollection, hs, hstore, hrows]
    rw [hf]
    simp only [hp, hsel, htp, hget]
    rw [← hf, hpre]
    simp only [Option.map_some', hrep]
  · simp only [bakeCollection, hs, hstore, hrows]
    rw [hf]
    simp only [hp, hsel, htp, hget]
    rw [← hf, hbake]
    simp only [Option.map_some', hrep]

/-! ## The pass over the assets and the base element on these pages -/

theorem updateWhereList_items (s : Selector) (f : Node → Node)
    (hitem : ∀ x : String × String, (testimonialItem x.1 x.2).updateWhere s f
      = testimonialItem x.1 x.2) (items : List (String × String)) :
    updateWhereList s f (items.map (fun x => testimonialItem x.1 x.2))
      = items.map (fun x => testimonialItem x.1 x.2) := by
  induction items with
  | nil => rfl
  | cons x items ih => simp only [List.map_cons, updateWhereList, hitem, ih]

theorem updateWhere_elem_false (s : Selector) (f : Node → Node) (t : String)
    (a : List (String × String)) (cs : List Node) (h : s.holds (.elem t a cs) = false) :
    (Node.elem t a cs).updateWhere s f = .elem t a (updateWhereList s f cs) := by
  simp [Node.updateWhere, h]

theorem updateWhere_listDoc (s : Selector) (f : Node → Node) (title : String)
    (items : List (String × String))
    (hitem : ∀ x : String × String, (testimonialItem x.1 x.2).updateWhere s f
      = testimonialItem x.1 x.2)
    (h1 : ∀ cs, s.holds (.elem "html" [] cs) = false)
    (h2 : (Node.elem "head" [] []).updateWhere s f = .elem "head" [] [])
    (h3 : ∀ cs, s.holds (.elem "body" [] cs) = false)
    (h4 : (pageHeader title).updateWhere s f = pageHeader title)
    (h5 : ∀ cs, s.holds (.elem "div" [("id", "list")] cs) = false) :
    (listDoc [] title items).updateWhere s f = listDoc [] title items := by
  unfold listDoc listContainer
  rw [updateWhere_elem_false s f _ _ _ (h1 _)]
  simp only [updateWhereList]
  rw [h2, updateWhere_elem_false s f _ _ _ (h3 _)]
  simp only [updateWhereList]
  rw [h4, updateWhere_elem_false s f _ _ _ (h5 _), updateWhereList_items s f hitem items]

theorem assetPass_listDoc (w : World) (title : String) (items : List (String × String)) :
    assetPass w (listDoc [] title items) = listDoc [] title items := by
  unfold assetPass
  rw [updateWhere_listDoc selLinkHref _ title items (fun _ => rfl) (fun _ => rfl) rfl
      (fun _ => rfl) rfl (fun _ => rfl),
    updateWhere_listDoc selScriptSrc _ title items (fun _ => rfl) (fun _ => rfl) rfl
      (fun _ => rfl) rfl (fun _ => rfl),
    updateWhere_listDoc selImgSrc _ title items (fun _ => rfl) (fun _ => rfl) rfl
      (fun _ => rfl) rfl (fun _ => rfl)]

theorem listDoc_selectPaths_head (title : String) (items : List (String × String)) :
    (listDoc [] title items).selectPaths [selTag "head"] = [[0]] := by
  have hlist : (listContainer items).selectPaths [selTag "head"] = [] := by
    unfold listContainer
    rw [selectPaths_elem, List.enum_map]
    have h5 : Selector.holds [selTag "head"]
        (.elem "div" [("id", "list")] (items.map (fun x => testimonialItem x.1 x.2))) = false :=
      rfl
    rw [h5]
    simp only [Bool.false_eq_true, if_false, List.nil_append, List.flatMap_map]
    induction items.enum with
    | nil => rfl
    | cons y l ih =>
      simp only [List.flatMap_cons]
      rw [ih]
      rfl
  have hbody : (Node.elem "body" [] [pageHeader title, listContainer items]).selectPaths
      [selTag "head"] = [] := by
    rw [selectPaths_elem]
    have h3 : Selector.holds [selTag "head"]
        (.elem "body" [] [pageHeader title, listContainer items]) = false := rfl
    have h4 : (pageHeader title).selectPaths [selTag "head"] = [] := rfl
    rw [h3]
    simp [List.enum, List.enumFrom, List.flatMap_cons, h4, hlist]
  unfold listDoc
  rw [selectPaths_elem]
  have h1 : Selector.holds [selTag "head"] (.elem "html" []
      [.elem "head" [] [], .elem "body" [] [pageHeader title, listContainer items]]) = false :=
    rfl
  have h2 : (Node.elem "head" [] []).selectPaths [selTag "head"] = [[]] := rfl
  rw [h1]
  simp [List.enum, List.enumFrom, List.flatMap_cons, h2, hbody]

theorem addBase_listDoc (title : String) (items : List (String × String)) :
    addBase (listDoc [] title items) = some (listDoc [baseElement] title items) := by
  simp only [addBase, listDoc_selectPaths_head]
  rfl

/-! ## The round trip -/

/-- C1, as the code has it, on the pages of the concrete scenario: a header with an `h1`, and a
container whose children are `k ≥ 2` items `<div class="testimonial">`, each with an
`<h3 class="name">` and a `<p class="content">`, the first paragraph longer than 10 characters
once trimmed. For every such page, with any texts, and every serializer and parser that
reproduce the paragraphs' text nodes: `analyzeHtml` returns the schema with the one collection
`testimonial_list` and the singleton `header`; `seedData` builds one row per item, in order,
with the trimmed name and the serialized content, and one row for the header with the trimmed
title; and the render on the seeded rows (`generatePreview` as well as `bakeHtml`) returns the
page in which the container has exactly the `k` items with the trimmed names and the original
contents, in the original order, and the `h1` holds the extracted title; `generatePreview`
has also put the `base` element into the head. -/
theorem round_trip_testimonials (w : World) (title : String) (first second : String × String)
    (rest : List (String × String))
    (hlong : 10 < (jsTrim first.2).length)
    (hmarkup : ∀ x ∈ first :: second :: rest,
      w.parseHtml "p" (w.innerHtml "p" [.text x.2]) = [.text x.2]) :
    analyzeHtml (listDoc [] title (first :: second :: rest)) = some testimonialSchema ∧
    seedData w testimonialSchema (listDoc [] title (first :: second :: rest))
      = some (listInserts w title (first :: second :: rest)) ∧
    storeOf (listInserts w title (first :: second :: rest)) "testimonial_list"
      = some ((first :: second :: rest).map (testimonialRow w)) ∧
    generatePreview w (storeOf (listInserts w title (first :: second :: rest))) testimonialSchema
        (listDoc [] title (first :: second :: rest))
      = some (listDoc [baseElement] (jsTrim title)
          ((first :: second :: rest).map (fun x => (jsTrim x.1, x.2)))) ∧
    bakeHtml w (storeOf (listInserts w title (first :: second :: rest))) testimonialSchema
        (listDoc [] title (first :: second :: rest))
      = some (listDoc [] (jsTrim title)
          ((first :: second :: rest).map (fun x => (jsTrim x.1, x.2)))) := by
  have hstore := storeOf_listInserts_collection w title (first :: second :: rest)
  have hheader := storeOf_listInserts_header w title (first :: second :: rest)
  refine ⟨analyzeHtml_listDoc title first second rest hlong, seedData_listDoc w title _,
    hstore, ?_, ?_⟩
  · have h1 : testimonialSchema.singletons.foldlM
        (previewSingleton w (storeOf (listInserts w title (first :: second :: rest))))
        (listDoc [baseElement] title (first :: second :: rest))
        = some (listDoc [baseElement] (jsTrim title) (first :: second :: rest)) := by
      simp only [testimonialSchema, List.foldlM_cons, List.foldlM_nil,
        previewSingleton_listDoc w _ [baseElement] title _ (jsTrim title) rfl hheader]
      rfl
    have h2 : testimonialSchema.collections.foldlM
        (previewCollection w (storeOf (listInserts w title (first :: second :: rest))))
        (listDoc [baseElement] (jsTrim title) (first :: second :: rest))
        = some (listDoc [baseElement] (jsTrim title)
            ((first :: second :: rest).map (fun x => (jsTrim x.1, x.2)))) := by
      show [testimonialCollection].foldlM _ _ = _
      simp only [List.foldlM_cons, List.foldlM_nil,
        (renderCollection_listDoc w _ [baseElement] (jsTrim title) first second rest rfl
          hstore hmarkup).1]
      rfl
    simp only [generatePreview, assetPass_listDoc, addBase_listDoc, injectPreview, h1, h2]
  · have h1 : testimonialSchema.singletons.foldlM
        (bakeSingleton w (storeOf (listInserts w title (first :: second :: rest))))
        (listDoc [] title (first :: second :: rest))
        = some (listDoc [] (jsTrim title) (first :: second :: rest)) := by
      simp only [testimonialSchema, List.foldlM_cons, List.foldlM_nil,
        bakeSingleton_listDoc w _ [] title _ (jsTrim title) rfl hheader]
      rfl
    have h2 : testimonialSchema.collections.foldlM
        (bakeCollection w (storeOf (listInserts w title (first :: second :: rest))))
        (listDoc [] (jsTrim title) (first :: second :: rest))
        = some (listDoc [] (jsTrim title)
            ((first :: second :: rest).map (fun x => (jsTrim x.1, x.2)))) := by
      show [testimonialCollection].foldlM _ _ = _
      simp only [List.foldlM_cons, List.foldlM_nil,
        (renderCollection_listDoc w _ [] (jsTrim title) first second rest rfl
          hstore hmarkup).2]
      rfl
    simp only [bakeHtml, h1, h2]

theorem round_trip_testimonials_witness :
    analyzeHtml (listDoc [] " Our clients " (("Ann ", "Ann was very happy.") ::
        ("Bob", "Bob was happy as well.") :: [("Cyd", "Cyd came back twice.")]))
      = some testimonialSchema ∧
    seedData plainWorld testimonialSchema (listDoc [] " Our clients "
        (("Ann ", "Ann was very happy.") :: ("Bob", "Bob was happy as well.") ::
          [("Cyd", "Cyd came back twice.")]))
      = some (listInserts plainWorld " Our clients " (("Ann ", "Ann was very happy.") ::
          ("Bob", "Bob was happy as well.") :: [("Cyd", "Cyd came back twice.")])) ∧
    storeOf (listInserts plainWorld " Our clients " (("Ann ", "Ann was very happy.") ::
        ("Bob", "Bob was happy as well.") :: [("Cyd", "Cyd came back twice.")]))
        "testimonial_list"
      = some ((("Ann ", "Ann was very happy.") :: ("Bob", "Bob was happy as well.") ::
          [("Cyd", "Cyd came back twice.")]).map (testimonialRow plainWorld)) ∧
    generatePreview plainWorld (storeOf (listInserts plainWorld " Our clients "
        (("Ann ", "Ann was very happy.") :: ("Bob", "Bob was happy as well.") ::
          [("Cyd", "Cyd came back twice.")]))) testimonialSchema
        (listDoc [] " Our clients " (("Ann ", "Ann was very happy.") ::
          ("Bob", "Bob was happy as well.") :: [("Cyd", "Cyd came back twice.")]))
      = some (listDoc [baseElement] (jsTrim " Our clients ")
          ((("Ann ", "Ann was very happy.") :: ("Bob", "Bob was happy as well.") ::
            [("Cyd", "Cyd came back twice.")]).map (fun x => (jsTrim x.1, x.2)))) ∧
    bakeHtml plainWorld (storeOf (listInserts plainWorld " Our clients "
        (("Ann ", "Ann was very happy.") :: ("Bob", "Bob was happy as well.") ::
          [("Cyd", "Cyd came back twice.")]))) testimonialSchema
        (listDoc [] " Our clients " (("Ann ", "Ann was very happy.") ::
          ("Bob", "Bob was happy as well.") :: [("Cyd", "Cyd came back twice.")]))
      = some (listDoc [] (jsTrim " Our clients ")
          ((("Ann ", "Ann was very happy.") :: ("Bob", "Bob was happy as well.") ::
            [("Cyd", "Cyd came back twice.")]).map (fun x => (jsTrim x.1, x.2)))) :=
  round_trip_testimonials plainWorld " Our clients " ("Ann ", "Ann was very happy.")
    ("Bob", "Bob was happy as well.") [("Cyd", "Cyd came back twice.")]
    (by decide) (by decide)

/-- C1, as the claim has it, fails. `quoteDoc` has two homogeneous items, each with a heading
and a paragraph of more than 10 characters, and a header, and `analyzeHtml` detects them. Their
class `quote` is none of the container classes, so `seedData` and the render take the first
heading for the item: after the round trip the first quote holds two headings, and the
paragraph of the first quote is nowhere in the document. -/
theorem round_trip_loses_paragraph :
    analyzeHtml quoteDoc = some quoteSchema ∧
    (seedData plainWorld quoteSchema quoteDoc).bind
        (fun ins => generatePreview plainWorld (storeOf ins) quoteSchema quoteDoc)
      = some quotePreview ∧
    (seedData plainWorld quoteSchema quoteDoc).bind
        (fun ins => bakeHtml plainWorld (storeOf ins) quoteSchema quoteDoc)
      = some quoteBaked ∧
    jsIncludes quoteDoc.textContent "Ann was very happy." = true ∧
    jsIncludes quotePreview.textContent "Ann was very happy." = false ∧
    jsIncludes quoteBaked.textContent "Ann was very happy." = false := by
  decide

/-! ## Paths and nodes give the same selections -/

mutual
theorem descendantPaths_get? : ∀ n : Node,
    n.descendantPaths.filterMap n.get? = n.descendants
  | .text _ => rfl
  | .elem t a cs => by
    simp only [Node.descendantPaths, Node.descendants]
    exact descendantPathsOfList_get? t a cs cs 0 (fun j => by simp)
theorem descendantPathsOfList_get? (t : String) (a : List (String × String))
    (all : List Node) : ∀ (cs : List Node) (s : Nat), (∀ j : Nat, cs[j]? = all[s + j]?) →
    (descendantPathsOfList s cs).filterMap (Node.elem t a all).get? = descendantsOfList cs
  | [], _, _ => rfl
  | c :: cs, s, hall => by
    have hc : all[s]? = some c := by
      have := hall 0
      simpa using this.symm
    have hrest : ∀ j : Nat, cs[j]? = all[s + 1 + j]? := by
      intro j
      have := hall (j + 1)
      simp only [List.getElem?_cons_succ] at this
      rw [this]
      congr 1
      omega
    simp only [descendantPathsOfList, descendantsOfList, List.filterMap_append,
      descendantPathsOfList_get? t a all cs (s + 1) hrest]
    congr 1
    congr 1
    · by_cases he : c.isElem = true
      · simp [he, Node.get?, hc]
      · simp [he]
    · rw [List.filterMap_map]
      have : (Node.elem t a all).get? ∘ (fun p => s :: p) = c.get? := by
        funext p
        simp [Node.get?, hc]
      rw [this]
      exact descendantPaths_get? c
end

theorem filterMap_filter_holdsAt (root : Node) (s : Selector) : ∀ l : List Path,
    (l.filter (root.holdsAt s)).filterMap root.get? = (l.filterMap root.get?).filter s.holds := by
  intro l
  induction l with
  | nil => rfl
  | cons p l ih =>
    cases hg : root.get? p with
    | none => simp [List.filter_cons, Node.holdsAt, hg, ih]
    | some m =>
      by_cases hm : s.holds m = true
      · simp [List.filter_cons, Node.holdsAt, hg, hm, ih]
      · simp [List.filter_cons, Node.holdsAt, hg, hm, ih]

/-- The paths of `$(selector)` lead to the elements of `$(selector)`, in the same order. -/
theorem selectPaths_get? (root : Node) (s : Selector) :
    (root.selectPaths s).filterMap root.get? = root.select s := by
  unfold Node.selectPaths Node.select
  rw [filterMap_filter_holdsAt]
  congr 1
  unfold Node.allPaths Node.allElements
  rw [List.filterMap_append, descendantPaths_get?]
  congr 1
  by_cases he : root.isElem = true
  · simp [he, Node.get?]
  · simp [he]

/-- The paths of `$el.find(selector)` lead to the elements of `$el.find(selector)`, in the same
order. -/
theorem findPaths_get? (n : Node) (s : Selector) :
    (n.findPaths s).filterMap n.get? = n.find s := by
  unfold Node.findPaths Node.find
  rw [filterMap_filter_holdsAt, descendantPaths_get?]


/-! ## The signature and the class tokens -/
theorem charsLe_total : ∀ s t : List Char, charsLe s t = true ∨ charsLe t s = true
  | [], _ => Or.inl rfl
  | _ :: _, [] => Or.inr rfl
  | a :: s, b :: t => by
    simp only [charsLe, Bool.or_eq_true, decide_eq_true_eq, Bool.and_eq_true, beq_iff_eq]
    rcases Nat.lt_trichotomy a.toNat b.toNat with h | h | h
    · exact Or.inl (Or.inl h)
    · rcases charsLe_total s t with h2 | h2
      · exact Or.inl (Or.inr ⟨h, h2⟩)
      · exact Or.inr (Or.inr ⟨h.symm, h2⟩)
    · exact Or.inr (Or.inl h)

theorem charsLe_trans : ∀ s t u : List Char, charsLe s t = true → charsLe t u = true →
    charsLe s u = true
  | [], _, _ => fun _ _ => by simp [charsLe]
  | _ :: _, [], _ => fun h _ => by simp [charsLe] at h
  | _ :: _, _ :: _, [] => fun _ h => by simp [charsLe] at h
  | a :: s, b :: t, c :: u => by
    simp only [charsLe, Bool.or_eq_true, decide_eq_true_eq, Bool.and_eq_true, beq_iff_eq]
    rintro (h1 | ⟨h1, h1'⟩) (h2 | ⟨h2, h2'⟩)
    · exact Or.inl (by omega)
    · exact Or.inl (by omega)
    · exact Or.inl (by omega)
    · exact Or.inr ⟨by omega, charsLe_trans s t u h1' h2'⟩

theorem charsLe_antisymm : ∀ s t : List Char, charsLe s t = true → charsLe t s = true → s = t
  | [], [] => fun _ _ => rfl
  | [], _ :: _ => fun _ h => by simp [charsLe] at h
  | _ :: _, [] => fun h _ => by simp [charsLe] at h
  | a :: s, b :: t => by
    simp only [charsLe, Bool.or_eq_true, decide_eq_true_eq, Bool.and_eq_true, beq_iff_eq]
    rintro (h1 | ⟨h1, h1'⟩) (h2 | ⟨h2, h2'⟩)
    · omega
    · omega
    · omega
    · have hab : a = b := by rw [← Char.ofNat_toNat a, ← Char.ofNat_toNat b, h1]
      rw [hab, charsLe_antisymm s t h1' h2']

/-- The order of `sort()` on strings, as a relation. -/
theorem jsSort_eq_insertionSort (l : List String) :
    jsSort l = l.insertionSort (fun a b => charsLe a.data b.data = true) := by
  induction l with
  | nil => rfl
  | cons x xs ih =>
    have hins : ∀ ys : List String,
        sortInsert x ys = ys.orderedInsert (fun a b => charsLe a.data b.data = true) x := by
      intro ys
      induction ys with
      | nil => rfl
      | cons y ys ih2 => simp only [sortInsert, List.orderedInsert, ih2]
    show sortInsert x (jsSort xs) = _
    rw [ih, hins]
    rfl

theorem jsSort_perm (l : List String) : (jsSort l).Perm l := by
  rw [jsSort_eq_insertionSort]
  exact List.perm_insertionSort _ l

theorem jsSort_eq_of_perm (l₁ l₂ : List String) (h : l₁.Perm l₂) : jsSort l₁ = jsSort l₂ := by
  rw [jsSort_eq_insertionSort, jsSort_eq_insertionSort]
  haveI : IsTotal String (fun a b => charsLe a.data b.data = true) :=
    ⟨fun a b => charsLe_total a.data b.data⟩
  haveI : IsTrans String (fun a b => charsLe a.data b.data = true) :=
    ⟨fun a b c => charsLe_trans a.data b.data c.data⟩
  haveI : IsAntisymm String (fun a b => charsLe a.data b.data = true) :=
    ⟨fun a b h1 h2 => String.ext (charsLe_antisymm a.data b.data h1 h2)⟩
  exact List.eq_of_perm_of_sorted
    (((List.perm_insertionSort _ l₁).trans h).trans (List.perm_insertionSort _ l₂).symm)
    (List.sorted_insertionSort _ l₁) (List.sorted_insertionSort _ l₂)

theorem splitOnChar_of_not_mem (sep : Char) : ∀ a : List Char, sep ∉ a → splitOnChar sep a = [a]
  | [], _ => rfl
  | c :: cs, h => by
    have hc : c ≠ sep := fun e => h (by simp [e])
    have hcs : sep ∉ cs := fun e => h (by simp [e])
    simp [splitOnChar, hc, splitOnChar_of_not_mem sep cs hcs]

theorem splitOnChar_append (sep : Char) (b : List Char) : ∀ a : List Char, sep ∉ a →
    splitOnChar sep (a ++ sep :: b) = a :: splitOnChar sep b
  | [], _ => by simp [splitOnChar]
  | c :: cs, h => by
    have hc : c ≠ sep := fun e => h (by simp [e])
    have hcs : sep ∉ cs := fun e => h (by simp [e])
    simp [splitOnChar, hc, splitOnChar_append sep b cs hcs]

theorem jsJoin_cons_cons (sep x y : String) (rest : List String) :
    jsJoin sep (x :: y :: rest) = x ++ sep ++ jsJoin sep (y :: rest) := rfl

theorem splitOnChar_jsJoin : ∀ l : List String, l ≠ [] → (∀ t ∈ l, '.' ∉ t.data) →
    splitOnChar '.' (jsJoin "." l).data = l.map String.data
  | [], h, _ => absurd rfl h
  | [x], _, hd => by
    simp [jsJoin, splitOnChar_of_not_mem '.' x.data (hd x (by simp))]
  | x :: y :: rest, _, hd => by
    rw [jsJoin_cons_cons]
    have hx : '.' ∉ x.data := hd x (by simp)
    have ih := splitOnChar_jsJoin (y :: rest) (by simp) (fun t ht => hd t (by simp [ht]))
    simp only [String.data_append]
    show splitOnChar '.' ((x.data ++ ['.']) ++ (jsJoin "." (y :: rest)).data) = _
    rw [List.append_assoc, List.singleton_append, splitOnChar_append '.' _ x.data hx, ih]
    rfl

theorem jsJoin_eq_empty : ∀ l : List String, l ≠ [] → jsJoin "." l = "" → l = [""]
  | [], h, _ => absurd rfl h
  | [x], _, h => by simpa [jsJoin] using h
  | x :: y :: rest, _, h => by
    rw [jsJoin_cons_cons] at h
    have := congrArg String.length h
    simp only [String.length_append] at this
    have h1 : ".".length = 1 := rfl
    have h0 : "".length = 0 := rfl
    omega


theorem splitSpacesAux_ne_nil : ∀ (b : Bool) (cs : List Char), splitSpacesAux b cs ≠ []
  | _, [] => by simp [splitSpacesAux]
  | b, c :: cs => by
    unfold splitSpacesAux
    by_cases hc : isJsSpace c = true
    · cases b
      · simp [hc]
      · simp [hc, splitSpacesAux_ne_nil true cs]
    · simp only [hc]
      cases splitSpacesAux false cs <;> simp

theorem splitSpacesAux_space (b : Bool) (c : Char) (cs : List Char) (hc : isJsSpace c = true) :
    splitSpacesAux b (c :: cs)
      = if b = true then splitSpacesAux true cs else [] :: splitSpacesAux true cs := by
  rw [splitSpacesAux]
  simp [hc]

theorem splitSpacesAux_char (b : Bool) (c : Char) (cs : List Char) (hc : ¬ isJsSpace c = true) :
    ∃ t, splitSpacesAux false cs = t :: (splitSpacesAux false cs).tail ∧
      splitSpacesAux b (c :: cs) = (c :: t) :: (splitSpacesAux false cs).tail := by
  rw [splitSpacesAux]
  simp only [hc]
  cases hs : splitSpacesAux false cs with
  | nil => exact absurd hs (splitSpacesAux_ne_nil false cs)
  | cons u us => exact ⟨u, by simp⟩

theorem splitSpacesAux_mem : ∀ (b : Bool) (cs : List Char), ∀ t ∈ splitSpacesAux b cs,
    ∀ c ∈ t, c ∈ cs
  | _, [] => by simp [splitSpacesAux]
  | b, c :: cs => by
    intro t ht x hx
    by_cases hc : isJsSpace c = true
    · rw [splitSpacesAux_space b c cs hc] at ht
      cases b
      · simp only [Bool.false_eq_true, if_false, List.mem_cons] at ht
        rcases ht with rfl | ht
        · simp at hx
        · exact List.mem_cons_of_mem _ (splitSpacesAux_mem true cs t ht x hx)
      · simp only [if_true] at ht
        exact List.mem_cons_of_mem _ (splitSpacesAux_mem true cs t ht x hx)
    · obtain ⟨u, hu, hs⟩ := splitSpacesAux_char b c cs hc
      have ih := splitSpacesAux_mem false cs
      rw [hs] at ht
      rcases List.mem_cons.mp ht with rfl | ht
      · rcases List.mem_cons.mp hx with rfl | hx
        · simp
        · exact List.mem_cons_of_mem _ (ih u (by rw [hu]; simp) x hx)
      · exact List.mem_cons_of_mem _ (ih t (List.mem_of_mem_tail ht) x hx)

theorem endsClean_tail (c : Char) (cs : List Char) (h : EndsClean (c :: cs)) : EndsClean cs := by
  intro hne
  have := h (by simp)
  rwa [List.getLast_cons hne] at this

theorem splitSpacesAux_clean : ∀ cs : List Char, EndsClean cs →
    (cs ≠ [] → [] ∉ splitSpacesAux true cs) ∧ (∀ b, [] ∉ (splitSpacesAux b cs).tail)
  | [], _ => by simp [splitSpacesAux]
  | c :: cs, h => by
    have ih := splitSpacesAux_clean cs (endsClean_tail c cs h)
    by_cases hc : isJsSpace c = true
    · have hne : cs ≠ [] := by
        intro e
        subst e
        have := h (by simp)
        simp [hc] at this
      refine ⟨fun _ => ?_, fun b => ?_⟩
      · rw [splitSpacesAux_space true c cs hc]
        simpa using ih.1 hne
      · rw [splitSpacesAux_space b c cs hc]
        cases b
        · simpa using ih.1 hne
        · simp only [if_true]
          exact fun hm => ih.1 hne (List.mem_of_mem_tail hm)
    · refine ⟨fun _ => ?_, fun b => ?_⟩
      · obtain ⟨t, _, ht⟩ := splitSpacesAux_char true c cs hc
        rw [ht]
        simp only [List.mem_cons, not_or]
        exact ⟨by simp, ih.2 false⟩
      · obtain ⟨t, _, ht⟩ := splitSpacesAux_char b c cs hc
        rw [ht]
        exact ih.2 false

theorem trimmed_data (a : String) (h : jsTrim a = a) :
    a.data.dropWhile isJsSpace = a.data ∧ EndsClean a.data := by
  have hd : ((a.data.dropWhile isJsSpace).reverse.dropWhile isJsSpace).reverse = a.data :=
    congrArg String.data h
  have hpre : a.data <+: a.data.dropWhile isJsSpace := by
    have := List.rdropWhile_prefix isJsSpace (a.data.dropWhile isJsSpace)
    rwa [List.rdropWhile, hd] at this
  have hsuf : a.data.dropWhile isJsSpace <:+ a.data := List.dropWhile_suffix _
  have heq : a.data.dropWhile isJsSpace = a.data :=
    hsuf.eq_of_length (Nat.le_antisymm hsuf.length_le hpre.length_le)
  refine ⟨heq, ?_⟩
  rw [heq] at hd
  have := (List.rdropWhile_eq_self_iff (p := isJsSpace) (l := a.data)).mp hd
  intro hne
  simpa using this hne

theorem splitSpaces_trimmed (a : String) (h : jsTrim a = a) (hne : a ≠ "") :
    "" ∉ splitSpaces a := by
  obtain ⟨hhead, hlast⟩ := trimmed_data a h
  cases hcs : a.data with
  | nil => exact absurd (String.ext hcs) hne
  | cons c cs =>
    rw [hcs] at hhead hlast
    have hc : ¬ isJsSpace c = true := by
      intro e
      have := (List.dropWhile_suffix isJsSpace (l := cs)).length_le
      have h2 := congrArg List.length hhead
      simp [List.dropWhile, e] at h2
      omega
    obtain ⟨t, _, ht⟩ := splitSpacesAux_char false c cs hc
    have hclean := (splitSpacesAux_clean cs (endsClean_tail c cs hlast)).2 false
    intro hm
    simp only [splitSpaces, hcs, ht, List.map_cons, List.mem_cons, List.mem_map] at hm
    rcases hm with hm | ⟨u, hu, hm⟩
    · have := congrArg String.data hm
      simp at this
    · have : u = [] := by
        have := congrArg String.data hm
        simpa using this
      exact hclean (this ▸ hu)

theorem splitSpaces_ne_nil (a : String) : splitSpaces a ≠ [] := by
  simp [splitSpaces, splitSpacesAux_ne_nil]

theorem splitSpaces_empty : splitSpaces "" = [""] := rfl

theorem jsSort_ne_nil (l : List String) (h : l ≠ []) : jsSort l ≠ [] := by
  intro e
  have := (jsSort_perm l).length_eq
  rw [e] at this
  exact h (List.length_eq_zero.mp this.symm)

theorem mem_jsSort (l : List String) (x : String) : x ∈ jsSort l ↔ x ∈ l :=
  (jsSort_perm l).mem_iff

/-- The signature of an element whose `class` attribute has no white space at either end, in
terms of its class tokens. -/
theorem signature_trimmed (n : Node)
    (h : jsTrim (n.attrOrEmpty "class") = n.attrOrEmpty "class") :
    signature n = n.tag ++
      (if classTokens n = [] then "" else "." ++ jsJoin "." (jsSort (classTokens n))) := by
  by_cases he : n.attrOrEmpty "class" = ""
  · have ht : classTokens n = [] := by simp [classTokens, he, splitSpaces_empty]
    have hs : signature n = n.tag ++ "" := by
      simp only [signature, he, splitSpaces_empty]
      rfl
    rw [hs, ht]
    simp
  · have hno := splitSpaces_trimmed _ h he
    have ht : classTokens n = splitSpaces (n.attrOrEmpty "class") := by
      unfold classTokens
      rw [List.filter_eq_self]
      intro t htm
      simp only [bne_iff_ne, ne_eq]
      exact fun e => hno (e ▸ htm)
    have hne : classTokens n ≠ [] := ht ▸ splitSpaces_ne_nil _
    have hj : jsJoin "." (jsSort (classTokens n)) ≠ "" := by
      intro e
      have := jsJoin_eq_empty _ (jsSort_ne_nil _ hne) e
      have hm : "" ∈ jsSort (classTokens n) := by simp [this]
      rw [mem_jsSort, ht] at hm
      exact hno hm
    simp only [signature, ← ht, hj, hne, if_false]

/-- Without a dot in the tag name or in the `class` attribute, the signature determines the tag
name and the sorted pieces of the attribute. -/
theorem signature_injective (a b : Node)
    (ha : '.' ∉ a.tag.data ∧ '.' ∉ (a.attrOrEmpty "class").data)
    (hb : '.' ∉ b.tag.data ∧ '.' ∉ (b.attrOrEmpty "class").data)
    (h : signature a = signature b) :
    a.tag = b.tag ∧ jsSort (splitSpaces (a.attrOrEmpty "class"))
      = jsSort (splitSpaces (b.attrOrEmpty "class")) := by
  have key : ∀ n : Node, '.' ∉ n.tag.data → '.' ∉ (n.attrOrEmpty "class").data →
      splitOnChar '.' (signature n).data = n.tag.data ::
        (if jsSort (splitSpaces (n.attrOrEmpty "class")) = [""] then []
         else (jsSort (splitSpaces (n.attrOrEmpty "class"))).map String.data) := by
    intro n ht hc
    have hne := jsSort_ne_nil _ (splitSpaces_ne_nil (n.attrOrEmpty "class"))
    have hd : ∀ t ∈ jsSort (splitSpaces (n.attrOrEmpty "class")), '.' ∉ t.data := by
      intro t htm hdot
      rw [mem_jsSort] at htm
      simp only [splitSpaces, List.mem_map] at htm
      obtain ⟨u, hu, rfl⟩ := htm
      exact hc (splitSpacesAux_mem false _ u hu '.' hdot)
    by_cases he : jsSort (splitSpaces (n.attrOrEmpty "class")) = [""]
    · have hs : signature n = n.tag ++ "" := by
        simp only [signature, he]
        rfl
      rw [hs, if_pos he]
      simp [splitOnChar_of_not_mem '.' _ ht]
    · have hj : jsJoin "." (jsSort (splitSpaces (n.attrOrEmpty "class"))) ≠ "" :=
        fun e => he (jsJoin_eq_empty _ hne e)
      simp only [signature, hj, if_false, he, String.data_append]
      show splitOnChar '.' (n.tag.data ++ '.' ::
        (jsJoin "." (jsSort (splitSpaces (n.attrOrEmpty "class")))).data) = _
      rw [splitOnChar_append '.' _ _ ht, splitOnChar_jsJoin _ hne hd]
  have h2 := congrArg (fun s => splitOnChar '.' s.data) h
  simp only [key a ha.1 ha.2, key b hb.1 hb.2, List.cons.injEq] at h2
  obtain ⟨htag, hrest⟩ := h2
  refine ⟨String.ext htag, ?_⟩
  have hnea := jsSort_ne_nil _ (splitSpaces_ne_nil (a.attrOrEmpty "class"))
  have hneb := jsSort_ne_nil _ (splitSpaces_ne_nil (b.attrOrEmpty "class"))
  by_cases hea : jsSort (splitSpaces (a.attrOrEmpty "class")) = [""]
  · by_cases heb : jsSort (splitSpaces (b.attrOrEmpty "class")) = [""]
    · rw [hea, heb]
    · rw [if_pos hea, if_neg heb] at hrest
      exact absurd (List.map_eq_nil_iff.mp hrest.symm) hneb
  · by_cases heb : jsSort (splitSpaces (b.attrOrEmpty "class")) = [""]
    · rw [if_neg hea, if_pos heb] at hrest
      exact absurd (List.map_eq_nil_iff.mp hrest) hnea
    · rw [if_neg hea, if_neg heb] at hrest
      exact List.map_injective_iff.mpr (fun x y e => String.ext e) hrest

theorem sameGroup_groupsOf (l : List Node) (c1 c2 : Node) (h1 : c1 ∈ l) (h2 : c2 ∈ l) :
    sameGroup (groupsOf l) c1 c2 = true ↔ signature c1 = signature c2 := by
  simp only [sameGroup, groupsOf, List.any_eq_true, List.mem_map, Bool.and_eq_true,
    decide_eq_true_eq]
  constructor
  · rintro ⟨g, ⟨s, _, rfl⟩, hm1, hm2⟩
    simp only [List.mem_filter, beq_iff_eq] at hm1 hm2
    rw [hm1.2, hm2.2]
  · intro h
    refine ⟨_, ⟨signature c1, ?_, rfl⟩, ?_, ?_⟩
    · rw [mem_firstOccurrences]
      exact List.mem_map_of_mem _ h1
    · simp [List.mem_filter, h1]
    · simp [List.mem_filter, h2, h]

/-- C11 (structural signature). When the grouping of the children of an element completes,
two grouped children are filed under the same key exactly when their signatures are equal.
For children whose `class` attributes have no white space at either end, the same tag name and
the same sorted list of class tokens give the same group; for children without a dot in the tag
name and in the `class` attribute, the same group gives the same tag name and the same sorted
list of class tokens. The sorted lists of class tokens are equal exactly when the tokens are
the same up to their order. -/
theorem groupChildren_same_group (elem : Node) (groups : Groups) (c1 c2 : Node)
    (hg : groupChildren elem.children = some groups)
    (h1 : c1 ∈ groupedChildren elem) (h2 : c2 ∈ groupedChildren elem) :
    (sameGroup groups c1 c2 = true ↔ signature c1 = signature c2) ∧
    (jsTrim (c1.attrOrEmpty "class") = c1.attrOrEmpty "class" →
      jsTrim (c2.attrOrEmpty "class") = c2.attrOrEmpty "class" →
      c1.tag = c2.tag → jsSort (classTokens c1) = jsSort (classTokens c2) →
      sameGroup groups c1 c2 = true) ∧
    ('.' ∉ c1.tag.data ∧ '.' ∉ (c1.attrOrEmpty "class").data →
      '.' ∉ c2.tag.data ∧ '.' ∉ (c2.attrOrEmpty "class").data →
      sameGroup groups c1 c2 = true →
      c1.tag = c2.tag ∧ jsSort (classTokens c1) = jsSort (classTokens c2)) ∧
    (jsSort (classTokens c1) = jsSort (classTokens c2) ↔
      (classTokens c1).Perm (classTokens c2)) := by
  have hgroups := groupChildren_eq elem groups hg
  have hiff : sameGroup groups c1 c2 = true ↔ signature c1 = signature c2 := by
    rw [hgroups]
    exact sameGroup_groupsOf _ c1 c2 h1 h2
  refine ⟨hiff, ?_, ?_, ?_⟩
  · intro ht1 ht2 htag htok
    rw [hiff, signature_trimmed c1 ht1, signature_trimmed c2 ht2, htag, htok]
    have : classTokens c1 = [] ↔ classTokens c2 = [] := by
      constructor
      · intro e
        rw [e] at htok
        have := (jsSort_perm (classTokens c2)).length_eq
        rw [← htok] at this
        exact List.length_eq_zero.mp this.symm
      · intro e
        rw [e] at htok
        have := (jsSort_perm (classTokens c1)).length_eq
        rw [htok] at this
        exact List.length_eq_zero.mp this.symm
    by_cases e : classTokens c1 = []
    · rw [if_pos e, if_pos (this.mp e)]
    · rw [if_neg e, if_neg (fun e2 => e (this.mpr e2))]
  · intro hd1 hd2 hs
    obtain ⟨htag, hsort⟩ := signature_injective c1 c2 hd1 hd2 (hiff.mp hs)
    refine ⟨htag, jsSort_eq_of_perm _ _ ?_⟩
    have hp : (splitSpaces (c1.attrOrEmpty "class")).Perm (splitSpaces (c2.attrOrEmpty "class")) :=
      ((jsSort_perm _).symm.trans (hsort ▸ List.Perm.refl _)).trans (jsSort_perm _)
    exact hp.filter _
  · constructor
    · intro e
      exact ((jsSort_perm _).symm.trans (e ▸ List.Perm.refl _)).trans (jsSort_perm _)
    · exact jsSort_eq_of_perm _ _

theorem groupChildren_same_group_witness :
    groupChildren permutedRow.children
      = some [("div.big.card", [classed "card big" "One", classed "big  card" "Two"])] ∧
    sameGroup [("div.big.card", [classed "card big" "One", classed "big  card" "Two"])]
      (classed "card big" "One") (classed "big  card" "Two") = true :=
  ⟨by decide, (groupChildren_same_group permutedRow _ (classed "card big" "One")
    (classed "big  card" "Two") (by decide) (by decide) (by decide)).2.1
    (by decide) (by decide) (by decide) (by decide)⟩

/-- C11, counterexample. A blank at the end of a `class` attribute separates two children with
the same tag name and the same class token, and a class token with a dot joins two children
whose class tokens differ. -/
theorem signature_outer_space_and_dots :
    ((groupChildren spacedRow.children).map
        (fun g => sameGroup g (classed "card" "One") (classed "card " "Two")) = some false ∧
      (classed "card" "One").tag = (classed "card " "Two").tag ∧
      jsSort (classTokens (classed "card" "One")) = jsSort (classTokens (classed "card " "Two"))) ∧
    ((groupChildren dottedRow.children).map
        (fun g => sameGroup g (classed "a.b" "One") (classed "a b" "Two")) = some true ∧
      jsSort (classTokens (classed "a.b" "One")) ≠ jsSort (classTokens (classed "a b" "Two"))) := by
  decide


/-! ## Field discovery -/

/-- When exactly the first `k` names of a base are in use, `addField` gives out the next. -/
theorem addField_next (name type selector : String) (st : FieldsState) (k : Nat)
    (hlt : ∀ j, j < k → candidate name j ∈ st.usedNames)
    (hge : ∀ j, k ≤ j → candidate name j ∉ st.usedNames) :
    addField name type selector st =
      { fields := st.fields ++ [{ name := candidate name k, type := type,
                                  selector := selector, required := false }],
        usedNames := st.usedNames ++ [candidate name k] } := by
  obtain ⟨k', _, hnot, hall, heq⟩ := addField_eq name type selector st
  have hk : k' = k := by
    rcases Nat.lt_trichotomy k' k with h | h | h
    · exact absurd (hlt k' h) hnot
    · exact h
    · exact absurd (hall k h) (hge k (Nat.le_refl k))
  rw [heq, hk]

theorem foldl_addField (name type : String) : ∀ (els : List Node) (st : FieldsState) (k : Nat),
    (∀ j, j < k → candidate name j ∈ st.usedNames) →
    (∀ j, k ≤ j → candidate name j ∉ st.usedNames) →
    els.foldl (fun s n => addField name type (getUniqueSelector n) s) st =
      { fields := st.fields ++ numberedFieldsFrom name type k els,
        usedNames := st.usedNames ++ (numberedFieldsFrom name type k els).map Field.name }
  | [], st, _, _, _ => by simp [numberedFieldsFrom]
  | n :: els, st, k, hlt, hge => by
    rw [List.foldl_cons, addField_next name type _ st k hlt hge]
    rw [foldl_addField name type els _ (k + 1)]
    · simp [numberedFieldsFrom, List.enumFrom_cons]
    · intro j hj
      rcases Nat.lt_succ_iff_lt_or_eq.mp hj with h | h
      · exact List.mem_append_left _ (hlt j h)
      · simp [h]
    · intro j hj hm
      rcases List.mem_append.mp hm with h | h
      · exact hge j (by omega) h
      · simp only [List.mem_singleton] at h
        have := candidate_injective name h
        omega

theorem foldl_imageStep_skip : ∀ (l : List Node) (n : Nat) (st : FieldsState), 4 ≤ n →
    (l.enumFrom n).foldl imageStep st = st
  | [], _, _, _ => rfl
  | x :: l, n, st, h => by
    rw [List.enumFrom_cons, List.foldl_cons]
    have : imageStep st (n, x) = st := by
      simp only [imageStep]
      rw [if_pos (by omega)]
    rw [this, foldl_imageStep_skip l (n + 1) st (by omega)]

theorem foldl_imageStep : ∀ (l : List Node) (n : Nat) (st : FieldsState),
    (l.enumFrom n).foldl imageStep st
      = (l.take (4 - n)).foldl (fun s x => addField "image" "image" (getUniqueSelector x) s) st
  | [], _, _ => by simp
  | x :: l, n, st => by
    rw [List.enumFrom_cons, List.foldl_cons]
    by_cases h : 4 ≤ n
    · have : imageStep st (n, x) = st := by
        simp only [imageStep]
        rw [if_pos (by omega)]
      rw [this, foldl_imageStep_skip l (n + 1) st (by omega)]
      have : 4 - n = 0 := by omega
      simp [this]
    · have h1 : imageStep st (n, x) = addField "image" "image" (getUniqueSelector x) st := by
        simp only [imageStep]
        rw [if_neg (by omega)]
      have h2 : 4 - n = (4 - (n + 1)) + 1 := by omega
      rw [h1, foldl_imageStep l (n + 1), h2, List.take_succ_cons, List.foldl_cons]

theorem foldl_paragraphStep : ∀ (l : List Node) (n : Nat) (st : FieldsState),
    (l.enumFrom n).foldl paragraphStep st
      = ((l.take (4 - n)).filter (fun p => jsLength (jsTrim p.textContent) > 10)).foldl
          (fun s x => addField "description" "rich_text" (getUniqueSelector x) s) st
  | [], _, _ => by simp
  | x :: l, n, st => by
    rw [List.enumFrom_cons, List.foldl_cons, foldl_paragraphStep l (n + 1)]
    by_cases h : 4 ≤ n
    · have : paragraphStep st (n, x) = st := by
        simp only [paragraphStep]
        rw [if_pos (by omega)]
      have h0 : 4 - n = 0 := by omega
      have h1 : 4 - (n + 1) = 0 := by omega
      rw [this, h0, h1]
      simp
    · have h2 : 4 - n = (4 - (n + 1)) + 1 := by omega
      rw [h2, List.take_succ_cons]
      by_cases hlong : jsLength (jsTrim x.textContent) > 10
      · have : paragraphStep st (n, x)
            = addField "description" "rich_text" (getUniqueSelector x) st := by
          simp only [paragraphStep]
          rw [if_neg (by omega), if_pos hlong]
        rw [this, List.filter_cons_of_pos (by simpa using hlong), List.foldl_cons]
      · have : paragraphStep st (n, x) = st := by
          simp only [paragraphStep]
          rw [if_neg (by omega), if_neg hlong]
        rw [this, List.filter_cons_of_neg (by simpa using hlong)]

theorem candidate_data (name : String) (j : Nat) :
    ∃ rest, (candidate name j).data = (sanitize name).data ++ rest := by
  unfold candidate
  by_cases h : j = 0
  · exact ⟨[], by simp [h]⟩
  · rw [if_neg h, sanitize_suffixed]
    exact ⟨("_" ++ toString j).data, by simp [String.data_append]⟩

theorem candidate_ne (a b : String) (j k : Nat) (ha : (sanitize a).data ≠ [])
    (hab : (sanitize a).data.head? ≠ (sanitize b).data.head?) (hb : (sanitize b).data ≠ []) :
    candidate a j ≠ candidate b k := by
  intro e
  obtain ⟨r1, h1⟩ := candidate_data a j
  obtain ⟨r2, h2⟩ := candidate_data b k
  have := congrArg (fun s => s.data.head?) e
  simp only [h1, h2] at this
  rw [List.head?_append_of_ne_nil _ ha, List.head?_append_of_ne_nil _ hb] at this
  exact hab this

theorem mem_numbered_names (name type : String) (k : Nat) (els : List Node) (u : String)
    (h : u ∈ (numberedFieldsFrom name type k els).map Field.name) : ∃ i, u = candidate name i := by
  simp only [numberedFieldsFrom, List.map_map, List.mem_map, Function.comp] at h
  obtain ⟨x, _, rfl⟩ := h
  exact ⟨x.1, rfl⟩

/-- The four passes of `extractFields`, stated on the elements they find. -/
theorem extractFields_eq (container : Node) :
    extractFields container =
      numberedFields "image" "image" ((container.find selImg).take 4) ++
      numberedFields "title" "text" (container.find selHeadings) ++
      numberedFields "description" "rich_text" (describedParagraphs container) ++
      numberedFields "cta_text" "text" (container.find selButtons) := by
  have hIT : ∀ j k, candidate "title" j ≠ candidate "image" k :=
    fun j k => candidate_ne _ _ j k (by decide) (by decide) (by decide)
  have hID : ∀ j k, candidate "description" j ≠ candidate "image" k :=
    fun j k => candidate_ne _ _ j k (by decide) (by decide) (by decide)
  have hTD : ∀ j k, candidate "description" j ≠ candidate "title" k :=
    fun j k => candidate_ne _ _ j k (by decide) (by decide) (by decide)
  have hIC : ∀ j k, candidate "cta_text" j ≠ candidate "image" k :=
    fun j k => candidate_ne _ _ j k (by decide) (by decide) (by decide)
  have hTC : ∀ j k, candidate "cta_text" j ≠ candidate "title" k :=
    fun j k => candidate_ne _ _ j k (by decide) (by decide) (by decide)
  have hDC : ∀ j k, candidate "cta_text" j ≠ candidate "description" k :=
    fun j k => candidate_ne _ _ j k (by decide) (by decide) (by decide)
  unfold extractFields extractFieldsState
  simp only [List.enum]
  rw [foldl_imageStep, foldl_paragraphStep]
  show ((container.find selButtons).foldl
    (fun s n => addField "cta_text" "text" (getUniqueSelector n) s)
    ((describedParagraphs container).foldl
      (fun s x => addField "description" "rich_text" (getUniqueSelector x) s)
      ((container.find selHeadings).foldl
        (fun s n => addField "title" "text" (getUniqueSelector n) s)
        (((container.find selImg).take 4).foldl
          (fun s x => addField "image" "image" (getUniqueSelector x) s)
          FieldsState.empty)))).fields = _
  rw [foldl_addField "image" "image" _ FieldsState.empty 0 (by simp) (by simp [FieldsState.empty])]
  rw [foldl_addField "title" "text" _ _ 0 (by simp)]
  rw [foldl_addField "description" "rich_text" _ _ 0 (by simp)]
  rw [foldl_addField "cta_text" "text" _ _ 0 (by simp)]
  · simp [numberedFields, FieldsState.empty]
  · intro j _ hm
    simp only [FieldsState.empty, List.nil_append, List.mem_append] at hm
    rcases hm with (hm | hm) | hm
    · obtain ⟨i, hi⟩ := mem_numbered_names _ _ _ _ _ hm
      exact hIC j i hi
    · obtain ⟨i, hi⟩ := mem_numbered_names _ _ _ _ _ hm
      exact hTC j i hi
    · obtain ⟨i, hi⟩ := mem_numbered_names _ _ _ _ _ hm
      exact hDC j i hi
  · intro j _ hm
    simp only [FieldsState.empty, List.nil_append, List.mem_append] at hm
    rcases hm with hm | hm
    · obtain ⟨i, hi⟩ := mem_numbered_names _ _ _ _ _ hm
      exact hID j i hi
    · obtain ⟨i, hi⟩ := mem_numbered_names _ _ _ _ _ hm
      exact hTD j i hi
  · intro j _ hm
    simp only [FieldsState.empty, List.nil_append] at hm
    obtain ⟨i, hi⟩ := mem_numbered_names _ _ _ _ _ hm
    exact hIT j i hi

theorem filter_numberedFields (name type t : String) (k : Nat) (els : List Node) :
    (numberedFieldsFrom name type k els).filter (fun f => f.type == t)
      = if type = t then numberedFieldsFrom name type k els else [] := by
  by_cases h : type = t
  · rw [if_pos h, List.filter_eq_self]
    intro f hf
    simp only [numberedFieldsFrom, List.mem_map] at hf
    obtain ⟨x, _, rfl⟩ := hf
    simp [h]
  · rw [if_neg h, List.filter_eq_nil_iff]
    intro f hf
    simp only [numberedFieldsFrom, List.mem_map] at hf
    obtain ⟨x, _, rfl⟩ := hf
    simp [h]

theorem candidate_image (i : Nat) :
    candidate "image" i = if i = 0 then "image" else "image_" ++ toString i := by
  unfold candidate
  by_cases h : i = 0
  · rw [if_pos h, if_pos h]; rfl
  · rw [if_neg h, if_neg h, sanitize_suffixed]; rfl

theorem candidate_description (i : Nat) :
    candidate "description" i
      = if i = 0 then "description" else "description_" ++ toString i := by
  unfold candidate
  by_cases h : i = 0
  · rw [if_pos h, if_pos h]; rfl
  · rw [if_neg h, if_neg h, sanitize_suffixed]; rfl

/-- C12 (image field discovery). The fields of type `image` that `extractFields` returns are
those of the first four `img` descendants of the root, in document order: there are
`min 4 m` of them for `m` such descendants, each has the selector of its element, and their
names are `image`, `image_1`, `image_2`, `image_3`. -/
theorem extractFields_images (root : Node) :
    (extractFields root).filter (fun f => f.type == "image")
      = ((root.find selImg).take 4).enum.map (fun x =>
          { name := if x.1 = 0 then "image" else "image_" ++ toString x.1, type := "image",
            selector := getUniqueSelector x.2, required := false }) ∧
    ((extractFields root).filter (fun f => f.type == "image")).length
      = min 4 (root.find selImg).length ∧
    ((extractFields root).filter (fun f => f.type == "image")).map Field.name
      = ["image", "image_1", "image_2", "image_3"].take (root.find selImg).length := by
  have h : (extractFields root).filter (fun f => f.type == "image")
      = ((root.find selImg).take 4).enum.map (fun x =>
          { name := if x.1 = 0 then "image" else "image_" ++ toString x.1, type := "image",
            selector := getUniqueSelector x.2, required := false }) := by
    rw [extractFields_eq]
    simp only [List.filter_append, numberedFields, filter_numberedFields]
    simp [numberedFieldsFrom, List.enum, candidate_image]
  refine ⟨h, ?_, ?_⟩
  · rw [h]
    simp
  · rw [h]
    have e1 : "image_" ++ toString 1 = "image_1" := by decide
    have e2 : "image_" ++ toString 2 = "image_2" := by decide
    have e3 : "image_" ++ toString 3 = "image_3" := by decide
    rcases root.find selImg with _ | ⟨a, _ | ⟨b, _ | ⟨c, _ | ⟨d, rest⟩⟩⟩⟩ <;>
      simp [List.enum, List.enumFrom, e1, e2, e3]

/-- C13 (paragraph field discovery). The fields of type `rich_text` that `extractFields`
returns are those of the paragraphs, among the first four `p` descendants of the root, whose
trimmed text has a `length` of more than 10 (in UTF-16 code units, as JavaScript counts), in
document order; the `i`-th is named `description` for `i = 0` and `description_i` otherwise. Their number is at most `min 4 q`, for `q` the number
of `p` descendants with such a text, and it is `q` when the root has at most four `p`
descendants. -/
theorem extractFields_paragraphs (root : Node) :
    (extractFields root).filter (fun f => f.type == "rich_text")
      = (((root.find selParagraph).take 4).filter
          (fun p => jsLength (jsTrim p.textContent) > 10)).enum.map (fun x =>
          { name := if x.1 = 0 then "description" else "description_" ++ toString x.1,
            type := "rich_text", selector := getUniqueSelector x.2, required := false }) ∧
    ((extractFields root).filter (fun f => f.type == "rich_text")).length
      ≤ min 4 ((root.find selParagraph).filter
          (fun p => jsLength (jsTrim p.textContent) > 10)).length ∧
    ((root.find selParagraph).length ≤ 4 →
      ((extractFields root).filter (fun f => f.type == "rich_text")).length
        = ((root.find selParagraph).filter
            (fun p => jsLength (jsTrim p.textContent) > 10)).length) := by
  have h : (extractFields root).filter (fun f => f.type == "rich_text")
      = (((root.find selParagraph).take 4).filter
          (fun p => jsLength (jsTrim p.textContent) > 10)).enum.map (fun x =>
          { name := if x.1 = 0 then "description" else "description_" ++ toString x.1,
            type := "rich_text", selector := getUniqueSelector x.2, required := false }) := by
    rw [extractFields_eq]
    simp only [List.filter_append, numberedFields, filter_numberedFields]
    simp [numberedFieldsFrom, List.enum, candidate_description, describedParagraphs]
  refine ⟨h, ?_, ?_⟩
  · rw [h, List.length_map, List.enum_length]
    apply Nat.le_min.mpr
    constructor
    · exact (List.length_filter_le _ _).trans (by simp)
    · exact ((List.take_sublist 4 _).filter _).length_le
  · intro hle
    rw [h, List.length_map, List.enum_length, List.take_of_length_le hle]

theorem extractFields_paragraphs_witness :
    ((testimonialItem "Ann" "A paragraph with text").find selParagraph).length ≤ 4 ∧
    ((extractFields (testimonialItem "Ann" "A paragraph with text")).filter
        (fun f => f.type == "rich_text")).length
      = (((testimonialItem "Ann" "A paragraph with text").find selParagraph).filter
          (fun p => jsLength (jsTrim p.textContent) > 10)).length :=
  ⟨by decide, (extractFields_paragraphs _).2.2 (by decide)⟩

/-- The length is counted in UTF-16 code units: a paragraph of six characters beyond the basic
plane has the length 12 and gives a field. -/
theorem extractFields_counts_code_units :
    (jsTrim emojiSection.textContent).length = 6 ∧
    jsLength (jsTrim emojiSection.textContent) = 12 ∧
    (extractFields emojiSection).filter (fun f => f.type == "rich_text")
      = [{ name := "description", type := "rich_text", selector := "p", required := false }] := by
  decide

/-- C13, counterexample. In a section with five paragraphs of which only the fifth is long,
no field of type `rich_text` is found, although one paragraph has a text longer than 10. -/
theorem extractFields_skips_fifth_paragraph :
    ((extractFields fiveParagraphs).filter (fun f => f.type == "rich_text")).length = 0 ∧
    min 4 ((fiveParagraphs.find selParagraph).filter
      (fun p => jsLength (jsTrim p.textContent) > 10)).length = 1 := by
  decide


/-! ## Singletons -/

theorem singletonSelector_holds (n : Node) : singletonSelector.holds n = isSingletonAnchor n := by
  cases n with
  | text d => rfl
  | elem t a cs =>
    simp only [singletonSelector, Selector.holds, List.any_cons, List.any_nil, Compound.holds,
      selTag, Node.isElem, Node.tag, List.all_nil, List.all_cons, AttrTest.holds,
      isSingletonAnchor, Node.attrOrEmpty, Bool.true_and, Bool.and_true, Bool.or_false]
    have e1 : jsIncludes "" "hero" = false := by decide
    have e2 : jsIncludes "" "about" = false := by decide
    cases h : (Node.elem t a cs).attr "id" <;>
      simp [Bool.or_assoc, Bool.and_or_distrib_left, e1, e2]

theorem foldl_processSingleton_subset (cands : List String) : ∀ (l : List (Nat × Node))
    (acc : List Entry) (e : Entry), e ∈ acc → e ∈ l.foldl (processSingleton cands) acc
  | [], _, _, h => h
  | x :: l, acc, e, h => by
    rw [List.foldl_cons]
    apply foldl_processSingleton_subset cands l
    unfold processSingleton
    split
    · exact h
    · split
      · exact List.mem_append_left _ h
      · exact h

theorem foldl_processSingleton_mem (cands : List String) : ∀ (l : List Node) (k i : Nat)
    (acc : List Entry) (elem : Node), l[i]? = some elem → 0 < (extractFields elem).length →
    singletonName elem (k + i) ∉ cands →
    { name := singletonName elem (k + i), fields := extractFields elem }
      ∈ (l.enumFrom k).foldl (processSingleton cands) acc
  | [], _, _, _, _, h, _, _ => by simp at h
  | x :: l, k, 0, acc, elem, h, hf, hn => by
    simp only [List.getElem?_cons_zero, Option.some.injEq] at h
    subst h
    rw [List.enumFrom_cons, List.foldl_cons]
    apply foldl_processSingleton_subset
    rw [Nat.add_zero] at hn ⊢
    simp only [processSingleton]
    rw [if_neg hn, if_pos hf]
    simp
  | x :: l, k, i + 1, acc, elem, h, hf, hn => by
    rw [List.enumFrom_cons, List.foldl_cons]
    have := foldl_processSingleton_mem cands l (k + 1) i (processSingleton cands acc (k, x)) elem
      (by simpa using h) hf (by rwa [show k + 1 + i = k + (i + 1) by omega])
    rwa [show k + 1 + i = k + (i + 1) by omega] at this

/-- C14 (singleton anchors). The elements that `analyzeHtml` scans as singleton anchors are
the `header`, the `footer`, the `section` with an `id` attribute and the `div` whose `id`
contains `hero` or `about`. When the collection pass completes, every such element on which
field discovery finds a field and whose name is none of the keys registered by the collection
pass has its entry among the singletons of the schema. -/
theorem analyzeHtml_singleton_anchors (root : Node) (st : AnalyzeState) (i : Nat) (elem : Node)
    (hst : analyzeCollections root = some st)
    (helem : (root.allElements.filter isSingletonAnchor)[i]? = some elem)
    (hfields : 0 < (extractFields elem).length)
    (hname : singletonName elem i ∉ st.candidates) :
    root.select singletonSelector = root.allElements.filter isSingletonAnchor ∧
    ∃ schema, analyzeHtml root = some schema ∧
      { name := singletonName elem i, fields := extractFields elem } ∈ schema.singletons := by
  have hsel : root.select singletonSelector = root.allElements.filter isSingletonAnchor := by
    unfold Node.select
    congr 1
    funext n
    exact singletonSelector_holds n
  have hschema : analyzeHtml root = some (Schema.mk st.collections
      (analyzeSingletons root st.candidates)) := by
    simp only [analyzeHtml, hst]
  refine ⟨hsel, _, hschema, ?_⟩
  show _ ∈ analyzeSingletons root st.candidates
  unfold analyzeSingletons
  rw [hsel]
  have := foldl_processSingleton_mem st.candidates _ 0 i [] elem helem hfields
    (by simpa using hname)
  simpa using this

theorem analyzeHtml_singleton_anchors_witness :
    heroDivDoc.select singletonSelector = heroDivDoc.allElements.filter isSingletonAnchor ∧
    ∃ schema, analyzeHtml heroDivDoc = some schema ∧
      { name := singletonName heroDiv 0, fields := extractFields heroDiv } ∈ schema.singletons :=
  analyzeHtml_singleton_anchors heroDivDoc { collections := [], candidates := [] } 0 heroDiv
    (by decide) (by decide) (by decide) (by decide)

/-- C14, counterexample. A `main` element whose `id` contains `hero`, and on which field
discovery finds a field, is no singleton anchor: the schema has no singleton. -/
theorem main_hero_is_no_anchor :
    jsIncludes (heroMain.attrOrEmpty "id") "hero" = true ∧
    0 < (extractFields heroMain).length ∧
    heroMain ∈ heroDoc.allElements ∧
    analyzeHtml heroDoc = some { collections := [], singletons := [] } := by
  decide

/-- C15 (singleton skip rule), the code at two inputs. A section whose name `card_list` is the
name of a promoted collection is kept as a singleton; a `header` whose name is the name of no
collection is left out, because its name is the signature of a promoted group. -/
theorem singleton_skip_tests_signatures :
    analyzeHtml claimedDoc = some
      { collections := [{ name := "card_list",
                          fields := [{ name := "title", type := "text", selector := "h3",
                                       required := false }] }],
        singletons := [{ name := "card_list",
                         fields := [{ name := "title", type := "text", selector := "h2",
                                      required := false }] }] } ∧
    analyzeHtml headersDoc = some
      { collections := [{ name := "collection_0",
                          fields := [{ name := "title", type := "text", selector := "h1",
                                       required := false }] }],
        singletons := [] } ∧
    0 < (extractFields (.elem "header" [] [heading "h1" "One"])).length := by
  decide


/-! ## Seeding: the typed extraction -/

theorem Row.get_set (r : Row) (key : String) (v : Value) (hkey : key ≠ "__proto__") :
    (r.set key v).get key = v := by
  unfold Row.set Row.get
  rw [if_neg (by simpa using hkey)]
  by_cases h : r.any (fun kv => kv.1 == key) = true
  · rw [if_pos h]
    induction r with
    | nil => simp at h
    | cons x xs ih =>
      by_cases hx : x.1 = key
      · simp [List.find?, hx]
      · have hx2 : (x.1 == key) = false := by simpa using hx
        simp only [List.any_cons, hx2, Bool.false_or] at h
        simp only [List.map_cons, hx2, Bool.false_eq_true, if_false, List.find?_cons]
        exact ih h
  · rw [if_neg h]
    have hnone : r.find? (fun kv => kv.1 == key) = none := by
      rw [List.find?_eq_none]
      intro x hx hk
      exact h (List.any_eq_true.mpr ⟨x, hx, hk⟩)
    simp [List.find?_append, hnone]

/-- C16 (extraction defaults). For a field whose selector matches no element of the document,
`seedData` stores the default of the type: the empty string for `text`, `rich_text`, `image`
and an unrecognized type, `0` for `number` and `boolean`, the timestamp of the clock for `date`.
For an element whose trimmed text is empty it stores the same, except for `rich_text`, where it
stores the inner markup, and for `image`, where it stores the `src` attribute, else the `href`
attribute, else the empty string. -/
theorem extractValue_defaults (w : World) (doc element : Node) (index : Nat) (row : Row)
    (field : Field) (sel : Selector) (n : Node)
    (hsel : parseSelector field.selector = some sel)
    (hnone : doc.select sel = []) (hfind : element.find sel = [])
    (hn : jsTrim n.textContent = "") :
    seedSingletonField w doc row field
      = some (row.set field.name (defaultValue w field.type)) ∧
    seedCollectionField w doc element index row field
      = some (row.set field.name (defaultValue w field.type)) ∧
    extractValue w field.type (some n) =
      (if field.type = "rich_text" then .str (w.innerHtml n.tag n.childNodes)
       else if field.type = "image" then
         (if n.attrOrEmpty "src" ≠ "" then .str (n.attrOrEmpty "src")
          else .str (n.attrOrEmpty "href"))
       else defaultValue w field.type) ∧
    (field.type ∉ ["text", "rich_text", "image", "number", "boolean", "date"] →
      ∀ e : Option Node, extractValue w field.type e = extractValue w "text" e) := by
  have hdef : extractValue w field.type none = defaultValue w field.type := by
    have e : jsTrim "" = "" := by decide
    simp only [extractValue, defaultValue, e]
    by_cases h1 : field.type = "text"
    · simp [h1]
    by_cases h2 : field.type = "rich_text"
    · simp [h2]
    by_cases h3 : field.type = "image"
    · simp [h3]
    by_cases h4 : field.type = "number"
    · simp [h4]
    by_cases h5 : field.type = "boolean"
    · have e2 : (¬ jsToLower "" = "true" ∧ ¬ jsToLower "" = "yes") ∧ ¬ jsToLower "" = "on" := by
        decide
      simpa [h5] using e2
    by_cases h6 : field.type = "date"
    · simp [h6]
    simp [h1, h2, h3, h4, h5, h6]
  refine ⟨?_, ?_, ?_, ?_⟩
  · simp only [seedSingletonField, hsel, hnone, List.head?_nil, hdef]
  · simp only [seedCollectionField, hsel, hnone, hfind, List.getElem?_nil, hdef]
  · simp only [extractValue, defaultValue, hn]
    by_cases h1 : field.type = "text"
    · simp [h1]
    by_cases h2 : field.type = "rich_text"
    · simp [h2]
    by_cases h3 : field.type = "image"
    · simp [h3]
    by_cases h4 : field.type = "number"
    · simp [h4]
    by_cases h5 : field.type = "boolean"
    · have e2 : (¬ jsToLower "" = "true" ∧ ¬ jsToLower "" = "yes") ∧ ¬ jsToLower "" = "on" := by
        decide
      simpa [h5] using e2
    by_cases h6 : field.type = "date"
    · simp [h6]
    simp [h1, h2, h3, h4, h5, h6]
  · intro hu e
    simp only [List.mem_cons, List.mem_singleton, not_or, List.mem_nil_iff, not_false_eq_true,
      and_true] at hu
    simp [extractValue, hu.1, hu.2.1, hu.2.2.1, hu.2.2.2.1, hu.2.2.2.2.1, hu.2.2.2.2.2]

theorem extractValue_defaults_witness :
    seedSingletonField plainWorld heroDoc [] priceField = some [("price", .num 0)] ∧
    seedCollectionField plainWorld heroDoc heroMain 0 [] priceField = some [("price", .num 0)] ∧
    extractValue plainWorld "number" (some blankParagraph) = .num 0 :=
  have h := extractValue_defaults plainWorld heroDoc heroMain 0 [] priceField
    [{ tag := some "span", classes := ["price"], attrs := [] }] blankParagraph
    (by decide) (by decide) (by decide) (by decide)
  ⟨h.1, h.2.1, h.2.2.1⟩

/-- C16, counterexample. An `img` element has no text, and the value stored for a field of
type `image` is its `src` attribute, not the empty string. -/
theorem image_without_text_has_value :
    logoImage.textContent = "" ∧
    extractValue plainWorld "image" (some logoImage) = .str "a.png" := by
  decide

/-- C17 (rich_text extraction). The value that `seedData` assigns for a field of type
`rich_text` is the inner markup of the located element as the serializer gives it, without
trimming, for a singleton and for a collection; it is the empty string when the selector
matches no element. For a field name other than `__proto__` the row then holds that value under
the name of the field. -/
theorem seed_rich_text (w : World) (doc element : Node) (index : Nat) (row : Row)
    (field : Field) (sel : Selector) (el item : Node) (rest : List Node)
    (htype : field.type = "rich_text")
    (hsel : parseSelector field.selector = some sel)
    (hel : (doc.select sel).head? = some el) (hfind : element.find sel = item :: rest) :
    seedSingletonField w doc row field
      = some (row.set field.name (.str (w.innerHtml el.tag el.childNodes))) ∧
    seedCollectionField w doc element index row field
      = some (row.set field.name (.str (w.innerHtml item.tag item.childNodes))) ∧
    extractValue w field.type none = .str "" ∧
    (field.name ≠ "__proto__" →
      (seedSingletonField w doc row field).map (fun r => r.get field.name)
        = some (.str (w.innerHtml el.tag el.childNodes)) ∧
      (seedCollectionField w doc element index row field).map (fun r => r.get field.name)
        = some (.str (w.innerHtml item.tag item.childNodes))) := by
  have h1 : seedSingletonField w doc row field
      = some (row.set field.name (.str (w.innerHtml el.tag el.childNodes))) := by
    simp [seedSingletonField, hsel, hel, extractValue, htype]
  have h2 : seedCollectionField w doc element index row field
      = some (row.set field.name (.str (w.innerHtml item.tag item.childNodes))) := by
    simp [seedCollectionField, hsel, hfind, extractValue, htype]
  refine ⟨h1, h2, ?_, ?_⟩
  · simp [extractValue, htype]
  · intro hname
    rw [h1, h2]
    simp only [Option.map_some', Row.get_set _ _ _ hname, and_self]

theorem seed_rich_text_witness :
    (seedSingletonField plainWorld paddedSection [] leadField).map
        (fun r => r.get leadField.name) = some (.str "  Hello world  ") ∧
    (seedCollectionField plainWorld paddedSection paddedSection 0 [] leadField).map
        (fun r => r.get leadField.name) = some (.str "  Hello world  ") :=
  have h := seed_rich_text plainWorld paddedSection paddedSection 0 [] leadField
    [{ tag := some "p", classes := ["lead"], attrs := [] }] paddedParagraph paddedParagraph []
    (by decide) (by decide) (by decide) (by decide)
  h.2.2.2 (by decide)

/-- C17, counterexample. The markup of `<p>  Hello world  </p>` is stored with its blanks. -/
theorem rich_text_keeps_outer_space :
    extractValue plainWorld "rich_text" (some paddedParagraph) = .str "  Hello world  " ∧
    jsTrim (plainWorld.innerHtml paddedParagraph.tag paddedParagraph.childNodes)
      = "Hello world" ∧
    extractValue plainWorld "rich_text" (some paddedParagraph)
      ≠ .str (jsTrim (plainWorld.innerHtml paddedParagraph.tag paddedParagraph.childNodes)) := by
  decide

theorem digitValue_ten (c : Char) :
    digitValue 10 c = if isDecimalDigit c then some (c.toNat - 48) else none := by
  simp only [digitValue, isDecimalDigit, Bool.and_eq_true, decide_eq_true_eq]
  by_cases h : 48 ≤ c.toNat ∧ c.toNat ≤ 57
  · rw [if_pos h, if_pos h, if_pos (by omega)]
  · rw [if_neg h, if_neg h]
    split
    · rw [if_neg (by omega)]
    · split
      · rw [if_neg (by omega)]
      · rw [if_neg (by omega)]

theorem parseDigits_ten : ∀ (cs : List Char) (acc : Option Nat),
    parseDigits 10 cs acc =
      if cs.takeWhile isDecimalDigit = [] then acc
      else some ((cs.takeWhile isDecimalDigit).foldl
        (fun a c => a * 10 + (c.toNat - 48)) (acc.getD 0))
  | [], acc => by simp [parseDigits]
  | c :: cs, acc => by
    rw [parseDigits, digitValue_ten]
    by_cases h : isDecimalDigit c = true
    · simp only [h, if_true, List.takeWhile_cons_of_pos, List.foldl_cons]
      rw [parseDigits_ten cs]
      by_cases h2 : cs.takeWhile isDecimalDigit = []
      · simp [h2]
      · simp [h2]
    · simp [h]

theorem dropWhile_of_prefix (l m t : List Char) (h : l ++ t = m.dropWhile isJsSpace) :
    l.dropWhile isJsSpace = l := by
  cases l with
  | nil => rfl
  | cons c cs =>
    have hm : m.dropWhile isJsSpace = c :: (cs ++ t) := by rw [← h]; rfl
    have := List.head_dropWhile_not isJsSpace m (by rw [hm]; simp)
    simp only [hm, List.head_cons] at this
    simp [List.dropWhile, this]

theorem jsTrim_dropWhile (s : String) :
    (jsTrim s).data.dropWhile isJsSpace = (jsTrim s).data := by
  obtain ⟨t, ht⟩ : (jsTrim s).data <+: s.data.dropWhile isJsSpace :=
    List.rdropWhile_prefix isJsSpace (s.data.dropWhile isJsSpace)
  exact dropWhile_of_prefix _ s.data t ht


theorem parseIntJs_trimmed (s : String) (hhex : hasHexPrefix (jsTrim s) = false) :
    (parseIntJs (jsTrim s)).getD 0 = leadingInteger (jsTrim s) := by
  have hhex2 : (startsWithChars ['0', 'x'] (unsignedPart (jsTrim s))
      || startsWithChars ['0', 'X'] (unsignedPart (jsTrim s))) = false := hhex
  simp only [parseIntJs, jsTrim_dropWhile, leadingInteger]
  rw [show (if ((jsTrim s).data.head? == some '-' || (jsTrim s).data.head? == some '+') = true
        then (jsTrim s).data.tail else (jsTrim s).data) = unsignedPart (jsTrim s) from rfl]
  simp only [hhex2, Bool.false_eq_true, if_false, parseDigits_ten]
  by_cases hrun : (unsignedPart (jsTrim s)).takeWhile isDecimalDigit = []
  · simp [hrun, decimalValue]
  · by_cases hneg : ((jsTrim s).data.head? == some '-') = true
    · simp [hrun, hneg, decimalValue]
    · simp [hrun, hneg, decimalValue]

/-- C18 (number extraction). For an element whose trimmed text does not start, after an
optional sign, with `0x` or `0X`, the value that `seedData` stores for a field of type `number`
is the integer denoted by the leading, optionally signed, run of decimal digits of the trimmed
text, as long as that integer is below `2 ^ 53` in absolute value, the range in which the
numbers of JavaScript are exact; it is `0` when the trimmed text is empty or does not start
with such a run, and when there is no element. -/
theorem extractValue_number (w : World) (n : Node)
    (hhex : hasHexPrefix (jsTrim n.textContent) = false)
    (_hbound : (leadingInteger (jsTrim n.textContent)).natAbs < 2 ^ 53) :
    extractValue w "number" (some n) = .num (leadingInteger (jsTrim n.textContent)) ∧
    ((unsignedPart (jsTrim n.textContent)).takeWhile isDecimalDigit = [] →
      extractValue w "number" (some n) = .num 0) ∧
    extractValue w "number" none = .num 0 := by
  have h1 : extractValue w "number" (some n) = .num (leadingInteger (jsTrim n.textContent)) := by
    have e : extractValue w "number" (some n)
        = if jsTrim n.textContent ≠ "" then .num ((parseIntJs (jsTrim n.textContent)).getD 0)
          else .num 0 := by
      simp [extractValue]
    rw [e]
    by_cases ht : jsTrim n.textContent = ""
    · rw [if_neg (by simpa using ht), ht]
      rfl
    · rw [if_pos ht, parseIntJs_trimmed _ hhex]
  refine ⟨h1, ?_, ?_⟩
  · intro hrun
    rw [h1]
    simp [leadingInteger, hrun, decimalValue]
  · have e : jsTrim "" = "" := by decide
    simp [extractValue, e]

theorem extractValue_number_witness :
    extractValue plainWorld "number" (some (priceTag " -42 items ")) = .num (-42) ∧
    extractValue plainWorld "number" (some (priceTag "12.50")) = .num 12 :=
  ⟨(extractValue_number plainWorld (priceTag " -42 items ") (by decide) (by decide)).1,
   (extractValue_number plainWorld (priceTag "12.50") (by decide) (by decide)).1⟩

/-- C18, counterexample. The text `0x1A` starts with the decimal digit `0`, and the value
stored is `26`: `parseInt` without a radix reads the text as hexadecimal. -/
theorem number_reads_hexadecimal :
    extractValue plainWorld "number" (some (priceTag "0x1A")) = .num 26 ∧
    leadingInteger (jsTrim (priceTag "0x1A").textContent) = 0 := by
  decide


/-! ## The render: writes of a record into the cloned item -/

/-- C19 (null write), the code at an input. For a record of a collection whose values are
`null`, `generatePreview` and `bakeHtml` take the `src` attribute away from the image of the
cloned item and put the text `null` into its heading. -/
theorem null_value_is_written_into_item :
    previewCollection plainWorld nullStore pictureDoc pictureCollection = some
      (.elem "html" [] [.elem "head" [] [], .elem "body" []
        [.elem "div" [("class", "cards")]
          [.elem "div" [("class", "card")] [.elem "img" [] [], heading "h3" "null"]]]]) ∧
    bakeCollection plainWorld nullStore pictureDoc pictureCollection = some
      (.elem "html" [] [.elem "head" [] [], .elem "body" []
        [.elem "div" [("class", "cards")]
          [.elem "div" [("class", "card")] [.elem "img" [] [], heading "h3" "null"]]]]) := by
  decide

theorem find?_class_map_src (v : String) : ∀ a : List (String × String),
    (a.map (fun kv => if kv.1 == "src" then ("src", v) else kv)).find? (fun kv => kv.1 == "class")
      = a.find? (fun kv => kv.1 == "class")
  | [] => rfl
  | x :: a => by
    rw [List.map_cons, List.find?_cons, List.find?_cons, find?_class_map_src v a]
    by_cases hx : x.1 = "src"
    · have h1 : (x.1 == "class") = false := by rw [hx]; decide
      have h2 : (("src" : String) == "class") = false := by decide
      simp only [hx, beq_self_eq_true, if_true, h2]
    · have h0 : (x.1 == "src") = false := by simpa using hx
      simp only [h0, Bool.false_eq_true, if_false]

theorem find?_class_filter_src : ∀ a : List (String × String),
    (a.filter (fun kv => kv.1 != "src")).find? (fun kv => kv.1 == "class")
      = a.find? (fun kv => kv.1 == "class")
  | [] => rfl
  | x :: a => by
    by_cases hx : x.1 = "src"
    · have h1 : ¬ (x.1 = "class") := by rw [hx]; decide
      simp [List.filter_cons, List.find?_cons, hx, h1, find?_class_filter_src a]
    · by_cases hc : x.1 = "class"
      · simp [List.filter_cons, List.find?_cons, hx, hc]
      · simp [List.filter_cons, List.find?_cons, hx, hc, find?_class_filter_src a]

theorem setChildNodes_shape (cs : List Node) (n : Node) : (n.setChildNodes cs).shape = n.shape := by
  cases n <;> rfl

theorem setAttr_src_shape (v : String) (n : Node) : (n.setAttr "src" v).shape = n.shape := by
  cases n with
  | text d => rfl
  | elem t a cs =>
    simp only [Node.shape, Node.setAttr, Node.isElem, Node.tag, Node.attr, Node.attrs]
    split
    · rw [find?_class_map_src]
    · have h2 : (("src" : String) == "class") = false := by decide
      simp [List.find?_append, h2]

theorem removeAttr_src_shape (n : Node) : (n.removeAttr "src").shape = n.shape := by
  cases n with
  | text d => rfl
  | elem t a cs =>
    simp only [Node.shape, Node.removeAttr, Node.isElem, Node.tag, Node.attr, Node.attrs]
    rw [find?_class_filter_src]

theorem updateElement_shape (w : World) (field : Field) (v : Value) (n m : Node)
    (h : updateElement w field v n = some m) : m.shape = n.shape := by
  unfold updateElement at h
  split at h
  · cases v with
    | undefined => simp [cheerioAttr] at h; rw [← h]
    | null => simp [cheerioAttr] at h; rw [← h]; exact removeAttr_src_shape n
    | str s => simp [cheerioAttr] at h; rw [← h]; exact setAttr_src_shape _ n
    | num k =>
      simp only at h
      split at h
      · simp [cheerioAttr] at h; rw [← h]; exact setAttr_src_shape _ n
      · simp at h
  · split at h
    · simp only [Option.some.injEq] at h
      rw [← h]
      cases v <;> simp [cheerioHtml, setChildNodes_shape]
    · simp only [Option.some.injEq] at h
      rw [← h]
      cases v <;> simp [cheerioText, setChildNodes_shape]

theorem previewItemField_shape (w : World) (row : Row) (item item2 : Node) (field : Field)
    (h : previewItemField w row item field = some item2) : item2.shape = item.shape := by
  unfold previewItemField at h
  split at h
  · split at h
    · rename_i p _ _
      split at h
      · rename_i el hel
        cases hu : updateElement w field (row.get field.name) el with
        | none => rw [hu] at h; simp at h
        | some el2 =>
          rw [hu] at h
          simp only [Option.map_some', Option.some.injEq] at h
          rw [← h]
          cases p with
          | nil =>
            simp only [Node.get?, Option.some.injEq] at hel
            subst hel
            simpa [Node.modifyAt] using updateElement_shape w field _ _ _ hu
          | cons i p => cases item <;> rfl
      · simp at h
    · simp only [Option.some.injEq] at h; rw [← h]
  · simp at h

theorem previewItem_shape (w : World) (row : Row) : ∀ (fields : List Field) (template item : Node),
    previewItem w fields template row = some item → item.shape = template.shape := by
  intro fields
  induction fields with
  | nil => intro a b h; simp [previewItem] at h; rw [h]
  | cons f fs ih =>
    intro a b h
    simp only [previewItem, List.foldlM_cons] at h
    cases hs : previewItemField w row a f with
    | none => rw [hs] at h; simp at h
    | some c => rw [hs] at h; exact (ih c b h).trans (previewItemField_shape w row a c f hs)

theorem holds_of_shape (s : String) (sel : Selector) (a b : Node)
    (hsel : parseSelector s = some sel) (hab : a.shape = b.shape) : sel.holds a = sel.holds b := by
  simp only [Node.shape, Prod.mk.injEq] at hab
  obtain ⟨h1, h2, h3⟩ := hab
  unfold parseSelector at hsel
  split at hsel
  · simp at hsel
  · split at hsel
    · simp only [Option.some.injEq] at hsel
      subst hsel
      simp only [Selector.holds, List.any_cons, List.any_nil, Compound.holds, h1, h2,
        Node.hasClass, h3, List.all_nil]
    · simp at hsel

theorem mem_splitOnChar (sep : Char) : ∀ (cs : List Char) (c : Char), c ∈ cs →
    c = sep ∨ ∃ t ∈ splitOnChar sep cs, c ∈ t
  | [], _, h => by simp at h
  | x :: cs, c, h => by
    by_cases hx : x = sep
    · rcases List.mem_cons.mp h with rfl | h
      · exact Or.inl hx
      · rcases mem_splitOnChar sep cs c h with e | ⟨t, ht, hc⟩
        · exact Or.inl e
        · exact Or.inr ⟨t, by simp [splitOnChar, hx, ht], hc⟩
    · cases hs : splitOnChar sep cs with
      | nil =>
        rcases List.mem_cons.mp h with rfl | h
        · exact Or.inr ⟨[c], by simp [splitOnChar, hx, hs], by simp⟩
        · rcases mem_splitOnChar sep cs c h with e | ⟨t, ht, hc⟩
          · exact Or.inl e
          · rw [hs] at ht; simp at ht
      | cons u us =>
        rcases List.mem_cons.mp h with rfl | h
        · exact Or.inr ⟨c :: u, by simp [splitOnChar, hx, hs], by simp⟩
        · rcases mem_splitOnChar sep cs c h with e | ⟨t, ht, hc⟩
          · exact Or.inl e
          · rw [hs] at ht
            rcases List.mem_cons.mp ht with rfl | ht
            · exact Or.inr ⟨x :: t, by simp [splitOnChar, hx, hs], by simp [hc]⟩
            · exact Or.inr ⟨t, by simp [splitOnChar, hx, hs, ht], hc⟩

/-- A selector of the modelled fragment has no blank, so that it is its own last part. -/
theorem parseSelector_lastPart (s : String) (sel : Selector) (hsel : parseSelector s = some sel) :
    lastPart s = s := by
  have hno : ' ' ∉ s.data := by
    intro hm
    unfold parseSelector at hsel
    split at hsel
    · simp at hsel
    · rename_i tagPart classParts hsplit
      split at hsel
      · rename_i hcond
        simp only [Bool.and_eq_true, List.all_eq_true] at hcond
        rcases mem_splitOnChar '.' s.data ' ' hm with e | ⟨t, ht, hc⟩
        · exact absurd e (by decide)
        · rw [hsplit] at ht
          rcases List.mem_cons.mp ht with rfl | ht
          · exact absurd (hcond.1.1 ' ' hc) (by decide)
          · have := hcond.1.2 t ht
            simp only [Bool.and_eq_true, List.all_eq_true] at this
            exact absurd (this.2 ' ' hc) (by decide)
      · simp at hsel
  unfold lastPart
  rw [splitOnChar_of_not_mem ' ' s.data hno]
  rfl

theorem findPaths_eq_nil (n : Node) (sel : Selector) (h : n.find sel = []) :
    n.findPaths sel = [] := by
  have hget := findPaths_get? n sel
  rw [h] at hget
  cases hp : n.findPaths sel with
  | nil => rfl
  | cons p ps =>
    have hmem : p ∈ n.findPaths sel := by rw [hp]; simp
    have hat : n.holdsAt sel p = true := by
      unfold Node.findPaths at hmem
      exact (List.mem_filter.mp hmem).2
    unfold Node.holdsAt at hat
    cases hg : n.get? p with
    | none => rw [hg] at hat; simp at hat
    | some m =>
      rw [hp, List.filterMap_cons, hg] at hget
      simp at hget

theorem foldlM_append_singleton {α β : Type} (f : β → α → Option β) (l : List α) (a : α)
    (b c : β) (h : l.foldlM f b = some c) : (l ++ [a]).foldlM f b = f c a := by
  rw [List.foldlM_append, h]
  simp

/-- C20 (selector fallback to the scope element). Take a field of a collection whose selector
is matched by the template item itself, as it stands in the source document, and suppose that
the cloned item, as it stands after the writes of the earlier fields of the record, has no
descendant that matches the selector. Then the step of `generatePreview` for this field writes
the value of the record into the cloned item itself: the clone after this field is the result
of `updateElement` on the whole clone. -/
theorem previewItem_scope (w : World) (pre : List Field) (field : Field)
    (template item : Node) (row : Row) (sel : Selector)
    (hsel : parseSelector field.selector = some sel)
    (hpre : previewItem w pre template row = some item)
    (hself : sel.holds template = true)
    (hnone : item.find sel = []) :
    previewItemField w row item field = updateElement w field (row.get field.name) item ∧
    previewItem w (pre ++ [field]) template row
      = updateElement w field (row.get field.name) item := by
  have hitem : sel.holds item = true := by
    rw [holds_of_shape field.selector sel item template hsel
      (previewItem_shape w row pre template item hpre)]
    exact hself
  have hpaths : item.findPaths sel = [] := findPaths_eq_nil item sel hnone
  have hstep : previewItemField w row item field
      = updateElement w field (row.get field.name) item := by
    have htargets : fieldTargets item field = some [] := by
      simp only [fieldTargets, hsel, hpaths, List.isEmpty_nil, if_true,
        parseSelector_lastPart field.selector sel hsel]
    simp only [previewItemField, htargets, hsel, List.isEmpty_nil, hitem, Bool.and_self,
      if_true, Node.get?]
    cases updateElement w field (row.get field.name) item <;> simp [Node.modifyAt]
  exact ⟨hstep, by
    unfold previewItem
    rw [foldlM_append_singleton _ _ _ _ _ hpre]
    exact hstep⟩

theorem previewItem_scope_witness :
    previewItem plainWorld [labelField] itemBox boxRow
      = some (.elem "div" [("class", "item")] [.text "Hi"]) :=
  (previewItem_scope plainWorld [] labelField itemBox itemBox boxRow [{ tag := some "div", classes := ["item"], attrs := [] }]
    (by decide) (by decide) (by decide) (by decide)).2

/-- C20, counterexample. The selector `div.item` is matched by the template item itself and by
none of its descendants; the first field of the record puts a `div` with the class `item` into
the clone, and the value of the second field is written into that descendant, not into the
cloned item itself. -/
theorem earlier_write_takes_the_value :
    (parseSelector "div.item").map (fun sel => (sel.holds itemBox, itemBox.find sel))
      = some (true, []) ∧
    previewItem markupWorld boxFields itemBox boxRow
      = some (.elem "div" [("class", "item")]
          [.elem "div" [("class", "item")] [.text "Hi"]]) ∧
    previewItem markupWorld boxFields itemBox boxRow
      ≠ some (.elem "div" [("class", "item")] [.text "Hi"]) := by
  decide


/-! ## The render: the template item and its parent -/

theorem closest_snoc (root : Node) (s : Selector) (p : Path) (a : Nat) :
    root.closest s (p ++ [a])
      = if root.holdsAt s (p ++ [a]) = true then some (p ++ [a]) else root.closest s p := by
  unfold Node.closest
  rw [List.inits_append]
  simp only [List.inits, List.tail_cons, List.map_cons, List.map_nil, List.reverse_append,
    List.reverse_cons, List.reverse_nil, List.nil_append, List.singleton_append, List.find?_cons]
  cases root.holdsAt s (p ++ [a]) <;> simp

theorem closest_nil (root : Node) (s : Selector) :
    root.closest s [] = if root.holdsAt s [] = true then some [] else none := by
  unfold Node.closest
  simp only [List.inits, List.reverse_cons, List.reverse_nil, List.nil_append, List.find?_cons,
    List.find?_nil]
  cases root.holdsAt s [] <;> simp

/-- The result of `closest` is the longest initial segment of the path at which the selector
holds. -/
theorem closest_some (root : Node) (s : Selector) : ∀ (p q : Path), root.closest s p = some q →
    q <+: p ∧ root.holdsAt s q = true ∧
    ∀ r, r <+: p → root.holdsAt s r = true → r.length ≤ q.length := by
  intro p
  induction p using List.reverseRecOn with
  | nil =>
    intro q h
    rw [closest_nil] at h
    split at h
    · rename_i hh
      simp only [Option.some.injEq] at h
      subst h
      exact ⟨List.prefix_refl _, hh, fun r hr _ => by simp [List.prefix_nil.mp hr]⟩
    · simp at h
  | append_singleton p a ih =>
    intro q h
    rw [closest_snoc] at h
    split at h
    · rename_i hh
      simp only [Option.some.injEq] at h
      subst h
      exact ⟨List.prefix_refl _, hh, fun r hr _ => hr.length_le⟩
    · rename_i hh
      obtain ⟨h1, h2, h3⟩ := ih q h
      refine ⟨h1.trans (List.prefix_append _ _), h2, ?_⟩
      intro r hr hrh
      rcases List.prefix_concat_iff.mp hr with e | hr2
      · rw [e] at hrh; exact absurd hrh hh
      · exact h3 r hr2 hrh

theorem closest_none (root : Node) (s : Selector) : ∀ (p : Path), root.closest s p = none →
    ∀ r, r <+: p → root.holdsAt s r = false := by
  intro p
  induction p using List.reverseRecOn with
  | nil =>
    intro h r hr
    rw [closest_nil] at h
    split at h
    · simp at h
    · rename_i hh
      rw [List.prefix_nil.mp hr]
      simpa using hh
  | append_singleton p a ih =>
    intro h r hr
    rw [closest_snoc] at h
    split at h
    · simp at h
    · rename_i hh
      rcases List.prefix_concat_iff.mp hr with e | hr2
      · rw [e]; simpa using hh
      · exact ih h r hr2

/-- C21 (template item choice). In `generatePreview` and in `bakeHtml` the node cloned as the
template is the node at `templateItemPath` of the first match of the first field's selector.
That path is the nearest of the first match and its ancestors that matches the item-container
selector: when the first match itself matches, it is the first match, also when an ancestor
matches too; when none of them matches, it is the first match. -/
theorem templateItemPath_nearest (w : World) (store : Store) (doc template : Node)
    (collection : Entry) (row : Row) (rows : List Row) (first : Field) (rest : List Field)
    (sel : Selector) (firstMatch : Path) (others : List Path)
    (hstore : store (sanitize collection.name) = some (row :: rows))
    (hfields : collection.fields = first :: rest)
    (hsel : parseSelector first.selector = some sel)
    (hmatch : doc.selectPaths sel = firstMatch :: others)
    (htemplate : doc.get? (templateItemPath doc firstMatch) = some template) :
    previewCollection w store doc collection
      = ((row :: rows).mapM (previewItem w collection.fields template)).map
          (replaceItems doc (templateItemPath doc firstMatch)) ∧
    bakeCollection w store doc collection
      = ((row :: rows).mapM (bakeItem w collection.fields template)).map
          (replaceItems doc (templateItemPath doc firstMatch)) ∧
    templateItemPath doc firstMatch <+: firstMatch ∧
    (∀ q, q <+: firstMatch → doc.holdsAt itemContainers q = true →
      doc.holdsAt itemContainers (templateItemPath doc firstMatch) = true ∧
      q.length ≤ (templateItemPath doc firstMatch).length) ∧
    (doc.holdsAt itemContainers firstMatch = true → templateItemPath doc firstMatch = firstMatch) ∧
    ((∀ q, q <+: firstMatch → doc.holdsAt itemContainers q = false) →
      templateItemPath doc firstMatch = firstMatch) := by
  refine ⟨?_, ?_, ?_, ?_, ?_, ?_⟩
  · simp only [previewCollection, hstore, hfields, hsel, hmatch, htemplate]
  · simp only [bakeCollection, hstore, hfields, hsel, hmatch, htemplate]
  · unfold templateItemPath
    cases h : doc.closest itemContainers firstMatch with
    | none => exact List.prefix_refl _
    | some t => exact (closest_some doc _ firstMatch t h).1
  · intro q hq hqh
    unfold templateItemPath
    cases h : doc.closest itemContainers firstMatch with
    | none => rw [closest_none doc _ firstMatch h q hq] at hqh; simp at hqh
    | some t =>
      obtain ⟨_, h2, h3⟩ := closest_some doc _ firstMatch t h
      exact ⟨h2, h3 q hq hqh⟩
  · intro hself
    unfold templateItemPath
    cases h : doc.closest itemContainers firstMatch with
    | none => rfl
    | some t =>
      obtain ⟨h1, _, h3⟩ := closest_some doc _ firstMatch t h
      exact h1.eq_of_length_le (h3 firstMatch (List.prefix_refl _) hself)
  · intro hall
    unfold templateItemPath
    cases h : doc.closest itemContainers firstMatch with
    | none => rfl
    | some t =>
      obtain ⟨h1, h2, _⟩ := closest_some doc _ firstMatch t h
      rw [hall t h1] at h2
      simp at h2

theorem templateItemPath_nearest_witness :
    templateItemPath testimonialDoc [1, 1, 0, 0] = [1, 1, 0] ∧
    testimonialDoc.holdsAt itemContainers (templateItemPath testimonialDoc [1, 1, 0, 0]) = true ∧
    [1, 1, 0].length ≤ (templateItemPath testimonialDoc [1, 1, 0, 0]).length :=
  ⟨by decide,
   (templateItemPath_nearest plainWorld editedStore testimonialDoc
      (testimonialItem "Ann" "Ann was very happy.") testimonialCollection
      [("title", .str "First"), ("description", .str "First description")]
      [[("title", .str "Second"), ("description", .str "Second description")]]
      nameField [contentField] selNameField [1, 1, 0, 0] [[1, 1, 1, 0], [1, 1, 2, 0]]
      rfl rfl (by decide) (by decide) (by decide)).2.2.2.1 [1, 1, 0] (by decide) (by decide)⟩

/-- C21, counterexample. The first match of `h3.card-title` in `titleDoc` has the ancestor
`div.card`, which matches the item-container selector; the template item is nevertheless the
heading itself, whose class `card-title` contains `card`. -/
theorem template_item_is_the_match_itself :
    titleDoc.selectPaths [{ tag := some "h3", classes := ["card-title"], attrs := [] }]
      = [[1, 0, 0]] ∧
    titleDoc.holdsAt itemContainers [1, 0] = true ∧
    templateItemPath titleDoc [1, 0, 0] = [1, 0, 0] := by
  decide

theorem modifyNth_getElem?_ne (f : Node → Node) : ∀ (l : List Node) (i j : Nat), i ≠ j →
    (modifyNth f i l)[j]? = l[j]?
  | [], _, _, _ => by simp [modifyNth]
  | a :: l, 0, 0, h => absurd rfl h
  | a :: l, 0, j + 1, _ => by simp [modifyNth]
  | a :: l, i + 1, 0, _ => by simp [modifyNth]
  | a :: l, i + 1, j + 1, h => by
    simp only [modifyNth, List.getElem?_cons_succ]
    exact modifyNth_getElem?_ne f l i j (by omega)

/-- A write at a path leaves the nodes at the paths that branch off it as they were. -/
theorem get?_modifyAt_branch (f : Node → Node) : ∀ (p q : Path) (n : Node),
    ¬ p <+: q → ¬ q <+: p → (n.modifyAt f p).get? q = n.get? q
  | [], q, _, h, _ => absurd (List.nil_prefix) h
  | _ :: _, [], _, _, h => absurd (List.nil_prefix) h
  | i :: p, j :: q, .text d, _, _ => rfl
  | i :: p, j :: q, .elem t a cs, h1, h2 => by
    simp only [Node.modifyAt, Node.get?]
    by_cases hij : i = j
    · subst hij
      rw [modifyNth_getElem?]
      cases hc : cs[i]? with
      | none => rfl
      | some c =>
        simp only [Option.map_some']
        exact get?_modifyAt_branch f p q c
          (fun hp => h1 ((List.prefix_cons_inj i).mpr hp))
          (fun hq => h2 ((List.prefix_cons_inj i).mpr hq))
    · rw [modifyNth_getElem?_ne _ cs i j hij]

theorem replaceItems_parent (doc : Node) (templatePath : Path) (items : List Node)
    (t : String) (a : List (String × String)) (cs : List Node)
    (hroot : templatePath ≠ [])
    (hparent : doc.get? templatePath.dropLast = some (.elem t a cs)) :
    (replaceItems doc templatePath items).get? templatePath.dropLast = some (.elem t a items) ∧
    ∀ q, ¬ templatePath.dropLast <+: q → ¬ q <+: templatePath.dropLast →
      (replaceItems doc templatePath items).get? q = doc.get? q := by
  have hne : templatePath.isEmpty = false := by
    cases templatePath with
    | nil => exact absurd rfl hroot
    | cons _ _ => rfl
  unfold replaceItems
  simp only [hne, Bool.false_eq_true, if_false]
  exact ⟨get?_modifyAt _ _ _ _ hparent, fun q h1 h2 => get?_modifyAt_branch _ _ q doc h1 h2⟩

/-- C22 (the parent of the template item). When a collection is rendered, the parent of the
template item keeps its tag and its attributes and gets the filled clones as its child nodes:
every node that it held before, item of the collection or not, is taken out. The nodes at the
paths that branch off the path of the parent are as they were. This holds for `generatePreview`
and for `bakeHtml`. -/
theorem render_empties_parent (w : World) (store : Store) (doc template : Node)
    (collection : Entry) (row : Row) (rows : List Row) (first : Field) (rest : List Field)
    (sel : Selector) (firstMatch : Path) (others : List Path)
    (parentTag : String) (parentAttrs : List (String × String)) (siblings : List Node)
    (hstore : store (sanitize collection.name) = some (row :: rows))
    (hfields : collection.fields = first :: rest)
    (hsel : parseSelector first.selector = some sel)
    (hmatch : doc.selectPaths sel = firstMatch :: others)
    (hroot : templateItemPath doc firstMatch ≠ [])
    (htemplate : doc.get? (templateItemPath doc firstMatch) = some template)
    (hparent : doc.get? (templateItemPath doc firstMatch).dropLast
      = some (.elem parentTag parentAttrs siblings)) :
    (∀ items, (row :: rows).mapM (previewItem w collection.fields template) = some items →
      ∃ doc2, previewCollection w store doc collection = some doc2 ∧
        doc2.get? (templateItemPath doc firstMatch).dropLast
          = some (.elem parentTag parentAttrs items) ∧
        ∀ q, ¬ (templateItemPath doc firstMatch).dropLast <+: q →
          ¬ q <+: (templateItemPath doc firstMatch).dropLast → doc2.get? q = doc.get? q) ∧
    (∀ items, (row :: rows).mapM (bakeItem w collection.fields template) = some items →
      ∃ doc2, bakeCollection w store doc collection = some doc2 ∧
        doc2.get? (templateItemPath doc firstMatch).dropLast
          = some (.elem parentTag parentAttrs items) ∧
        ∀ q, ¬ (templateItemPath doc firstMatch).dropLast <+: q →
          ¬ q <+: (templateItemPath doc firstMatch).dropLast → doc2.get? q = doc.get? q) := by
  constructor
  · intro items hitems
    refine ⟨replaceItems doc (templateItemPath doc firstMatch) items, ?_,
      replaceItems_parent doc _ items parentTag parentAttrs siblings hroot hparent⟩
    simp only [previewCollection, hstore, hfields, hsel, hmatch, htemplate]
    rw [← hfields, hitems]
    rfl
  · intro items hitems
    refine ⟨replaceItems doc (templateItemPath doc firstMatch) items, ?_,
      replaceItems_parent doc _ items parentTag parentAttrs siblings hroot hparent⟩
    simp only [bakeCollection, hstore, hfields, hsel, hmatch, htemplate]
    rw [← hfields, hitems]
    rfl

theorem render_empties_parent_witness :
    (previewCollection plainWorld editedStore headedDoc cardCollection).bind
        (fun d => d.get? [1, 0])
      = some (.elem "div" [("class", "cards")] [card "First", card "Second"]) := by
  obtain ⟨doc2, h1, h2, _⟩ := (render_empties_parent plainWorld editedStore headedDoc
    (card "One") cardCollection
    [("title", .str "First"), ("description", .str "First description")]
    [[("title", .str "Second"), ("description", .str "Second description")]]
    { name := "title", type := "text", selector := "h3", required := false } []
    [selTag "h3"] [1, 0, 1, 0] [[1, 0, 2, 0]] "div" [("class", "cards")]
    [heading "h2" "Our cards", card "One", card "Two"]
    rfl rfl (by decide) (by decide) (by decide) (by decide) (by decide)).1
    [card "First", card "Second"] (by decide)
  rw [h1]
  exact h2

/-- C22, counterexample. The heading of `headedDoc` is a child of the parent of the cards and
is no card; after the render the parent holds the two clones only. -/
theorem render_removes_other_children :
    (headedDoc.get? [1, 0]).map Node.childNodes
      = some [heading "h2" "Our cards", card "One", card "Two"] ∧
    (previewCollection plainWorld editedStore headedDoc cardCollection).bind
        (fun d => (d.get? [1, 0]).map Node.childNodes)
      = some [card "First", card "Second"] ∧
    (bakeCollection plainWorld editedStore headedDoc cardCollection).bind
        (fun d => (d.get? [1, 0]).map Node.childNodes)
      = some [card "First", card "Second"] ∧
    heading "h2" "Our cards" ∉ [card "First", card "Second"] := by
  decide


/-! ## Preview and export -/

theorem holdsAt_some (root : Node) (s : Selector) (p : Path) (h : root.holdsAt s p = true) :
    ∃ m, root.get? p = some m ∧ s.holds m = true := by
  unfold Node.holdsAt at h
  cases hg : root.get? p with
  | none => rw [hg] at h; simp at h
  | some m => rw [hg] at h; exact ⟨m, rfl, h⟩

theorem modifyNth_congr (f g : Node → Node) : ∀ (l : List Node) (i : Nat),
    (∀ c, l[i]? = some c → f c = g c) → modifyNth f i l = modifyNth g i l
  | [], _, _ => by simp [modifyNth]
  | a :: l, 0, h => by simp [modifyNth, h a (by simp)]
  | a :: l, i + 1, h => by
    simp only [modifyNth]
    rw [modifyNth_congr f g l i (fun c hc => h c (by simpa using hc))]

/-- Putting the written element in the place of the element at a path is the write at that
path. -/
theorem modifyAt_const (f : Node → Node) : ∀ (p : Path) (n el : Node), n.get? p = some el →
    n.modifyAt (fun _ => f el) p = n.modifyAt f p
  | [], n, el, h => by
    simp only [Node.get?, Option.some.injEq] at h
    simp [Node.modifyAt, h]
  | i :: p, .text d, el, h => by simp [Node.get?] at h
  | i :: p, .elem t a cs, el, h => by
    simp only [Node.modifyAt]
    congr 1
    apply modifyNth_congr
    intro c hc
    simp only [Node.get?, hc] at h
    exact modifyAt_const f p c el h

/-- The write of `updateElement` is the write of `bakeHtml` unless the field is an image whose
value is a string that the asset resolution changes or a number other than zero. -/
theorem updateElement_eq_bakeWrite (w : World) (field : Field) (v : Value) (el : Node)
    (h : field.type = "image" → plainValue w v) :
    updateElement w field v el = some (bakeWrite w field v el) := by
  unfold updateElement bakeWrite
  by_cases hi : field.type = "image"
  · have hr : ¬ field.type = "rich_text" := by rw [hi]; decide
    obtain ⟨hres, hnum⟩ := h hi
    rw [if_pos hi, if_neg hr, if_pos hi]
    cases v with
    | undefined => rfl
    | null => rfl
    | str s => simp [hres s rfl]
    | num n => simp [hnum n rfl]
  · rw [if_neg hi]
    by_cases hr : field.type = "rich_text"
    · rw [if_pos hr, if_pos hr]
    · rw [if_neg hr, if_neg hr, if_neg hi]

theorem foldlM_congr {α β : Type} (f g : β → α → Option β) : ∀ (l : List α) (b : β),
    (∀ x ∈ l, ∀ d, f d x = g d x) → l.foldlM f b = l.foldlM g b
  | [], _, _ => rfl
  | x :: l, b, h => by
    simp only [List.foldlM_cons]
    rw [h x (by simp) b]
    cases g b x with
    | none => rfl
    | some c => exact foldlM_congr f g l c (fun y hy d => h y (by simp [hy]) d)

theorem previewSingletonField_eq (w : World) (row : Row) (doc : Node) (field : Field)
    (h : field.type = "image" → plainValue w (row.get field.name)) :
    previewSingletonField w row doc field = bakeSingletonField w row doc field := by
  unfold previewSingletonField bakeSingletonField
  split
  · rfl
  · cases hs : parseSelector field.selector with
    | none => rfl
    | some sel =>
      simp only
      cases hp : doc.selectPaths sel with
      | nil => rfl
      | cons p ps =>
        simp only
        have hmem : p ∈ doc.selectPaths sel := by rw [hp]; simp
        have hat : doc.holdsAt sel p = true := by
          unfold Node.selectPaths at hmem
          exact (List.mem_filter.mp hmem).2
        obtain ⟨el, hel, _⟩ := holdsAt_some doc sel p hat
        simp only [hel, updateElement_eq_bakeWrite w field _ el h, Option.map_some',
          modifyAt_const _ p doc el hel]

theorem previewItemField_eq (w : World) (row : Row) (item : Node) (field : Field)
    (sel : Selector) (targets : List Path)
    (hsel : parseSelector field.selector = some sel)
    (htargets : fieldTargets item field = some targets)
    (hone : targets.length ≤ 1)
    (hself : targets = [] → sel.holds item = false)
    (h : field.type = "image" → plainValue w (row.get field.name)) :
    previewItemField w row item field = bakeItemField w row item field := by
  unfold previewItemField bakeItemField
  simp only [htargets, hsel, Option.map_some']
  cases targets with
  | nil => simp [hself rfl]
  | cons p ps =>
    have hps : ps = [] := by
      cases ps with
      | nil => rfl
      | cons _ _ => simp at hone
    subst hps
    have hat : item.holdsAt sel p = true ∨
        ∃ sel2, item.holdsAt sel2 p = true := by
      unfold fieldTargets at htargets
      rw [hsel] at htargets
      simp only at htargets
      split at htargets
      · cases hl : parseSelector (lastPart field.selector) with
        | none => rw [hl] at htargets; simp at htargets
        | some sel2 =>
          rw [hl] at htargets
          simp only [Option.some.injEq] at htargets
          have hmem : p ∈ item.findPaths sel2 := by rw [htargets]; simp
          unfold Node.findPaths at hmem
          exact Or.inr ⟨sel2, (List.mem_filter.mp hmem).2⟩
      · simp only [Option.some.injEq] at htargets
        have hmem : p ∈ item.findPaths sel := by rw [htargets]; simp
        unfold Node.findPaths at hmem
        exact Or.inl (List.mem_filter.mp hmem).2
    obtain ⟨el, hel⟩ : ∃ el, item.get? p = some el := by
      rcases hat with hat | ⟨sel2, hat⟩
      · obtain ⟨el, hel, _⟩ := holdsAt_some item sel p hat
        exact ⟨el, hel⟩
      · obtain ⟨el, hel, _⟩ := holdsAt_some item sel2 p hat
        exact ⟨el, hel⟩
    simp only [List.isEmpty_cons, Bool.false_and, Bool.false_eq_true, if_false, hel,
      updateElement_eq_bakeWrite w field _ el h, Option.map_some', List.reverse_cons,
      List.reverse_nil, List.nil_append, List.foldl_cons, List.foldl_nil,
      modifyAt_const _ p item el hel]

/-- C23 (preview and export). Suppose that the value stored for every image field of a
singleton is written by `updateElement` as it is: a string that the asset resolution leaves
alone, `null`, `undefined` or zero. Then the singleton pass of `generatePreview` and that of
`bakeHtml` give the same document, and for a schema without collections the injection of
`generatePreview` is `bakeHtml`. For a field of a collection the two renders give the same
clone when the field's selector, or its last part, matches at most one descendant of the clone
and, if it matches none, the clone itself does not match it. -/
theorem preview_matches_export (w : World) (store : Store) (schema : Schema) (doc : Node)
    (hvalues : ∀ e ∈ schema.singletons, ∀ row rows, store (sanitize e.name) = some (row :: rows) →
      ∀ f ∈ e.fields, f.type = "image" → plainValue w (row.get f.name)) :
    schema.singletons.foldlM (previewSingleton w store) doc
      = schema.singletons.foldlM (bakeSingleton w store) doc ∧
    (schema.collections = [] → injectPreview w store schema doc = bakeHtml w store schema doc) ∧
    (∀ (row : Row) (item : Node) (field : Field) (sel : Selector) (targets : List Path),
      parseSelector field.selector = some sel → fieldTargets item field = some targets →
      targets.length ≤ 1 → (targets = [] → sel.holds item = false) →
      (field.type = "image" → plainValue w (row.get field.name)) →
      previewItemField w row item field = bakeItemField w row item field) := by
  have hsing : ∀ d, schema.singletons.foldlM (previewSingleton w store) d
      = schema.singletons.foldlM (bakeSingleton w store) d := by
    intro d
    apply foldlM_congr
    intro e he d2
    unfold previewSingleton bakeSingleton
    cases hst : store (sanitize e.name) with
    | none => rfl
    | some rows =>
      cases rows with
      | nil => rfl
      | cons row rows =>
        simp only
        apply foldlM_congr
        intro f hf d3
        exact previewSingletonField_eq w row d3 f (hvalues e he row rows hst f hf)
  refine ⟨hsing doc, ?_, ?_⟩
  · intro hc
    unfold injectPreview bakeHtml
    rw [hsing doc, hc]
    cases schema.singletons.foldlM (bakeSingleton w store) doc <;> rfl
  · intro row item field sel targets hsel htargets hone hself h
    exact previewItemField_eq w row item field sel targets hsel htargets hone hself h

theorem preview_matches_export_witness :
    testimonialSchema.singletons.foldlM (previewSingleton plainWorld editedStore) testimonialDoc
      = testimonialSchema.singletons.foldlM (bakeSingleton plainWorld editedStore)
          testimonialDoc :=
  (preview_matches_export plainWorld editedStore testimonialSchema testimonialDoc
    (by
      intro e he row rows _ f hf hi
      simp only [testimonialSchema, List.mem_singleton] at he
      subst he
      simp only [List.mem_singleton] at hf
      subst hf
      exact absurd hi (by decide))).1

/-- C23, counterexample. In a card with two headings the selector `h3` has two targets: the
preview writes the title into the first of them, the export into both. -/
theorem preview_writes_first_export_all :
    (previewCollection plainWorld newStore twoHeadingDoc cardCollection).bind
        (fun d => (d.get? [1, 0]).map Node.childNodes)
      = some [twoHeadingCard "New" "Two"] ∧
    (bakeCollection plainWorld newStore twoHeadingDoc cardCollection).bind
        (fun d => (d.get? [1, 0]).map Node.childNodes)
      = some [twoHeadingCard "New" "New"] ∧
    injectPreview plainWorld newStore { collections := [cardCollection], singletons := [] }
        twoHeadingDoc
      ≠ bakeHtml plainWorld newStore { collections := [cardCollection], singletons := [] }
        twoHeadingDoc := by
  decide


/-! ## Asset paths -/

theorem attr_setAttr (name v : String) (t : String) (a : List (String × String))
    (cs : List Node) : ((Node.elem t a cs).setAttr name v).attr name = some v := by
  simp only [Node.setAttr, Node.attr, Node.attrs]
  by_cases h : a.any (fun kv => kv.1 == name) = true
  · rw [if_pos h]
    induction a with
    | nil => simp at h
    | cons x xs ih =>
      by_cases hx : x.1 = name
      · simp [List.find?, hx]
      · have hx2 : (x.1 == name) = false := by simpa using hx
        simp only [List.any_cons, hx2, Bool.false_or] at h
        simp only [List.map_cons, hx2, Bool.false_eq_true, if_false, List.find?_cons]
        exact ih h
  · rw [if_neg h]
    have hnone : a.find? (fun kv => kv.1 == name) = none := by
      rw [List.find?_eq_none]
      intro x hx hk
      exact h (List.any_eq_true.mpr ⟨x, hx, hk⟩)
    simp [List.find?_append, hnone]

/-- C24 (asset path resolution). For an image field and a string value `v`, `updateElement`
sets the `src` attribute of the element to `resolveAssetPath w v`. That path is `v` when the
file `v` exists under the upload directory; it is the base name of `v` when `v` is relative
(not empty and starting with none of `http`, `//` and `/`), the file `v` does not exist and the
file of its base name does; it is `v` when the file of the base name does not exist. It is
always `v` or the base name of `v`, and a value that starts with `http`, `//` or `/` is written
as it is. -/
theorem updateElement_image_path (w : World) (field : Field) (v : String) (t : String)
    (a : List (String × String)) (cs : List Node) (htype : field.type = "image") :
    updateElement w field (.str v) (.elem t a cs)
      = some ((Node.elem t a cs).setAttr "src" (resolveAssetPath w v)) ∧
    ((Node.elem t a cs).setAttr "src" (resolveAssetPath w v)).attr "src"
      = some (resolveAssetPath w v) ∧
    (w.assetExists v = true → resolveAssetPath w v = v) ∧
    (isRelativeRef v = true → w.assetExists v = false → w.assetExists (basename v) = true →
      resolveAssetPath w v = basename v) ∧
    (w.assetExists (basename v) = false → resolveAssetPath w v = v) ∧
    (resolveAssetPath w v = v ∨ resolveAssetPath w v = basename v) ∧
    (jsStartsWith v "http" = true ∨ jsStartsWith v "//" = true ∨ jsStartsWith v "/" = true →
      resolveAssetPath w v = v) := by
  refine ⟨?_, attr_setAttr _ _ _ _ _, ?_, ?_, ?_, ?_, ?_⟩
  · simp [updateElement, htype, cheerioAttr, jsString]
  · intro h; simp [resolveAssetPath, h]
  · intro h1 h2 h3; simp [resolveAssetPath, h1, h2, h3]
  · intro h; simp [resolveAssetPath, h]
  · unfold resolveAssetPath
    split
    · exact Or.inr rfl
    · exact Or.inl rfl
  · intro h
    have : isRelativeRef v = false := by
      unfold isRelativeRef
      rcases h with h | h | h <;> simp [h]
    simp [resolveAssetPath, this]

theorem updateElement_image_path_witness :
    updateElement flatWorld imageField (.str "img/b.png") (.elem "img" [("src", "a.png")] [])
      = some (.elem "img" [("src", "b.png")] []) ∧
    resolveAssetPath flatWorld "img/b.png" = basename "img/b.png" :=
  have h := updateElement_image_path flatWorld imageField "img/b.png" "img" [("src", "a.png")]
    [] rfl
  ⟨h.1, h.2.2.2.1 (by decide) (by decide) (by decide)⟩


/-! ## Seeding: the items and the rows -/

theorem find?_congr_mem {α : Type} (f g : α → Bool) : ∀ l : List α, (∀ a ∈ l, f a = g a) →
    l.find? f = l.find? g
  | [], _ => rfl
  | a :: l, h => by
    rw [List.find?_cons, List.find?_cons, h a (by simp),
      find?_congr_mem f g l (fun b hb => h b (by simp [hb]))]

theorem itemContainers_holds (n : Node) :
    itemContainers.holds n
      = (seedContainers.holds n || Selector.holds [selClassIncludes "col", selTag "li"] n) := by
  simp only [Selector.holds, itemContainers, seedContainers, List.any_cons, List.any_nil,
    Bool.or_false]
  cases (selClassIncludes "card").holds n <;> cases (selClassIncludes "item").holds n <;>
    cases (selClassIncludes "col").holds n <;> cases (selClassIncludes "testimonial").holds n <;>
    cases (selClassIncludes "member").holds n <;> cases (selClassIncludes "post").holds n <;>
    cases (selTag "li").holds n <;> rfl

/-- C28 (the item of seeding and the item of the render). For a match of the first field's
selector, `seedData` extracts the record from the closest element that matches its container
selector, or from the match itself. The render takes the same element as the template item
whenever neither the match nor an ancestor of it is an `li` or has a `class` attribute that
contains `col`. -/
theorem seed_and_render_item (doc : Node) (collection : Entry) (first : Field)
    (rest : List Field) (sel : Selector) (p : Path)
    (hfields : collection.fields = first :: rest)
    (hsel : parseSelector first.selector = some sel)
    (hcol : ∀ q, q <+: p → doc.holdsAt [selClassIncludes "col", selTag "li"] q = false) :
    collectionElements doc collection
      = some ((doc.selectPaths sel).map (fun m => (doc.closest seedContainers m).getD m)) ∧
    templateItemPath doc p = (doc.closest seedContainers p).getD p := by
  refine ⟨by simp only [collectionElements, hfields, hsel], ?_⟩
  unfold templateItemPath Node.closest
  rw [find?_congr_mem (doc.holdsAt itemContainers) (doc.holdsAt seedContainers)]
  intro q hq
  have hpre : q <+: p := by
    rw [List.mem_reverse, List.mem_inits] at hq
    exact hq
  have h2 := hcol q hpre
  unfold Node.holdsAt at h2 ⊢
  cases hg : doc.get? q with
  | none => rfl
  | some m =>
    rw [hg] at h2
    simp only at h2 ⊢
    rw [itemContainers_holds, h2, Bool.or_false]

theorem seed_and_render_item_witness :
    templateItemPath testimonialDoc [1, 1, 0, 0]
      = (testimonialDoc.closest seedContainers [1, 1, 0, 0]).getD [1, 1, 0, 0] :=
  (seed_and_render_item testimonialDoc testimonialCollection nameField [contentField]
    selNameField [1, 1, 0, 0] rfl (by decide) (by
      intro q hq
      have key : ∀ r ∈ [1, 1, 0, 0].inits,
          testimonialDoc.holdsAt [selClassIncludes "col", selTag "li"] r = false := by decide
      exact key q ((List.mem_inits q _).mpr hq))).2

/-- C28, counterexample. The first heading of `listedDoc` lies in an `li` inside a card:
`seedData` takes the card as the item, the render takes the `li` as the template item. -/
theorem seed_item_differs_from_template :
    listedDoc.selectPaths [selTag "h3"] = [[1, 0, 0, 0, 0], [1, 0, 0, 1, 0]] ∧
    (listedDoc.closest seedContainers [1, 0, 0, 0, 0]).getD [1, 0, 0, 0, 0] = [1, 0] ∧
    templateItemPath listedDoc [1, 0, 0, 0, 0] = [1, 0, 0, 0] := by
  decide

theorem flatten_map_nil {α β : Type} : ∀ l : List α,
    (l.map (fun _ => ([] : List β))).flatten = []
  | [] => rfl
  | _ :: l => by simp only [List.map_cons, List.flatten_cons, List.nil_append, flatten_map_nil l]

theorem Row.set_ne_nil (r : Row) (key : String) (v : Value) (hkey : key ≠ "__proto__") :
    r.set key v ≠ [] := by
  unfold Row.set
  rw [if_neg (by simpa using hkey)]
  split
  · rename_i h
    intro e
    rw [List.map_eq_nil_iff] at e
    rw [e] at h
    simp at h
  · simp

theorem Row.set_proto (r : Row) (v : Value) : r.set "__proto__" v = r := by
  simp [Row.set]

theorem Row.set_ne_nil_of_ne (r : Row) (key : String) (v : Value) (hr : r ≠ []) :
    r.set key v ≠ [] := by
  by_cases hkey : key = "__proto__"
  · rw [hkey, Row.set_proto]; exact hr
  · exact Row.set_ne_nil r key v hkey

/-- The row of an element: it has a column as soon as it had one before or a field has a name
other than `__proto__`, and stays without columns otherwise. -/
theorem seedFields_some (w : World) (doc element : Node) (index : Nat) :
    ∀ (fields : List Field) (row : Row), (∀ f ∈ fields, (parseSelector f.selector).isSome) →
    ∃ out, fields.foldlM (seedCollectionField w doc element index) row = some out ∧
      ((row ≠ [] ∨ ∃ f ∈ fields, f.name ≠ "__proto__") → out ≠ []) ∧
      (row = [] → (∀ f ∈ fields, f.name = "__proto__") → out = [])
  | [], row, _ => ⟨row, rfl, fun h => h.elim id (fun ⟨_, hf, _⟩ => by simp at hf),
      fun h _ => h⟩
  | f :: fs, row, h => by
    obtain ⟨sel, hsel⟩ := Option.isSome_iff_exists.mp (h f (by simp))
    have hstep : ∃ v, seedCollectionField w doc element index row f
        = some (row.set f.name v) := by
      simp only [seedCollectionField, hsel]
      exact ⟨_, rfl⟩
    obtain ⟨v, hv⟩ := hstep
    obtain ⟨out, hout, hne, hnil⟩ := seedFields_some w doc element index fs (row.set f.name v)
      (fun g hg => h g (by simp [hg]))
    refine ⟨out, by rw [List.foldlM_cons, hv]; exact hout, ?_, ?_⟩
    · intro hor
      apply hne
      rcases hor with hr | ⟨g, hg, hgn⟩
      · exact Or.inl (Row.set_ne_nil_of_ne _ _ _ hr)
      · rcases List.mem_cons.mp hg with e | hg2
        · rw [e] at hgn
          exact Or.inl (Row.set_ne_nil _ _ _ hgn)
        · exact Or.inr ⟨g, hg2, hgn⟩
    · intro hr hall
      apply hnil
      · rw [hall f (by simp), Row.set_proto, hr]
      · exact fun g hg => hall g (by simp [hg])

/-- The element that `seedData` takes for a match exists. -/
theorem seedItem_exists (doc : Node) (sel : Selector) (p : Path) (hp : p ∈ doc.selectPaths sel) :
    ∃ element, doc.get? ((doc.closest seedContainers p).getD p) = some element := by
  cases hc : doc.closest seedContainers p with
  | none =>
    have hat : doc.holdsAt sel p = true := by
      unfold Node.selectPaths at hp
      exact (List.mem_filter.mp hp).2
    obtain ⟨m, hm, _⟩ := holdsAt_some doc sel p hat
    exact ⟨m, hm⟩
  | some t =>
    obtain ⟨_, h2, _⟩ := closest_some doc _ p t hc
    obtain ⟨m, hm, _⟩ := holdsAt_some doc _ t h2
    exact ⟨m, hm⟩

theorem selectPaths_length (root : Node) (s : Selector) :
    (root.selectPaths s).length = (root.select s).length := by
  rw [← selectPaths_get? root s]
  have : ∀ l : List Path, (∀ p ∈ l, ∃ m, root.get? p = some m) →
      l.length = (l.filterMap root.get?).length := by
    intro l
    induction l with
    | nil => intro _; rfl
    | cons p l ih =>
      intro h
      obtain ⟨m, hm⟩ := h p (by simp)
      rw [List.filterMap_cons, hm]
      simp [ih (fun q hq => h q (by simp [hq]))]
  apply this
  intro p hp
  have hat : root.holdsAt s p = true := by
    unfold Node.selectPaths at hp
    exact (List.mem_filter.mp hp).2
  obtain ⟨m, hm, _⟩ := holdsAt_some root s p hat
  exact ⟨m, hm⟩

/-- C29 (seeded record count). Take a collection with at least one field, all of whose
selectors are of the modelled fragment. If one of its fields has a name other than `__proto__`,
`seedData` builds one row, with at least one column, for every element of the document that
matches the first field's selector, in document order: the `i`-th row is extracted from the item
of the `i`-th match (its closest container, or the match itself), so that the number of rows is
the number of matches in the whole document. If every field is named `__proto__`, the rows have
no column and nothing is inserted. -/
theorem seedCollection_rows (w : World) (doc : Node) (collection : Entry) (first : Field)
    (rest : List Field) (sel : Selector)
    (hfields : collection.fields = first :: rest)
    (hsel : parseSelector first.selector = some sel)
    (hparse : ∀ f ∈ collection.fields, (parseSelector f.selector).isSome) :
    ((∃ f ∈ collection.fields, f.name ≠ "__proto__") →
      ∃ inserts, seedCollection w doc collection = some inserts ∧
        inserts.length = (doc.select sel).length ∧
        ∀ i : Nat, i < inserts.length →
          ∃ p element row, (doc.selectPaths sel)[i]? = some p ∧
            doc.get? ((doc.closest seedContainers p).getD p) = some element ∧
            collection.fields.foldlM (seedCollectionField w doc element i) [] = some row ∧
            row ≠ [] ∧ inserts[i]? = some (sanitize collection.name, row)) ∧
    ((∀ f ∈ collection.fields, f.name = "__proto__") →
      seedCollection w doc collection = some []) := by
  have hce : collectionElements doc collection
      = some ((doc.selectPaths sel).map (fun m => (doc.closest seedContainers m).getD m)) := by
    simp only [collectionElements, hfields, hsel]
  have hrow : ∀ x ∈ ((doc.selectPaths sel).map
      (fun m => (doc.closest seedContainers m).getD m)).enum,
      ∃ element row, doc.get? x.2 = some element ∧
        collection.fields.foldlM (seedCollectionField w doc element x.1) [] = some row ∧
        ((∃ f ∈ collection.fields, f.name ≠ "__proto__") → row ≠ []) ∧
        ((∀ f ∈ collection.fields, f.name = "__proto__") → row = []) := by
    intro x hx
    have hx2 := List.snd_mem_of_mem_enum hx
    rw [List.mem_map] at hx2
    obtain ⟨p, hp, hpx⟩ := hx2
    obtain ⟨element, he⟩ := seedItem_exists doc sel p hp
    rw [hpx] at he
    obtain ⟨row, hrow, hne, hnil⟩ :=
      seedFields_some w doc element x.1 collection.fields [] hparse
    exact ⟨element, row, he, hrow, fun h => hne (Or.inr h), fun h => hnil rfl h⟩
  constructor
  · intro hname
    have hall : ∀ x ∈ ((doc.selectPaths sel).map
        (fun m => (doc.closest seedContainers m).getD m)).enum,
        seedElement w doc collection x
          = some [(sanitize collection.name,
              ((doc.get? x.2).bind (fun element =>
                collection.fields.foldlM (seedCollectionField w doc element x.1) [])).getD [])]
        := by
      intro x hx
      obtain ⟨element, row, he, hr, hne, _⟩ := hrow x hx
      have hne2 : row.isEmpty = false := by
        cases row with
        | nil => exact absurd rfl (hne hname)
        | cons _ _ => rfl
      simp only [seedElement, he, hr, Option.map_some', Option.some_bind, Option.getD_some,
        hne2, Bool.false_eq_true, if_false]
    have hmap := mapM_eq_some_map _ _ _ hall
    have hseed : seedCollection w doc collection
        = some ((((doc.selectPaths sel).map
            (fun m => (doc.closest seedContainers m).getD m)).enum).map
            (fun x => (sanitize collection.name,
              ((doc.get? x.2).bind (fun element =>
                collection.fields.foldlM (seedCollectionField w doc element x.1) [])).getD [])))
        := by
      simp only [seedCollection, hce, hmap, Option.map_some']
      rw [flatten_map_singleton]
    refine ⟨_, hseed, ?_, ?_⟩
    · rw [List.length_map, List.enum_length, List.length_map, selectPaths_length]
    · intro i hi
      rw [List.length_map, List.enum_length, List.length_map] at hi
      have hp : (doc.selectPaths sel)[i]? = some ((doc.selectPaths sel)[i]) :=
        List.getElem?_eq_getElem hi
      have hmem : (i, (doc.closest seedContainers (doc.selectPaths sel)[i]).getD
          (doc.selectPaths sel)[i]) ∈ ((doc.selectPaths sel).map
            (fun m => (doc.closest seedContainers m).getD m)).enum := by
        rw [List.mem_enum_iff_getElem?, List.getElem?_map, hp]
        rfl
      obtain ⟨element, row, he, hr, hne, _⟩ := hrow _ hmem
      refine ⟨_, element, row, hp, he, hr, hne hname, ?_⟩
      rw [List.getElem?_map, List.getElem?_enum, List.getElem?_map, hp]
      simp only [Option.map_some', he, hr, Option.some_bind, Option.getD_some]
  · intro hproto
    have hall : ∀ x ∈ ((doc.selectPaths sel).map
        (fun m => (doc.closest seedContainers m).getD m)).enum,
        seedElement w doc collection x = some ((fun _ => []) x) := by
      intro x hx
      obtain ⟨element, row, he, hr, _, hnil⟩ := hrow x hx
      simp only [seedElement, he, hr, Option.map_some', hnil hproto, List.isEmpty_nil, if_true]
    have hmap := mapM_eq_some_map _ _ _ hall
    simp only [seedCollection, hce, hmap, Option.map_some', Option.some.injEq]
    exact flatten_map_nil _

theorem seedCollection_rows_witness :
    ∃ inserts, seedCollection plainWorld listedDoc cardCollection = some inserts ∧
      inserts.length = (listedDoc.select [selTag "h3"]).length ∧
      ∀ i : Nat, i < inserts.length →
        ∃ p element row, (listedDoc.selectPaths [selTag "h3"])[i]? = some p ∧
          listedDoc.get? ((listedDoc.closest seedContainers p).getD p) = some element ∧
          cardCollection.fields.foldlM (seedCollectionField plainWorld listedDoc element i) []
            = some row ∧
          row ≠ [] ∧ inserts[i]? = some (sanitize cardCollection.name, row) :=
  (seedCollection_rows plainWorld listedDoc cardCollection
    { name := "title", type := "text", selector := "h3", required := false } []
    [selTag "h3"] rfl (by decide) (by decide)).1 (by decide)

/-- C29, counterexample. The collection `protoCollection` has one field, named `__proto__`,
whose selector `h3` matches two elements of `numberedDoc`; the rows built for them have no
column, and nothing is inserted. -/
theorem proto_field_seeds_no_row :
    protoCollection.fields.length = 1 ∧
    (numberedDoc.select [selTag "h3"]).length = 2 ∧
    seedCollection plainWorld numberedDoc protoCollection = some [] := by
  decide

/-! ## The tables and the guards -/

/-- C25 (reserved names), the code at an input. For a collection with a field named `id`,
`generateDbFromSchema` gives the field no column, but the schema that it leaves still lists the
field, and the rows that `seedData` builds from that schema have a value for the key `id`. -/
theorem reserved_field_is_seeded :
    (generateDbFromSchema reservedSchema).1
      = ["CREATE TABLE IF NOT EXISTS card_list (id INTEGER PRIMARY KEY AUTOINCREMENT, "
          ++ "created_at DATETIME DEFAULT CURRENT_TIMESTAMP, "
          ++ "updated_at DATETIME DEFAULT CURRENT_TIMESTAMP, title TEXT)"] ∧
    (generateDbFromSchema reservedSchema).2 = reservedSchema ∧
    seedData plainWorld (generateDbFromSchema reservedSchema).2 numberedDoc
      = some [("card_list", [("id", .str "7"), ("title", .str "One")]),
              ("card_list", [("id", .str "8"), ("title", .str "Two")])] :=
  ⟨rfl, rfl, by decide⟩

/-- C27 (schema unavailable), the code at an input. When the schema file is missing while the
page and the database exist, `generatePreview` throws the error `Schema file not found`, and
the export throws the error of the file system, which does not say so. -/
theorem export_lacks_schema_guard :
    (∀ files : Files, files.htmlExists = true → files.schemaExists = false →
      previewGuards files = some "Schema file not found - Please Re-Analyze the file") ∧
    jsIncludes "Schema file not found - Please Re-Analyze the file" "Schema file not found"
      = true ∧
    exportGuards missingSchemaFiles
      = some "ENOENT: no such file or directory, open 'uploads/index-schema.json'" ∧
    bakeGuards missingSchemaFiles
      = some "ENOENT: no such file or directory, open 'uploads/index-schema.json'" ∧
    jsIncludes "ENOENT: no such file or directory, open 'uploads/index-schema.json'"
      "Schema file not found" = false := by
  refine ⟨?_, by decide, by decide, by decide, by decide⟩
  intro files h1 h2
  simp [previewGuards, h1, h2]

theorem foldl_columnStep : ∀ (fields : List Field) (st : List String × List Field),
    fields.foldl columnStep st
      = (st.1 ++ (fields.filter (fun f => !isReservedName f.name)).map columnDef,
         st.2 ++ fields.map (fun f =>
           if isReservedName f.name then f else { f with name := sanitize f.name }))
  | [], st => by simp
  | f :: fs, st => by
    rw [List.foldl_cons, foldl_columnStep fs]
    by_cases h : isReservedName f.name = true
    · simp [columnStep, h]
    · simp [columnStep, h]

theorem tableColumns_eq (idColumn : String) (fields : List Field) :
    tableColumns idColumn fields
      = ([idColumn, "created_at DATETIME DEFAULT CURRENT_TIMESTAMP",
          "updated_at DATETIME DEFAULT CURRENT_TIMESTAMP"]
          ++ (fields.filter (fun f => !isReservedName f.name)).map columnDef,
         fields.map (fun f =>
           if isReservedName f.name then f else { f with name := sanitize f.name })) := by
  unfold tableColumns
  rw [foldl_columnStep]
  simp

theorem splitOnChar_ne_nil (sep : Char) : ∀ cs : List Char, splitOnChar sep cs ≠ []
  | [] => by simp [splitOnChar]
  | c :: cs => by
    unfold splitOnChar
    split
    · simp
    · cases splitOnChar sep cs <;> simp

theorem splitOnChar_head (sep : Char) (b : List Char) : ∀ a : List Char, sep ∉ a →
    (splitOnChar sep (a ++ sep :: b)).headD [] = a := by
  intro a ha
  rw [splitOnChar_append sep b a ha]
  rfl

theorem columnName_columnDef (f : Field) : columnName (columnDef f) = sanitize f.name := by
  have hno : ' ' ∉ (sanitize f.name).data := by
    intro hm
    simp only [sanitize, List.mem_map] at hm
    obtain ⟨c, _, hc⟩ := hm
    have := sanitizeChar_isWordChar c
    rw [hc] at this
    exact absurd this (by decide)
  unfold columnName columnDef
  simp only [String.data_append]
  rw [List.append_assoc, List.singleton_append, splitOnChar_head ' ' _ _ hno]

theorem columnNames_eq (idColumn : String) (fields : List Field)
    (hid : idColumn = collectionIdColumn ∨ idColumn = singletonIdColumn) :
    (tableColumns idColumn fields).1.map columnName
      = ["id", "created_at", "updated_at"]
        ++ (fields.filter (fun f => !isReservedName f.name)).map (fun f => sanitize f.name) := by
  rw [tableColumns_eq]
  simp only [List.map_append, List.map_map, List.map_cons, List.map_nil]
  have h1 : columnName idColumn = "id" := by
    rcases hid with h | h <;> rw [h] <;> rfl
  have h2 : columnName "created_at DATETIME DEFAULT CURRENT_TIMESTAMP" = "created_at" := rfl
  have h3 : columnName "updated_at DATETIME DEFAULT CURRENT_TIMESTAMP" = "updated_at" := rfl
  rw [h1, h2, h3]
  congr 1
  apply List.map_congr_left
  intro f _
  exact columnName_columnDef f

theorem not_reserved_of_filter (name : String) (h : (!isReservedName name) = true) :
    sqliteFold name ∉ ["id", "created_at", "updated_at"] := by
  intro hm
  have e : sqliteFold name = jsToLower name := rfl
  rw [e] at hm
  simp only [List.mem_cons, List.mem_singleton, List.mem_nil_iff, or_false] at hm
  simp only [isReservedName, Bool.not_eq_true', Bool.or_eq_false_iff, beq_eq_false_iff_ne,
    ne_eq] at h
  rcases hm with e | e | e
  · exact h.1.1 e
  · exact h.1.2 e
  · exact h.2 e

/-- C30 (distinct columns). For an entry whose field names consist of letters, digits and `_`
only and are pairwise distinct also when the case of the letters is disregarded, the column
names of the `CREATE TABLE` statement are pairwise distinct as SQLite compares them, without
regard to case, and so as strings: they are `id`, `created_at`, `updated_at` and the names of
the fields that are not reserved, and none of the latter is `id`, `created_at` or `updated_at`
in any case of the letters. -/
theorem tableColumns_distinct (idColumn : String) (entry : Entry)
    (hid : idColumn = collectionIdColumn ∨ idColumn = singletonIdColumn)
    (hnodup : (entry.fields.map (fun f => sqliteFold f.name)).Nodup)
    (hword : ∀ f ∈ entry.fields, ∀ c ∈ f.name.data, isWordChar c = true) :
    createTableSQL idColumn entry
      = "CREATE TABLE IF NOT EXISTS " ++ sanitize entry.name ++ " ("
        ++ jsJoin ", " (tableColumns idColumn entry.fields).1 ++ ")" ∧
    (tableColumns idColumn entry.fields).1.map columnName
      = ["id", "created_at", "updated_at"]
        ++ (entry.fields.filter (fun f => !isReservedName f.name)).map Field.name ∧
    (((tableColumns idColumn entry.fields).1.map columnName).map sqliteFold).Nodup ∧
    ((tableColumns idColumn entry.fields).1.map columnName).Nodup ∧
    ∀ f ∈ entry.fields.filter (fun f => !isReservedName f.name),
      sqliteFold f.name ∉ ["id", "created_at", "updated_at"] := by
  have hnames : (tableColumns idColumn entry.fields).1.map columnName
      = ["id", "created_at", "updated_at"]
        ++ (entry.fields.filter (fun f => !isReservedName f.name)).map Field.name := by
    rw [columnNames_eq idColumn entry.fields hid]
    congr 1
    apply List.map_congr_left
    intro f hf
    exact sanitize_of_isWordChar f.name (hword f (List.mem_of_mem_filter hf))
  have hfree : ∀ f ∈ entry.fields.filter (fun f => !isReservedName f.name),
      sqliteFold f.name ∉ ["id", "created_at", "updated_at"] := by
    intro f hf
    exact not_reserved_of_filter f.name (List.mem_filter.mp hf).2
  have hfold : (((tableColumns idColumn entry.fields).1.map columnName).map sqliteFold).Nodup := by
    rw [hnames, List.map_append, List.map_map]
    have e : (["id", "created_at", "updated_at"] : List String).map sqliteFold
        = ["id", "created_at", "updated_at"] := by decide
    rw [e]
    apply List.Nodup.append (by decide)
    · exact hnodup.sublist
        ((List.filter_sublist _).map (fun f : Field => sqliteFold f.name))
    · intro x hx1 hx2
      rw [List.mem_map] at hx2
      obtain ⟨f, hf, rfl⟩ := hx2
      exact hfree f hf hx1
  exact ⟨rfl, hnames, hfold, List.Nodup.of_map _ hfold, hfree⟩

theorem tableColumns_distinct_witness :
    (tableColumns collectionIdColumn cardCollection.fields).1.map columnName
      = ["id", "created_at", "updated_at", "title"] ∧
    (((tableColumns collectionIdColumn cardCollection.fields).1.map columnName).map
      sqliteFold).Nodup :=
  have h := tableColumns_distinct collectionIdColumn cardCollection (Or.inl rfl)
    (by decide) (by decide)
  ⟨h.2.1, h.2.2.1⟩

/-- C30, counterexample. The field names `a-b` and `a_b` are distinct, and both get the column
`a_b`. The field names `Title` and `title` are distinct and consist of letters; their columns
`Title` and `title` are one column for SQLite, which refuses the statement. -/
theorem sanitized_columns_collide :
    (dashedEntry.fields.map Field.name).Nodup ∧
    (tableColumns collectionIdColumn dashedEntry.fields).1.map columnName
      = ["id", "created_at", "updated_at", "a_b", "a_b"] ∧
    ¬ ((tableColumns collectionIdColumn dashedEntry.fields).1.map columnName).Nodup ∧
    (casedEntry.fields.map Field.name).Nodup ∧
    (tableColumns collectionIdColumn casedEntry.fields).1.map columnName
      = ["id", "created_at", "updated_at", "Title", "title"] ∧
    ¬ (((tableColumns collectionIdColumn casedEntry.fields).1.map columnName).map
      sqliteFold).Nodup := by
  decide

theorem startsWithChars_prefix : ∀ p s : List Char, startsWithChars p s = true →
    ∃ post, s = p ++ post
  | [], s, _ => ⟨s, rfl⟩
  | _ :: _, [], h => by simp [startsWithChars] at h
  | a :: p, b :: s, h => by
    simp only [startsWithChars, Bool.and_eq_true, beq_iff_eq] at h
    obtain ⟨post, hpost⟩ := startsWithChars_prefix p s h.2
    exact ⟨post, by rw [h.1, hpost]; rfl⟩

theorem occursIn_split (p : List Char) : ∀ s : List Char, occursIn p s = true →
    ∃ pre post, s = pre ++ p ++ post
  | [], h => by
    simp only [occursIn, List.isEmpty_iff] at h
    exact ⟨[], [], by simp [h]⟩
  | c :: s, h => by
    simp only [occursIn, Bool.or_eq_true] at h
    rcases h with h | h
    · obtain ⟨post, hpost⟩ := startsWithChars_prefix p (c :: s) h
      exact ⟨[], post, by simpa using hpost⟩
    · obtain ⟨pre, post, hs⟩ := occursIn_split p s h
      exact ⟨c :: pre, post, by rw [hs]; simp⟩

theorem splitOnChar_at (sep : Char) (y : List Char) : ∀ x : List Char,
    splitOnChar sep (x ++ sep :: y) = splitOnChar sep x ++ splitOnChar sep y
  | [] => by simp [splitOnChar]
  | c :: x => by
    have ih := splitOnChar_at sep y x
    by_cases hc : c = sep
    · simp [splitOnChar, hc, ih]
    · have hne := splitOnChar_ne_nil sep x
      cases hx : splitOnChar sep x with
      | nil => exact absurd hx hne
      | cons t ts =>
        rw [hx] at ih
        simp [splitOnChar, hc, ih, hx]

theorem splitOnChar_cons_head (sep c : Char) (y : List Char) (hc : c ≠ sep) :
    ∃ t l, splitOnChar sep (c :: y) = (c :: t) :: l := by
  cases hy : splitOnChar sep y with
  | nil => exact absurd hy (splitOnChar_ne_nil sep y)
  | cons t ts => exact ⟨t, ts, by simp [splitOnChar, hc, hy]⟩

theorem columnType_mem (type : String) :
    columnType type ∈ ["TEXT", "INTEGER", "BOOLEAN", "DATETIME"] := by
  unfold columnType
  split
  · simp
  · split
    · simp
    · split
      · simp
      · split <;> simp

theorem splitOnChar_snoc (sep c : Char) (hc : c ≠ sep) : ∀ x : List Char,
    ∃ l t, splitOnChar sep (x ++ [c]) = l ++ [t ++ [c]]
  | [] => ⟨[], [], by simp [splitOnChar, hc]⟩
  | d :: x => by
    obtain ⟨l, t, h⟩ := splitOnChar_snoc sep c hc x
    by_cases hd : d = sep
    · exact ⟨[] :: l, t, by simp [splitOnChar, hd, h]⟩
    · cases l with
      | nil => exact ⟨[], d :: t, by simp [splitOnChar, hd, h]⟩
      | cons a l2 => exact ⟨(d :: a) :: l2, t, by simp [splitOnChar, hd, h]⟩

/-- Where `NOT NULL` occurs, a word that ends in `T` is followed by a word that starts with
`N`. -/
theorem not_null_pair (s : List Char) (h : occursIn ("NOT NULL" : String).data s = true) :
    ∃ l u v l', splitOnChar ' ' s = l ++ u :: v :: l' ∧ ¬ wordsApart u v := by
  obtain ⟨pre, post, hs⟩ := occursIn_split _ _ h
  have hp : ("NOT NULL" : String).data = ['N', 'O'] ++ ['T'] ++ ' ' :: 'N' :: ['U', 'L', 'L'] :=
    rfl
  rw [hp] at hs
  have hs2 : s = ((pre ++ ['N', 'O']) ++ ['T']) ++ ' ' :: ('N' :: (['U', 'L', 'L'] ++ post)) := by
    rw [hs]; simp
  obtain ⟨l, t, h1⟩ := splitOnChar_snoc ' ' 'T' (by decide) (pre ++ ['N', 'O'])
  obtain ⟨t2, l2, h2⟩ := splitOnChar_cons_head ' ' 'N' (['U', 'L', 'L'] ++ post) (by decide)
  refine ⟨l, t ++ ['T'], 'N' :: t2, l2, ?_, ?_⟩
  · rw [hs2, splitOnChar_at, h1, h2]
    simp
  · unfold wordsApart
    simp

/-- A string whose words are pairwise apart does not contain `NOT NULL`. -/
theorem no_not_null_of_chain (s : String)
    (h : List.Chain' wordsApart (splitOnChar ' ' s.data)) : jsIncludes s "NOT NULL" = false := by
  cases hi : jsIncludes s "NOT NULL" with
  | false => rfl
  | true =>
    exfalso
    obtain ⟨l, u, v, l', e, hn⟩ := not_null_pair s.data hi
    rw [e] at h
    exact hn (List.chain'_append_cons_cons.mp h).2.1

/-- The words of the column definition of a field are apart, whatever follows the definition. -/
theorem columnDef_apart (f : Field) (e : Char) (he : e ≠ ' ') :
    List.Chain' wordsApart (splitOnChar ' ' ((columnDef f).data ++ [e])) := by
  have hno : ' ' ∉ (sanitize f.name).data := by
    intro hm
    simp only [sanitize, List.mem_map] at hm
    obtain ⟨c, _, hc⟩ := hm
    have := sanitizeChar_isWordChar c
    rw [hc] at this
    exact absurd this (by decide)
  have hd : (columnDef f).data ++ [e]
      = (sanitize f.name).data ++ ' ' :: ((columnType f.type).data ++ [e]) := by
    simp [columnDef, String.data_append]
  have hty : ' ' ∉ (columnType f.type).data ++ [e] := by
    have := columnType_mem f.type
    simp only [List.mem_cons, List.mem_singleton, List.not_mem_nil, or_false] at this
    rcases this with h | h | h | h <;> rw [h] <;> simp <;> exact fun h2 => he h2.symm
  rw [hd, splitOnChar_append _ _ _ hno, splitOnChar_of_not_mem _ _ hty]
  simp only [List.chain'_cons, List.chain'_singleton, and_true]
  unfold wordsApart
  have := columnType_mem f.type
  simp only [List.mem_cons, List.mem_singleton, List.not_mem_nil, or_false] at this
  rcases this with h | h | h | h <;> rw [h] <;> simp


theorem jsJoin_cons_front (sep p c : String) (rest : List String) :
    jsJoin sep ((p ++ c) :: rest) = p ++ jsJoin sep (c :: rest) := by
  cases rest with
  | nil => rfl
  | cons y r => simp [jsJoin, String.append_assoc]

/-- The words of a joined list of columns are apart when those of every column are. -/
theorem jsJoin_apart : ∀ cols : List String, cols ≠ [] →
    (∀ c ∈ cols, ∀ e : Char, e ≠ ' ' →
      List.Chain' wordsApart (splitOnChar ' ' (c.data ++ [e]))) →
    List.Chain' wordsApart (splitOnChar ' ' ((jsJoin ", " cols).data ++ [')']))
  | [], h, _ => absurd rfl h
  | [c], _, hc => hc c (by simp) ')' (by decide)
  | c :: c' :: rest, _, hc => by
    have ih := jsJoin_apart (c' :: rest) (by simp) (fun x hx => hc x (by simp [hx]))
    have hd : (jsJoin ", " (c :: c' :: rest)).data ++ [')']
        = (c.data ++ [',']) ++ ' ' :: ((jsJoin ", " (c' :: rest)).data ++ [')']) := by
      rw [jsJoin_cons_cons]
      have : (", " : String).data = [',', ' '] := rfl
      simp [String.data_append, this]
    rw [hd, splitOnChar_at]
    refine List.Chain'.append (hc c (by simp) ',' (by decide)) ih ?_
    obtain ⟨l, t, hlt⟩ := splitOnChar_snoc ' ' ',' (by decide) c.data
    rw [hlt]
    intro x hx y _
    simp only [List.getLast?_append, List.getLast?_singleton, Option.mem_def] at hx
    have hx2 : t ++ [','] = x := by simpa [Option.or] using hx
    subst hx2
    unfold wordsApart
    simp
theorem fixed_apart (c : String)
    (hc : c ∈ ["(" ++ collectionIdColumn, "(" ++ singletonIdColumn,
      "created_at DATETIME DEFAULT CURRENT_TIMESTAMP",
      "updated_at DATETIME DEFAULT CURRENT_TIMESTAMP"])
    (e : Char) (he : e ≠ ' ') :
    List.Chain' wordsApart (splitOnChar ' ' (c.data ++ [e])) := by
  have h1 : ("(" ++ collectionIdColumn : String).data
      = "(id".data ++ ' ' :: ("INTEGER".data ++ ' ' :: ("PRIMARY".data ++ ' ' ::
          ("KEY".data ++ ' ' :: "AUTOINCREMENT".data))) := rfl
  have h2 : ("(" ++ singletonIdColumn : String).data
      = "(id".data ++ ' ' :: ("INTEGER".data ++ ' ' :: ("PRIMARY".data ++ ' ' :: "KEY".data)) :=
    rfl
  have h3 : ("created_at DATETIME DEFAULT CURRENT_TIMESTAMP" : String).data
      = "created_at".data ++ ' ' :: ("DATETIME".data ++ ' ' :: ("DEFAULT".data ++ ' ' ::
          "CURRENT_TIMESTAMP".data)) := rfl
  have h4 : ("updated_at DATETIME DEFAULT CURRENT_TIMESTAMP" : String).data
      = "updated_at".data ++ ' ' :: ("DATETIME".data ++ ' ' :: ("DEFAULT".data ++ ' ' ::
          "CURRENT_TIMESTAMP".data)) := rfl
  simp only [List.mem_cons, List.mem_singleton, List.not_mem_nil, or_false] at hc
  rcases hc with h | h | h | h <;> subst h
  · rw [h1]
    simp [splitOnChar, he, wordsApart]
  · rw [h2]
    simp [splitOnChar, he, wordsApart]
  · rw [h3]
    simp [splitOnChar, he, wordsApart]
  · rw [h4]
    simp [splitOnChar, he, wordsApart]

/-- The words of a `CREATE TABLE` statement are apart. -/
theorem createTableSQL_apart (idColumn : String)
    (hid : idColumn ∈ [collectionIdColumn, singletonIdColumn]) (entry : Entry) :
    List.Chain' wordsApart (splitOnChar ' ' (createTableSQL idColumn entry).data) := by
  have hJ := jsJoin_apart
    (("(" ++ idColumn) :: "created_at DATETIME DEFAULT CURRENT_TIMESTAMP"
      :: "updated_at DATETIME DEFAULT CURRENT_TIMESTAMP"
      :: (entry.fields.filter (fun f => !isReservedName f.name)).map columnDef) (by simp)
    (by
      intro c hc e he
      simp only [List.mem_cons, List.mem_map] at hc
      rcases hc with h | h | h | ⟨f, _, h⟩
      · refine fixed_apart c ?_ e he
        simp only [List.mem_cons, List.mem_singleton, List.not_mem_nil, or_false] at hid
        rcases hid with h2 | h2 <;> simp [h, h2]
      · exact fixed_apart c (by simp [h]) e he
      · exact fixed_apart c (by simp [h]) e he
      · rw [← h]; exact columnDef_apart f e he)
  rw [jsJoin_cons_front] at hJ
  have hno : ' ' ∉ (sanitize entry.name).data := by
    intro hm
    simp only [sanitize, List.mem_map] at hm
    obtain ⟨c, _, hc⟩ := hm
    have := sanitizeChar_isWordChar c
    rw [hc] at this
    exact absurd this (by decide)
  have h1 : ("CREATE TABLE IF NOT EXISTS " : String).data
      = "CREATE TABLE IF NOT EXISTS".data ++ [' '] := rfl
  have h2 : (" (" : String).data = [' ', '('] := rfl
  have h3 : ("(" : String).data = ['('] := rfl
  have h4 : (")" : String).data = [')'] := rfl
  have hd : (createTableSQL idColumn entry).data
      = "CREATE TABLE IF NOT EXISTS".data ++ ' ' :: ((sanitize entry.name).data ++ ' ' ::
          (("(" ++ jsJoin ", " (idColumn :: "created_at DATETIME DEFAULT CURRENT_TIMESTAMP"
            :: "updated_at DATETIME DEFAULT CURRENT_TIMESTAMP"
            :: (entry.fields.filter (fun f => !isReservedName f.name)).map columnDef)).data
            ++ [')'])) := by
    simp only [createTableSQL, tableColumns_eq, String.data_append, h1, h2, h3, h4,
      List.append_assoc, List.cons_append, List.nil_append, List.singleton_append]
  rw [hd, splitOnChar_at, splitOnChar_append _ _ _ hno]
  have h5 : splitOnChar ' ' "CREATE TABLE IF NOT EXISTS".data
      = ["CREATE".data, "TABLE".data, "IF".data, "NOT".data, "EXISTS".data] := by decide
  rw [h5]
  refine List.Chain'.append (by simp [wordsApart]) (List.chain'_cons'.mpr ⟨?_, hJ⟩) ?_
  · intro y hy
    rw [String.data_append, h3] at hy
    obtain ⟨t, l, htl⟩ := splitOnChar_cons_head ' ' '('
      ((jsJoin ", " (idColumn :: "created_at DATETIME DEFAULT CURRENT_TIMESTAMP"
            :: "updated_at DATETIME DEFAULT CURRENT_TIMESTAMP"
            :: (entry.fields.filter (fun f => !isReservedName f.name)).map columnDef)).data
            ++ [')']) (by decide)
    rw [List.singleton_append, List.cons_append, htl] at hy
    simp only [List.head?_cons, Option.mem_def, Option.some.injEq] at hy
    subst hy
    simp [wordsApart]
  · intro x hx y _
    simp only [List.getLast?_cons_cons, List.getLast?_singleton, Option.mem_def,
      Option.some.injEq] at hx
    subst hx
    simp [wordsApart]

/-- No `CREATE TABLE` statement of `generateDbFromSchema` contains `NOT NULL`. -/
theorem generateDbFromSchema_no_not_null (schema : Schema) :
    ∀ stmt ∈ (generateDbFromSchema schema).1, jsIncludes stmt "NOT NULL" = false := by
  intro stmt hs
  simp only [generateDbFromSchema, List.mem_append, List.mem_map] at hs
  rcases hs with ⟨e, _, h⟩ | ⟨e, _, h⟩
  · rw [← h]
    exact no_not_null_of_chain _ (createTableSQL_apart _ (by simp) e)
  · rw [← h]
    exact no_not_null_of_chain _ (createTableSQL_apart _ (by simp) e)

theorem mapM_map_option {α β γ : Type} (g : α → β) (f : β → Option γ) :
    ∀ l : List α, (l.map g).mapM f = l.mapM (fun a => f (g a))
  | [] => rfl
  | a :: l => by
    simp only [List.map_cons, List.mapM_cons, mapM_map_option g f l]

theorem foldlM_map_option {α β γ : Type} (g : α → β) (f : γ → β → Option γ) :
    ∀ (l : List α) (init : γ), (l.map g).foldlM f init = l.foldlM (fun c a => f c (g a)) init
  | [], _ => rfl
  | a :: l, init => by
    simp only [List.map_cons, List.foldlM_cons]
    cases f init (g a) with
    | none => rfl
    | some c => exact foldlM_map_option g f l c

theorem tableColumns_eraseRequired (idColumn : String) (fields : List Field) :
    tableColumns idColumn (fields.map (fun f => { f with required := false }))
      = ((tableColumns idColumn fields).1,
         (tableColumns idColumn fields).2.map (fun f => { f with required := false })) := by
  rw [tableColumns_eq, tableColumns_eq]
  refine Prod.ext ?_ ?_
  · simp only [List.filter_map, List.map_map]
    rfl
  · simp only [List.map_map]
    apply List.map_congr_left
    intro f _
    simp only [Function.comp]
    split <;> rfl

theorem createTableSQL_eraseRequired (idColumn : String) (entry : Entry) :
    createTableSQL idColumn
        { entry with fields := entry.fields.map (fun f => { f with required := false }) }
      = createTableSQL idColumn entry := by
  simp only [createTableSQL, tableColumns_eraseRequired]

theorem assembleEntry_eraseRequired (idColumn : String) (entry : Entry) :
    assembleEntry idColumn
        { entry with fields := entry.fields.map (fun f => { f with required := false }) }
      = { assembleEntry idColumn entry with
          fields := (assembleEntry idColumn entry).fields.map
            (fun f => { f with required := false }) } := by
  simp only [assembleEntry, tableColumns_eraseRequired]

/-- The statements of `generateDbFromSchema` do not depend on the `required` flags, and the
schema it leaves depends on them in these flags only. -/
theorem generateDbFromSchema_eraseRequired (schema : Schema) :
    (generateDbFromSchema (eraseRequired schema)).1 = (generateDbFromSchema schema).1 ∧
    (generateDbFromSchema (eraseRequired schema)).2
      = eraseRequired (generateDbFromSchema schema).2 := by
  constructor
  · simp only [generateDbFromSchema, eraseRequired, List.map_map]
    congr 1 <;> apply List.map_congr_left <;> intro e _ <;>
      exact createTableSQL_eraseRequired _ e
  · simp only [generateDbFromSchema, eraseRequired, List.map_map]
    congr 1 <;> apply List.map_congr_left <;> intro e _ <;>
      exact assembleEntry_eraseRequired _ e

theorem seedCollection_eraseRequired (w : World) (doc : Node) (entry : Entry) :
    seedCollection w doc
        { entry with fields := entry.fields.map (fun f => { f with required := false }) }
      = seedCollection w doc entry := by
  have hce : collectionElements doc
      { entry with fields := entry.fields.map (fun f => { f with required := false }) }
      = collectionElements doc entry := by
    unfold collectionElements
    cases entry.fields <;> rfl
  have hel : seedElement w doc
      { entry with fields := entry.fields.map (fun f => { f with required := false }) }
      = seedElement w doc entry := by
    funext x
    unfold seedElement
    simp only [foldlM_map_option]
    rfl
  unfold seedCollection
  rw [hce, hel]

theorem seedSingleton_eraseRequired (w : World) (doc : Node) (entry : Entry) :
    seedSingleton w doc
        { entry with fields := entry.fields.map (fun f => { f with required := false }) }
      = seedSingleton w doc entry := by
  unfold seedSingleton
  simp only [foldlM_map_option]
  rfl

/-- The rows of `seedData` do not depend on the `required` flags. -/
theorem seedData_eraseRequired (w : World) (schema : Schema) (doc : Node) :
    seedData w (eraseRequired schema) doc = seedData w schema doc := by
  unfold seedData eraseRequired
  simp only [mapM_map_option, seedCollection_eraseRequired, seedSingleton_eraseRequired]

/-- C26 (required is not enforced). For two schemas that differ only in the `required` flags of
their fields, `generateDbFromSchema` gives the same `CREATE TABLE` statements, none of which
contains `NOT NULL`, and `seedData` builds the same rows from the same document, from the
schemas as given and from the schemas as `generateDbFromSchema` leaves them. -/
theorem required_not_enforced (w : World) (s1 s2 : Schema) (doc : Node)
    (h : eraseRequired s1 = eraseRequired s2) :
    (generateDbFromSchema s1).1 = (generateDbFromSchema s2).1 ∧
    (∀ stmt ∈ (generateDbFromSchema s1).1, jsIncludes stmt "NOT NULL" = false) ∧
    seedData w s1 doc = seedData w s2 doc ∧
    seedData w (generateDbFromSchema s1).2 doc
      = seedData w (generateDbFromSchema s2).2 doc := by
  refine ⟨?_, generateDbFromSchema_no_not_null s1, ?_, ?_⟩
  · rw [← (generateDbFromSchema_eraseRequired s1).1, h, (generateDbFromSchema_eraseRequired s2).1]
  · rw [← seedData_eraseRequired w s1, h, seedData_eraseRequired]
  · rw [← seedData_eraseRequired w (generateDbFromSchema s1).2,
      ← (generateDbFromSchema_eraseRequired s1).2, h, (generateDbFromSchema_eraseRequired s2).2,
      seedData_eraseRequired]

theorem required_not_enforced_witness :
    requiredSchema ≠ reservedSchema ∧
    eraseRequired requiredSchema = eraseRequired reservedSchema ∧
    (generateDbFromSchema requiredSchema).1 = (generateDbFromSchema reservedSchema).1 ∧
    (∀ stmt ∈ (generateDbFromSchema requiredSchema).1, jsIncludes stmt "NOT NULL" = false) ∧
    seedData plainWorld requiredSchema numberedDoc
      = seedData plainWorld reservedSchema numberedDoc ∧
    seedData plainWorld (generateDbFromSchema requiredSchema).2 numberedDoc
      = seedData plainWorld (generateDbFromSchema reservedSchema).2 numberedDoc :=
  ⟨by decide, by decide,
    required_not_enforced plainWorld requiredSchema reservedSchema numberedDoc (by decide)⟩
/-! ## The collection render: what a clone carries -/

theorem isElem_of_holds (sel : Selector) (n : Node) (h : sel.holds n = true) :
    n.isElem = true := by
  unfold Selector.holds at h
  obtain ⟨c, _, hc⟩ := List.any_eq_true.mp h
  unfold Compound.holds at hc
  simp only [Bool.and_eq_true] at hc
  exact hc.1.1.1

theorem findPaths_mem (n : Node) (sel : Selector) (p : Path) (h : p ∈ n.findPaths sel) :
    ∃ el, n.get? p = some el ∧ el.isElem = true := by
  unfold Node.findPaths at h
  obtain ⟨el, hel, hs⟩ := holdsAt_some n sel p (List.mem_filter.mp h).2
  exact ⟨el, hel, isElem_of_holds sel el hs⟩

theorem fieldTargets_mem (item : Node) (field : Field) (targets : List Path)
    (h : fieldTargets item field = some targets) (p : Path) (hp : p ∈ targets) :
    ∃ el, item.get? p = some el ∧ el.isElem = true := by
  unfold fieldTargets at h
  cases hs : parseSelector field.selector with
  | none => rw [hs] at h; simp at h
  | some sel =>
    rw [hs] at h
    simp only at h
    split at h
    · cases hs2 : parseSelector (lastPart field.selector) with
      | none => rw [hs2] at h; simp at h
      | some sel2 =>
        rw [hs2] at h
        simp only [Option.some.injEq] at h
        rw [← h] at hp
        exact findPaths_mem item sel2 p hp
    · simp only [Option.some.injEq] at h
      rw [← h] at hp
      exact findPaths_mem item sel p hp

theorem childNodes_setChildNodes (cs : List Node) (el : Node) (h : el.isElem = true) :
    (el.setChildNodes cs).childNodes = cs := by
  cases el with
  | elem t a c => rfl
  | text d => simp [Node.isElem] at h

theorem attr_setAttr_elem (name v : String) (el : Node) (h : el.isElem = true) :
    (el.setAttr name v).attr name = some v := by
  cases el with
  | elem t a c => exact attr_setAttr name v t a c
  | text d => simp [Node.isElem] at h

/-- What the written element holds after `updateElement`. -/
theorem updateElement_content (w : World) (field : Field) (v : Value) (el el2 : Node)
    (hel : el.isElem = true) (h : updateElement w field v el = some el2) :
    (field.type ≠ "image" → field.type ≠ "rich_text" → v ≠ .undefined →
      el2.childNodes = [.text (jsString v)]) ∧
    (field.type = "rich_text" → v ≠ .undefined →
      el2.childNodes = w.parseHtml el.tag (jsString v)) ∧
    (field.type = "image" → ∀ s, v = .str s → el2.attr "src" = some (resolveAssetPath w s)) := by
  refine ⟨?_, ?_, ?_⟩
  · intro h1 h2 hv
    simp only [updateElement, if_neg h1, if_neg h2, Option.some.injEq] at h
    rw [← h]
    cases v with
    | undefined => exact absurd rfl hv
    | null => exact childNodes_setChildNodes _ _ hel
    | str s => exact childNodes_setChildNodes _ _ hel
    | num n => exact childNodes_setChildNodes _ _ hel
  · intro h2 hv
    have h1 : ¬ field.type = "image" := by rw [h2]; decide
    simp only [updateElement, if_neg h1, if_pos h2, Option.some.injEq] at h
    rw [← h]
    cases v with
    | undefined => exact absurd rfl hv
    | null => exact childNodes_setChildNodes _ _ hel
    | str s => exact childNodes_setChildNodes _ _ hel
    | num n => exact childNodes_setChildNodes _ _ hel
  · intro h1 s hs
    subst hs
    simp only [updateElement, if_pos h1, Option.some.injEq] at h
    rw [← h]
    exact attr_setAttr_elem _ _ _ hel

/-- What the written element holds after the write of `bakeHtml`. -/
theorem bakeWrite_content (w : World) (field : Field) (v : Value) (el : Node)
    (hel : el.isElem = true) :
    (field.type ≠ "image" → field.type ≠ "rich_text" → v ≠ .undefined →
      (bakeWrite w field v el).childNodes = [.text (jsString v)]) ∧
    (field.type = "rich_text" → v ≠ .undefined →
      (bakeWrite w field v el).childNodes = w.parseHtml el.tag (jsString v)) ∧
    (field.type = "image" → ∀ s, v = .str s → (bakeWrite w field v el).attr "src" = some s) := by
  refine ⟨?_, ?_, ?_⟩
  · intro h1 h2 hv
    simp only [bakeWrite, if_neg h1, if_neg h2]
    cases v with
    | undefined => exact absurd rfl hv
    | null => exact childNodes_setChildNodes _ _ hel
    | str s => exact childNodes_setChildNodes _ _ hel
    | num n => exact childNodes_setChildNodes _ _ hel
  · intro h2 hv
    simp only [bakeWrite, if_pos h2]
    cases v with
    | undefined => exact absurd rfl hv
    | null => exact childNodes_setChildNodes _ _ hel
    | str s => exact childNodes_setChildNodes _ _ hel
    | num n => exact childNodes_setChildNodes _ _ hel
  · intro h1 s hs
    subst hs
    have h2 : ¬ field.type = "rich_text" := by rw [h1]; decide
    simp only [bakeWrite, if_neg h2, if_pos h1]
    exact attr_setAttr_elem _ _ _ hel

theorem foldlM_split {α β : Type} (f : β → α → Option β) (x : α) (post : List α) :
    ∀ (pre : List α) (a r : β), (pre ++ x :: post).foldlM f a = some r →
      ∃ b c, pre.foldlM f a = some b ∧ f b x = some c ∧ post.foldlM f c = some r
  | [], a, r, h => by
    simp only [List.nil_append, List.foldlM_cons] at h
    cases hc : f a x with
    | none => rw [hc] at h; simp at h
    | some c => rw [hc] at h; exact ⟨a, c, rfl, hc, h⟩
  | y :: pre, a, r, h => by
    simp only [List.cons_append, List.foldlM_cons] at h
    cases hc : f a y with
    | none => rw [hc] at h; simp at h
    | some a2 =>
      rw [hc] at h
      obtain ⟨b, c, h1, h2, h3⟩ := foldlM_split f x post pre a2 r h
      exact ⟨b, c, by simp only [List.foldlM_cons, hc]; exact h1, h2, h3⟩


theorem foldl_modifyAt_off (f : Node → Node) : ∀ (l : List Path) (n : Node) (q : Path),
    (∀ p ∈ l, ¬ p <+: q ∧ ¬ q <+: p) →
    (l.foldl (fun it p => it.modifyAt f p) n).get? q = n.get? q
  | [], _, _, _ => rfl
  | a :: l, n, q, h => by
    rw [List.foldl_cons, foldl_modifyAt_off f l _ q (fun p hp => h p (by simp [hp]))]
    exact get?_modifyAt_branch f a q n (h a (by simp)).1 (h a (by simp)).2

theorem foldl_modifyAt_on (f : Node → Node) : ∀ (l : List Path) (n : Node),
    l.Pairwise (fun p q => ¬ p <+: q ∧ ¬ q <+: p) →
    ∀ p ∈ l, ∀ el, n.get? p = some el →
      (l.foldl (fun it p => it.modifyAt f p) n).get? p = some (f el)
  | [], _, _, p, hp, _, _ => by simp at hp
  | a :: l, n, hpw, p, hp, el, hel => by
    rw [List.pairwise_cons] at hpw
    rw [List.foldl_cons]
    rcases List.mem_cons.mp hp with e | hp2
    · subst e
      rw [foldl_modifyAt_off f l _ p (fun q hq => ⟨(hpw.1 q hq).2, (hpw.1 q hq).1⟩)]
      exact get?_modifyAt f p n el hel
    · apply foldl_modifyAt_on f l _ hpw.2 p hp2 el
      rw [get?_modifyAt_branch f a p n (hpw.1 p hp2).1 (hpw.1 p hp2).2]
      exact hel

/-- One field step of the preview: the value goes into the first target, or into the clone
itself when there is no target and the clone matches the selector; a field without target is
passed over. -/
theorem previewItemField_writes (w : World) (r : Row) (before after : Node) (field : Field)
    (h : previewItemField w r before field = some after) :
    ∃ targets sel, fieldTargets before field = some targets ∧
      parseSelector field.selector = some sel ∧
      (targets = [] → sel.holds before = false → after = before) ∧
      ∀ p, targets.head? = some p ∨ (targets = [] ∧ sel.holds before = true ∧ p = []) →
        ∃ el el2, before.get? p = some el ∧ after.get? p = some el2 ∧
          updateElement w field (r.get field.name) el = some el2 ∧
          (∀ q, ¬ p <+: q → ¬ q <+: p → after.get? q = before.get? q) ∧
          (field.type ≠ "image" → field.type ≠ "rich_text" → r.get field.name ≠ .undefined →
            el2.childNodes = [.text (jsString (r.get field.name))]) ∧
          (field.type = "rich_text" → r.get field.name ≠ .undefined →
            el2.childNodes = w.parseHtml el.tag (jsString (r.get field.name))) ∧
          (field.type = "image" → ∀ s, r.get field.name = .str s →
            el2.attr "src" = some (resolveAssetPath w s)) := by
  unfold previewItemField at h
  cases ht : fieldTargets before field with
  | none => rw [ht] at h; simp at h
  | some targets =>
    cases hs : parseSelector field.selector with
    | none => rw [ht, hs] at h; simp at h
    | some sel =>
      rw [ht, hs] at h
      simp only at h
      have key : ∀ p ps,
          (if targets.isEmpty && sel.holds before then [[]] else targets) = p :: ps →
          ∃ el el2, before.get? p = some el ∧ after.get? p = some el2 ∧
          updateElement w field (r.get field.name) el = some el2 ∧
          (∀ q, ¬ p <+: q → ¬ q <+: p → after.get? q = before.get? q) ∧
          (field.type ≠ "image" → field.type ≠ "rich_text" → r.get field.name ≠ .undefined →
            el2.childNodes = [.text (jsString (r.get field.name))]) ∧
          (field.type = "rich_text" → r.get field.name ≠ .undefined →
            el2.childNodes = w.parseHtml el.tag (jsString (r.get field.name))) ∧
          (field.type = "image" → ∀ s, r.get field.name = .str s →
            el2.attr "src" = some (resolveAssetPath w s)) := by
        intro p ps hp
        rw [hp] at h
        simp only at h
        cases hg : before.get? p with
        | none => rw [hg] at h; simp at h
        | some el =>
          rw [hg] at h
          simp only at h
          cases hu : updateElement w field (r.get field.name) el with
          | none => rw [hu] at h; simp at h
          | some el2 =>
            rw [hu] at h
            simp only [Option.map_some', Option.some.injEq] at h
            have hel : el.isElem = true := by
              by_cases hc : (targets.isEmpty && sel.holds before) = true
              · rw [if_pos hc] at hp
                simp only [List.cons.injEq] at hp
                rw [← hp.1] at hg
                simp only [Node.get?, Option.some.injEq] at hg
                rw [← hg]
                simp only [Bool.and_eq_true] at hc
                exact isElem_of_holds sel before hc.2
              · rw [if_neg hc] at hp
                obtain ⟨e, he, hee⟩ := fieldTargets_mem before field targets ht p
                  (by rw [hp]; simp)
                rw [hg] at he
                simp only [Option.some.injEq] at he
                rw [he]; exact hee
            refine ⟨el, el2, rfl, ?_, hu, ?_, updateElement_content w field _ el el2 hel hu⟩
            · rw [← h]; exact get?_modifyAt _ p before el hg
            · intro q h1 h2
              rw [← h]; exact get?_modifyAt_branch _ p q before h1 h2
      refine ⟨targets, sel, rfl, rfl, ?_, ?_⟩
      · intro h1 h2
        rw [h1, h2] at h
        simp only [List.isEmpty_nil, Bool.and_false, Bool.false_eq_true, if_false,
          Option.some.injEq] at h
        exact h.symm
      · intro p hp
        rcases hp with hp | ⟨h1, h2, h3⟩
        · cases targets with
          | nil => simp at hp
          | cons a as =>
            simp only [List.head?_cons, Option.some.injEq] at hp
            subst hp
            exact key a as (by simp)
        · subst h3
          exact key [] [] (by simp [h1, h2])

/-- One field step of the export: the value goes into every target; a field without target is
passed over. -/
theorem bakeItemField_writes (w : World) (r : Row) (before after : Node) (field : Field)
    (h : bakeItemField w r before field = some after) :
    ∃ targets, fieldTargets before field = some targets ∧
      (targets = [] → after = before) ∧
      (∀ q, (∀ p ∈ targets, ¬ p <+: q ∧ ¬ q <+: p) → after.get? q = before.get? q) ∧
      (targets.Pairwise (fun p q => ¬ p <+: q ∧ ¬ q <+: p) → ∀ p ∈ targets,
        ∃ el el2, before.get? p = some el ∧ after.get? p = some el2 ∧
          el2 = bakeWrite w field (r.get field.name) el ∧
          (field.type ≠ "image" → field.type ≠ "rich_text" → r.get field.name ≠ .undefined →
            el2.childNodes = [.text (jsString (r.get field.name))]) ∧
          (field.type = "rich_text" → r.get field.name ≠ .undefined →
            el2.childNodes = w.parseHtml el.tag (jsString (r.get field.name))) ∧
          (field.type = "image" → ∀ s, r.get field.name = .str s →
            el2.attr "src" = some s)) := by
  unfold bakeItemField at h
  cases ht : fieldTargets before field with
  | none => rw [ht] at h; simp at h
  | some targets =>
    rw [ht] at h
    simp only [Option.map_some', Option.some.injEq] at h
    refine ⟨targets, rfl, ?_, ?_, ?_⟩
    · intro h1
      rw [h1] at h
      exact h.symm
    · intro q hq
      rw [← h]
      exact foldl_modifyAt_off _ _ _ q (fun p hp => hq p (List.mem_reverse.mp hp))
    · intro hpw p hp
      obtain ⟨el, hel, helem⟩ := fieldTargets_mem before field targets ht p hp
      refine ⟨el, _, hel, ?_, rfl, bakeWrite_content w field _ el helem⟩
      rw [← h]
      apply foldl_modifyAt_on _ _ _ _ p (List.mem_reverse.mpr hp) el hel
      rw [List.pairwise_reverse]
      exact hpw.imp (fun hab => ⟨hab.2, hab.1⟩)

/-- C3 (collection render: count, order and content). Take a collection with the records
`row :: rows`, whose first field's selector has a first match in the document, and let the
template item (the closest item container of that match, or the match itself) be an element
other than the root. If filling a clone of the template succeeds for every record, the
collection step returns a document in which the parent of the template item has exactly the
filled clones as its child nodes: one per record, in the order of the records, each with the tag
of the template item, the `i`-th being the clone filled from the `i`-th record. Filling goes
through the fields in their order, and the step of a field does this to the clone as it stands
(`before`): in `generatePreview` the value of the record is written into the first element that
the field's selector resolves to, or into the clone itself when it resolves to nothing and the
clone matches it; in `bakeHtml` it is written into every element that the selector resolves to
(stated for targets none of which lies inside another). The written element holds the value:
as its only text node for a text field, as its parsed markup for a `rich_text` field, as its
`src` attribute for an `image` field; the nodes beside the targets stay as they were, and a
field that resolves to no element leaves the clone as it was. -/
theorem render_collection_children (w : World) (store : Store) (doc template : Node)
    (collection : Entry) (row : Row) (rows : List Row) (first : Field) (rest : List Field)
    (sel : Selector) (firstMatch : Path) (others : List Path)
    (hstore : store (sanitize collection.name) = some (row :: rows))
    (hfields : collection.fields = first :: rest)
    (hsel : parseSelector first.selector = some sel)
    (hmatch : doc.selectPaths sel = firstMatch :: others)
    (hroot : templateItemPath doc firstMatch ≠ [])
    (htemplate : doc.get? (templateItemPath doc firstMatch) = some template) :
    (∀ items, (row :: rows).mapM (previewItem w collection.fields template) = some items →
      ∃ doc2, previewCollection w store doc collection = some doc2 ∧
        (doc2.get? (templateItemPath doc firstMatch).dropLast).map Node.childNodes = some items ∧
        items.length = rows.length + 1 ∧
        (∀ i : Nat, items[i]? = ((row :: rows)[i]?).bind (previewItem w collection.fields template)) ∧
        (∀ it ∈ items, it.tag = template.tag) ∧
        ∀ (i : Nat) (r : Row) (it : Node), (row :: rows)[i]? = some r → items[i]? = some it →
          ∀ (pre : List Field) (field : Field) (post : List Field),
            collection.fields = pre ++ field :: post →
            ∃ before after targets fsel,
              pre.foldlM (previewItemField w r) template = some before ∧
              previewItemField w r before field = some after ∧
              post.foldlM (previewItemField w r) after = some it ∧
              fieldTargets before field = some targets ∧
              parseSelector field.selector = some fsel ∧
              (targets = [] → fsel.holds before = false → after = before) ∧
              ∀ p, targets.head? = some p ∨ (targets = [] ∧ fsel.holds before = true ∧ p = []) →
                ∃ el el2, before.get? p = some el ∧ after.get? p = some el2 ∧
                  updateElement w field (r.get field.name) el = some el2 ∧
                  (∀ q, ¬ p <+: q → ¬ q <+: p → after.get? q = before.get? q) ∧
                  (field.type ≠ "image" → field.type ≠ "rich_text" →
                    r.get field.name ≠ .undefined →
                    el2.childNodes = [.text (jsString (r.get field.name))]) ∧
                  (field.type = "rich_text" → r.get field.name ≠ .undefined →
                    el2.childNodes = w.parseHtml el.tag (jsString (r.get field.name))) ∧
                  (field.type = "image" → ∀ s, r.get field.name = .str s →
                    el2.attr "src" = some (resolveAssetPath w s))) ∧
    (∀ items, (row :: rows).mapM (bakeItem w collection.fields template) = some items →
      ∃ doc2, bakeCollection w store doc collection = some doc2 ∧
        (doc2.get? (templateItemPath doc firstMatch).dropLast).map Node.childNodes = some items ∧
        items.length = rows.length + 1 ∧
        (∀ i : Nat, items[i]? = ((row :: rows)[i]?).bind (bakeItem w collection.fields template)) ∧
        (∀ it ∈ items, it.tag = template.tag) ∧
        ∀ (i : Nat) (r : Row) (it : Node), (row :: rows)[i]? = some r → items[i]? = some it →
          ∀ (pre : List Field) (field : Field) (post : List Field),
            collection.fields = pre ++ field :: post →
            ∃ before after targets,
              pre.foldlM (bakeItemField w r) template = some before ∧
              bakeItemField w r before field = some after ∧
              post.foldlM (bakeItemField w r) after = some it ∧
              fieldTargets before field = some targets ∧
              (targets = [] → after = before) ∧
              (∀ q, (∀ p ∈ targets, ¬ p <+: q ∧ ¬ q <+: p) → after.get? q = before.get? q) ∧
              (targets.Pairwise (fun p q => ¬ p <+: q ∧ ¬ q <+: p) → ∀ p ∈ targets,
                ∃ el el2, before.get? p = some el ∧ after.get? p = some el2 ∧
                  el2 = bakeWrite w field (r.get field.name) el ∧
                  (field.type ≠ "image" → field.type ≠ "rich_text" →
                    r.get field.name ≠ .undefined →
                    el2.childNodes = [.text (jsString (r.get field.name))]) ∧
                  (field.type = "rich_text" → r.get field.name ≠ .undefined →
                    el2.childNodes = w.parseHtml el.tag (jsString (r.get field.name))) ∧
                  (field.type = "image" → ∀ s, r.get field.name = .str s →
                    el2.attr "src" = some s))) := by
  constructor
  · intro items hitems
    refine ⟨replaceItems doc (templateItemPath doc firstMatch) items, ?_,
      replaceItems_children doc template _ items hroot htemplate, ?_, ?_, ?_, ?_⟩
    · simp only [previewCollection, hstore, hfields, hsel, hmatch, htemplate]
      rw [← hfields, hitems]; rfl
    · simpa using (mapM_getElem? _ _ _ hitems).1
    · exact (mapM_getElem? _ _ _ hitems).2
    · intro it hit
      obtain ⟨r, _, hr⟩ := mapM_mem _ _ _ hitems it hit
      exact previewItem_tag w _ _ _ r hr
    · intro i r it hr hit pre field post hsplit
      have hfill : previewItem w collection.fields template r = some it := by
        have := (mapM_getElem? _ _ _ hitems).2 i
        rw [hit, hr] at this
        exact this.symm
      unfold previewItem at hfill
      rw [hsplit] at hfill
      obtain ⟨before, after, h1, h2, h3⟩ := foldlM_split _ field post pre template it hfill
      obtain ⟨targets, fsel, h4, h5, h6, h7⟩ := previewItemField_writes w r before after field h2
      exact ⟨before, after, targets, fsel, h1, h2, h3, h4, h5, h6, h7⟩
  · intro items hitems
    refine ⟨replaceItems doc (templateItemPath doc firstMatch) items, ?_,
      replaceItems_children doc template _ items hroot htemplate, ?_, ?_, ?_, ?_⟩
    · simp only [bakeCollection, hstore, hfields, hsel, hmatch, htemplate]
      rw [← hfields, hitems]; rfl
    · simpa using (mapM_getElem? _ _ _ hitems).1
    · exact (mapM_getElem? _ _ _ hitems).2
    · intro it hit
      obtain ⟨r, _, hr⟩ := mapM_mem _ _ _ hitems it hit
      exact bakeItem_tag w _ _ _ r hr
    · intro i r it hr hit pre field post hsplit
      have hfill : bakeItem w collection.fields template r = some it := by
        have := (mapM_getElem? _ _ _ hitems).2 i
        rw [hit, hr] at this
        exact this.symm
      unfold bakeItem at hfill
      rw [hsplit] at hfill
      obtain ⟨before, after, h1, h2, h3⟩ := foldlM_split _ field post pre template it hfill
      obtain ⟨targets, h4, h5, h6, h7⟩ := bakeItemField_writes w r before after field h2
      exact ⟨before, after, targets, h1, h2, h3, h4, h5, h6, h7⟩

theorem render_collection_children_witness :
    (∃ doc2, previewCollection plainWorld editedStore testimonialDoc testimonialCollection
        = some doc2 ∧
      (doc2.get? [1, 1]).map Node.childNodes
        = some [testimonialItem "First" "First description",
                testimonialItem "Second" "Second description"]) ∧
    (∃ doc2, bakeCollection plainWorld editedStore testimonialDoc testimonialCollection
        = some doc2 ∧
      (doc2.get? [1, 1]).map Node.childNodes
        = some [testimonialItem "First" "First description",
                testimonialItem "Second" "Second description"]) := by
  have h := render_collection_children plainWorld editedStore testimonialDoc
    (testimonialItem "Ann" "Ann was very happy.") testimonialCollection
    [("title", .str "First"), ("description", .str "First description")]
    [[("title", .str "Second"), ("description", .str "Second description")]]
    nameField [contentField] selNameField [1, 1, 0, 0] [[1, 1, 1, 0], [1, 1, 2, 0]]
    rfl rfl (by decide) (by decide) (by decide) (by decide)
  have hp : (templateItemPath testimonialDoc [1, 1, 0, 0]).dropLast = [1, 1] := by decide
  rw [hp] at h
  obtain ⟨d1, a1, a2, _⟩ := h.1 [testimonialItem "First" "First description",
    testimonialItem "Second" "Second description"] (by decide)
  obtain ⟨d2, b1, b2, _⟩ := h.2 [testimonialItem "First" "First description",
    testimonialItem "Second" "Second description"] (by decide)
  exact ⟨⟨d1, a1, a2⟩, ⟨d2, b1, b2⟩⟩

/-- C3, as the claim has it, fails. In `quoteDoc` no element is an item container, so the
template item is the first `h3` and its parent the first quote. After the render with the two
records of `editedRows` that parent has two children, but they are headings that hold only the
titles (`generatePreview`) or the title of the template (`bakeHtml`); the descriptions of the
records are carried by no child. -/
theorem render_unresolved_field_skipped :
    quoteDoc.selectPaths [selTag "h3"] = [[1, 1, 0, 0], [1, 1, 1, 0]] ∧
    templateItemPath quoteDoc [1, 1, 0, 0] = [1, 1, 0, 0] ∧
    (previewCollection plainWorld editedStore quoteDoc quoteCollection).bind
        (fun d => (d.get? [1, 1, 0]).map Node.childNodes)
      = some [heading "h3" "First", heading "h3" "Second"] ∧
    (bakeCollection plainWorld editedStore quoteDoc quoteCollection).bind
        (fun d => (d.get? [1, 1, 0]).map Node.childNodes)
      = some [heading "h3" "Ann", heading "h3" "Ann"] ∧
    jsIncludes (textOfList [heading "h3" "First", heading "h3" "Second"]) "First description"
      = false := by
  decide

end CMS
